import Mathlib

/-!
# Graphite: the direct-threaded rule machine and the glyph attribute loader

A shallow embedding of

* `src/direct_machine.cpp`  (`direct_run`, `Machine::run`, the `STARTOP` / `ENDOP` / `EXIT`
  dispatch steps),
* `tests/vm/basic_test.cpp` (the test program and the two status message tables),
* `src/GlyphFace.cpp`       (`glat_iterator`, `glat2_iterator`, the `GlyphFace` constructor),
* `src/GlyphFaceCache.cpp`  (`GlyphFaceCacheHeader::initialize`,
  `GlyphFaceCachePreloaded::initialize`),
* `include/graphiteng/SlotHandle.h` (`enum attrCode`),
* `gr2fonttest/gr2FontTest.cpp` (`Parameters::loadFromArgs`, `Parameters::parseFeatures`,
  `Parameters::testFileFont`, `convertUtf`).

Conventions.  Machine integers are `Nat` / `Int` with the wrap-around written out.  A pointer
into a table is the byte offset from the start of that table; a pointer into the machine stack is
the cell offset from `sb = _stack + STACK_GUARD`, so that `sp - sb` is the field `sp` itself and
`_stack[STACK_GUARD + i]` is the cell `i`.  A C string is the list of its bytes without the
terminating NUL, and a pointer into it is the rest of the string from there.
-/

namespace vm

/-! ## Scalars -/

/-- Conversion of a byte to `int8`. -/
def int8 (b : Nat) : Int :=
  if b % 256 < 128 then ((b % 256 : Nat) : Int) else ((b % 256 : Nat) : Int) - 256

/-- Conversion of an integer to `int32` (two's complement wrap-around). -/
def int32 (x : Int) : Int := (x + 2 ^ 31) % 2 ^ 32 - 2 ^ 31

/-- Conversion of a `ptrdiff_t` to `size_t` on an LP64 target: the value modulo `2 ^ 64`.
This is the conversion the division in `ENDOP` applies to `sp - sb`, its right operand
`Machine::STACK_MAX` being unsigned. -/
def size_t (x : Int) : Nat := (x % 2 ^ 64).toNat

/-! ## Statuses -/

/-- The run statuses of `Machine`, in the order of `run_error_msg` in
`tests/vm/basic_test.cpp`, which the test indexes by `m.status()`. -/
inductive status_t
  | finished
  | stack_underflow
  | stack_not_empty
  | stack_overflow
  | slot_offset_out_bounds
  deriving DecidableEq

/-- The table `prog_error_msg` of `tests/vm/basic_test.cpp`: one message for each load status
of a program, indexed by `prog.status()`. -/
def prog_error_msg : List String :=
  ["loaded", "alloc_failed", "invalid_opcode", "unimplemented_opcode_used", "jump_past_end",
   "arguments_exhausted", "missing_return"]

/-- Index of a run status in `run_error_msg` (the value of the enumerator). -/
def status_t.toNat : status_t → Nat
  | .finished => 0
  | .stack_underflow => 1
  | .stack_not_empty => 2
  | .stack_overflow => 3
  | .slot_offset_out_bounds => 4

/-! ## Registers of `direct_run` -/

/-- The virtual machine registers declared at the top of `direct_run`, without `ip` (the
program from `ip` on is the list `direct_run` recurses over) and without `endPos`.
`dp` is the data block from the data pointer on; `sp` is `sp - sb`; `stack i` is the cell
`sb[i]`; `seg` is the segment the program works on. -/
structure Regs (σ : Type) where
  dp : List Nat
  sp : Int
  stack : Int → Int
  seg : σ
  is : Int
  isf : Int
  isl : Int
  isb : Int
  copies : List Int

/-- The initialiser `int8 copies[64] = {-1}`: the first element is given, the remaining 63 are
zero-initialised. -/
def copies_init : List Int := (-1) :: List.replicate 63 0

/-- The registers as `direct_run` declares them before `goto **ip`. -/
def Regs.init {σ : Type} (data : List Nat) (stack : Int → Int) (seg : σ) (islot_idx iStart : Int) :
    Regs σ :=
  { dp := data, sp := 0, stack := stack, seg := seg, is := islot_idx, isf := -1, isl := -1,
    isb := iStart, copies := copies_init }

/-- An entry of the program: the address of an instruction body.  A body either falls through
to `ENDOP` (`startop`) or leaves through `EXIT(status)` (`exitop`, which hands the value to be
pushed to `EXIT`). -/
inductive instr (σ : Type) where
  | startop (body : Regs σ → Regs σ)
  | exitop (body : Regs σ → Regs σ × Int)

/-- Modelled from the spec: the macro `push(n)` of opcodes.h, which is not among the sources
(§4.D: a body "pushes its result"); `EXIT(status)` in direct_machine.cpp uses it.
`*++sp = n`: `sp` points at the top cell, as `Machine::run` requires when it takes the one
remaining value from `*sp` at `sp == _stack+STACK_GUARD+1`; the cell at `sb` is below the
first value pushed. -/
def push {σ : Type} (n : Int) (r : Regs σ) : Regs σ :=
  { r with sp := r.sp + 1, stack := Function.update r.stack (r.sp + 1) n }

/-- Modelled from the spec: the macro `pop()` of opcodes.h, which is not among the sources
(§4.D: a body "pops its operands from the stack").  `*sp--`. -/
def pop {σ : Type} (r : Regs σ) : Int × Regs σ :=
  (r.stack r.sp, { r with sp := r.sp - 1 })

/-- Modelled from the spec: `declare_params(1)` of opcodes.h (§4.D: a body "reads any
immediate bytes", which the loader has moved to the data block): the byte at `dp`, and `dp`
advanced by one.  A read past the end of the data block is taken to give 0. -/
def param {σ : Type} (r : Regs σ) : Nat × Regs σ :=
  (r.dp.headD 0, { r with dp := r.dp.tail })

/-- Modelled from the spec: the body of PUSH_BYTE in opcodes.h, which is not among the sources
(§4.D "push byte"): one immediate byte, pushed as an `int8`. -/
def push_byte {σ : Type} (r : Regs σ) : Regs σ :=
  let (b, r) := param r
  push (int8 b) r

/-- Modelled from the spec: a binary arithmetic body of opcodes.h (§4.D "add, sub"): the top of
the stack is popped and combined into the cell below it. -/
def binop {σ : Type} (op : Int → Int → Int) (r : Regs σ) : Regs σ :=
  let (a, r) := pop r
  { r with stack := Function.update r.stack r.sp (int32 (op (r.stack r.sp) a)) }

/-- Modelled from the spec: the body of COND in opcodes.h, which is not among the sources.
It pops three operands and pushes one result (§4.D); the spec does not say which, so the
choice `pick deepest middle top` is a parameter of the body. -/
def cond {σ : Type} (pick : Int → Int → Int → Int) (r : Regs σ) : Regs σ :=
  let (f, r) := pop r
  let (t, r) := pop r
  let (c, r) := pop r
  push (pick c t f) r

/-- Modelled from the spec: the body of POP_RET in opcodes.h, which is not among the sources
(§4.D "pop-and-return"): the top of the stack is popped and handed to `EXIT`. -/
def pop_ret {σ : Type} (r : Regs σ) : Regs σ × Int :=
  let (ret, r) := pop r
  (r, ret)

def PUSH_BYTE {σ : Type} : instr σ := .startop push_byte
def ADD {σ : Type} : instr σ := .startop (binop (· + ·))
def SUB {σ : Type} : instr σ := .startop (binop (· - ·))
def COND {σ : Type} (pick : Int → Int → Int → Int) : instr σ := .startop (cond pick)
def POP_RET {σ : Type} : instr σ := .exitop pop_ret

/-! ## `direct_run` and `Machine::run` -/

/-- The test of `ENDOP`: `(sp - sb)/Machine::STACK_MAX ? &&end : *++ip`.  True when control
goes to `end`. -/
def ENDOP (STACK_MAX : Nat) (sp : Int) : Bool :=
  size_t sp / STACK_MAX != 0

/-- The body of `direct_run` after `get_table_mode`: starting at `goto **ip`, the instruction
at `ip` is executed; `ENDOP` then either jumps to `end` or dispatches `*++ip`; `EXIT` pushes
its status and jumps to `end`.  The result is the register file at `end`, together with the
register file at the start of each instruction that was executed, in order.  There is no
result when `ip` leaves the program. -/
def direct_run {σ : Type} (STACK_MAX : Nat) :
    List (instr σ) → Regs σ → Option (Regs σ × List (Regs σ))
  | [], _ => none
  | .startop body :: rest, r =>
      if ENDOP STACK_MAX (body r).sp then some (body r, [r])
      else (direct_run STACK_MAX rest (body r)).map (fun x => (x.1, r :: x.2))
  | .exitop body :: _, r => some (push (body r).2 (body r).1, [r])

/-- Modelled from the spec: `Machine::check_final_stack` of Machine.h, which is not among the
sources.  §4.D names the statuses and §8 the bounds of the stack: a final stack pointer below
the base is `stack_underflow`, one at or above `base + STACK_MAX` is `stack_overflow`, one
above the base is `stack_not_empty`, one at the base is `finished`. -/
def check_final_stack (STACK_MAX : Nat) (sp : Int) : status_t :=
  if sp < 0 then .stack_underflow
  else if sp ≥ STACK_MAX then .stack_overflow
  else if sp ≠ 0 then .stack_not_empty
  else .finished

/-- What a call of `Machine::run` leaves: the returned value, the status, the slot index
written back through `islot_idx`, the stack array of the machine and the segment. -/
structure RunResult (σ : Type) where
  ret : Int
  status : status_t
  islot_idx : Int
  _stack : Int → Int
  seg : σ

/-- The line `const stack_t ret = sp == _stack+STACK_GUARD+1 ? *sp-- : 0;` of `Machine::run`,
for the pointer `sp` that `direct_run` returned: the local `ret`, and `sp` after the line. -/
def Machine.ret_sp {σ : Type} (r : Regs σ) : Int × Int :=
  if r.sp = 1 then (r.stack r.sp, r.sp - 1) else (0, r.sp)

/-- `Machine::run`: `direct_run(false, program, data, _stack, &seg, islot_idx, iStart)`, the
line that sets `ret` and `sp`, `check_final_stack(sp, status)`, and `return *sp`. -/
def Machine.run {σ : Type} (STACK_MAX : Nat) (program : List (instr σ)) (data : List Nat)
    (_stack : Int → Int) (seg : σ) (islot_idx iStart : Int) : Option (RunResult σ) :=
  (direct_run STACK_MAX program (Regs.init data _stack seg islot_idx iStart)).map fun x =>
    { ret := x.1.stack (Machine.ret_sp x.1).2
      status := check_final_stack STACK_MAX (Machine.ret_sp x.1).2
      islot_idx := x.1.is
      _stack := x.1.stack
      seg := x.1.seg }

/-! ## The test program -/

/-- The program `simple_prog` of `tests/vm/basic_test.cpp` followed by the `POP_RET` that
`main` appends, in loaded form: the instruction bodies. -/
def simple_prog {σ : Type} (pick : Int → Int → Int → Int) : List (instr σ) :=
  [PUSH_BYTE, PUSH_BYTE, PUSH_BYTE, PUSH_BYTE, ADD, PUSH_BYTE, SUB, COND pick, POP_RET]

/-- The immediate bytes of `simple_prog`, in program order. -/
def simple_data : List Nat := [43, 42, 11, 13, 4]

/-- The test program with `COND` uncommented a second time ("Uncomment to cause an
underflow"), followed by `POP_RET`, in loaded form. -/
def underflow_prog {σ : Type} (pick : Int → Int → Int → Int) : List (instr σ) :=
  [PUSH_BYTE, PUSH_BYTE, PUSH_BYTE, PUSH_BYTE, ADD, PUSH_BYTE, SUB, COND pick, COND pick, POP_RET]

/-- The repeated part of the test program as it stands,
`&simple_prog[2] .. simple_prog + sizeof simple_prog`, in loaded form. -/
def simple_body {σ : Type} (pick : Int → Int → Int → Int) : List (instr σ) :=
  [PUSH_BYTE, PUSH_BYTE, PUSH_BYTE, ADD, PUSH_BYTE, SUB, COND pick]

/-- The immediate bytes of one copy of `simple_body`. -/
def simple_body_data : List Nat := [42, 11, 13, 4]

/-- The loop `for(; copies; --copies) big_prog.insert(...)` of `main` for the test program as
it stands, followed by `big_prog.push_back(POP_RET)`. -/
def big_copies {σ : Type} (pick : Int → Int → Int → Int) : Nat → List (instr σ)
  | 0 => [POP_RET]
  | n + 1 => simple_body pick ++ big_copies pick n

/-- The immediate bytes of `big_copies`. -/
def big_copies_data : Nat → List Nat
  | 0 => []
  | n + 1 => simple_body_data ++ big_copies_data n

/-- The amplified program `big_prog` of `main`: `simple_prog[0], simple_prog[1]`, then `copies`
bodies, then `POP_RET`. -/
def big_prog {σ : Type} (pick : Int → Int → Int → Int) (copies : Nat) : List (instr σ) :=
  PUSH_BYTE :: big_copies pick copies

/-- The immediate bytes of `big_prog`. -/
def big_data (copies : Nat) : List Nat := 43 :: big_copies_data copies

/-- The value the amplified program computes with `copies` repetitions of the body: it
starts from the 43 of the leading PUSH_BYTE, and COND replaces it once in each repetition,
its other two operands being 42 and 11 + 13 - 4 = 20. -/
def big_prog_result (pick : Int → Int → Int → Int) (copies : Nat) : Int :=
  (fun c => pick c 42 20)^[copies] 43

/-! ## Loading and running the program in the test -/

/-- Modelled from the spec: the status of a loaded program, `Code::status_t` of Code.h, which
is not among the sources. §4.C lists the six errors the loader reports; with `loaded` they
are the seven entries of `prog_error_msg`, which the test indexes by `prog.status()`. -/
inductive load_status where
  | loaded
  | alloc_failed
  | invalid_opcode
  | unimplemented_opcode_used
  | jump_past_end
  | arguments_exhausted
  | missing_return
  deriving DecidableEq

/-- Modelled from the spec: the value of a load status, its index in `prog_error_msg` (Code.h
is not among the sources; the test's table gives the order). -/
def load_status.toNat : load_status → Nat
  | .loaded => 0
  | .alloc_failed => 1
  | .invalid_opcode => 2
  | .unimplemented_opcode_used => 3
  | .jump_past_end => 4
  | .arguments_exhausted => 5
  | .missing_return => 6

end vm

namespace graphite2

/-! ## Reading the `Glat` and `Gloc` tables -/

/-- The `struct glyph_attr { uint16 id, value; }` of GlyphFace.cpp. -/
structure glyph_attr where
  id : Nat
  value : Nat
  deriving DecidableEq

/-- Modelled from the spec: the big-endian 16-bit load behind `read16` and `swap16`, which are
not among the sources (§4.A: "Every multi-byte integer is big-endian").  `m` gives the byte at
each offset from the table pointer. -/
def be16 (m : Nat → Nat) (p : Nat) : Nat := m p % 256 * 256 + m (p + 1) % 256

/-- Modelled from the spec: the big-endian 32-bit load behind `swap32`, which is not among the
sources (§4.A: "Every multi-byte integer is big-endian"). -/
def be32 (m : Nat → Nat) (p : Nat) : Nat :=
  ((m p % 256 * 256 + m (p + 1) % 256) * 256 + m (p + 2) % 256) * 256 + m (p + 3) % 256

/-- The members of `glat_iterator` (`_p` as an offset into the Glat table, `_v`, `_n`),
together with the offsets the iterator has dereferenced so far, oldest first. -/
structure glat_iterator where
  _p : Nat
  _v : glyph_attr
  _n : Nat
  reads : List Nat

/-- The `--_n` of an `unsigned int`. -/
def dec32 (n : Nat) : Nat := (n + (2 ^ 32 - 1)) % 2 ^ 32

/-- `glat_iterator::operator ++ ()`:
`++_v.id; if (_n==0) { _v.id = *_p++; _n = *_p++; } --_n; _v.value = read16(_p);`. -/
def glat_iterator.increment (m : Nat → Nat) (it : glat_iterator) : glat_iterator :=
  if it._n = 0 then
    { _p := it._p + 4
      _v := { id := m it._p % 256, value := be16 m (it._p + 2) }
      _n := dec32 (m (it._p + 1) % 256)
      reads := it.reads ++ [it._p, it._p + 1, it._p + 2, it._p + 3] }
  else
    { _p := it._p + 2
      _v := { id := (it._v.id + 1) % 65536, value := be16 m it._p }
      _n := dec32 it._n
      reads := it.reads ++ [it._p, it._p + 1] }

/-- `glat2_iterator::operator ++ ()`:
`++_v.id; if (!_n) { _v.id = read16(_p); _n = read16(_p); } --_n; _v.value = read16(_p);`. -/
def glat2_iterator.increment (m : Nat → Nat) (it : glat_iterator) : glat_iterator :=
  if it._n = 0 then
    { _p := it._p + 6
      _v := { id := be16 m it._p, value := be16 m (it._p + 4) }
      _n := dec32 (be16 m (it._p + 2))
      reads := it.reads ++ [it._p, it._p + 1, it._p + 2, it._p + 3, it._p + 4, it._p + 5] }
  else
    { _p := it._p + 2
      _v := { id := (it._v.id + 1) % 65536, value := be16 m it._p }
      _n := dec32 it._n
      reads := it.reads ++ [it._p, it._p + 1] }

/-- The constructor `glat_iterator(const void * glat)`: `_p(glat), _n(0)`, then
`operator++()`.  `_v` is not initialised by the constructor; the increment overwrites both of
its members because `_n` is 0, so the value it starts from is immaterial. -/
def glat_iterator.make (m : Nat → Nat) (glat : Nat) : glat_iterator :=
  glat_iterator.increment m { _p := glat, _v := { id := 0, value := 0 }, _n := 0, reads := [] }

/-- The constructor `glat2_iterator(const void * glat)`: `_p = glat; _n = 0; operator++();`. -/
def glat2_iterator.make (m : Nat → Nat) (glat : Nat) : glat_iterator :=
  glat2_iterator.increment m { _p := glat, _v := { id := 0, value := 0 }, _n := 0, reads := [] }

/-- `glat_iterator::operator ==`: the pointers are compared, nothing else. -/
def glat_iterator.eq (a b : glat_iterator) : Bool := a._p == b._p

/-- Iteration over the range `[first, last)` of an input iterator, as the constructor of
`sparse` receives it: `for (; first != last; ++first)` with `*first` taken at each step.
The result is the sequence of values and the iterator at which the loop stopped; there is no
result when `fuel` increments do not reach `last`. -/
def iterate (incr : glat_iterator → glat_iterator) :
    Nat → glat_iterator → glat_iterator → Option (List glyph_attr × glat_iterator)
  | 0, first, last => if first.eq last then some ([], first) else none
  | fuel + 1, first, last =>
      if first.eq last then some ([], first)
      else (iterate incr fuel (incr first) last).map (fun x => (first._v :: x.1, x.2))

/-- The members of `GlyphFaceCacheHeader` that `GlyphFaceCacheHeader::initialize` and the
`GlyphFace` constructor use for the attributes.  A table pointer is the map from offsets to
bytes; offsets at or beyond the length of a table stand for the memory that follows it. -/
structure GlyphFaceCacheHeader where
  m_pGloc : Nat → Nat
  m_pGlat : Nat → Nat
  m_lGlat : Nat
  m_fGlat : Nat
  m_numAttrs : Nat
  m_locFlagsUse32Bit : Bool
  m_nGlyphsWithGraphics : Nat
  m_nGlyphsWithAttributes : Nat
  m_nGlyphs : Nat

/-- What the attribute part of the `GlyphFace` constructor does: `attrs` is the sequence
handed to `sparse` (`none` when `m_attrs` is not constructed), `gloc_reads` and `glat_reads`
are the offsets read in the two tables. -/
structure AttrLoad where
  attrs : Option (List glyph_attr)
  gloc_reads : List Nat
  glat_reads : List Nat

/-- The two location entries the `GlyphFace` constructor reads for a glyph, with the offsets
of the bytes read: `((uint32 *)m_pGloc)[2+glyphid]`, `[3+glyphid]` when `m_locFlagsUse32Bit`,
else `((uint16 *)m_pGloc)[4+glyphid]`, `[5+glyphid]`. -/
def gloc_entries (hdr : GlyphFaceCacheHeader) (glyphid : Nat) : Nat × Nat × List Nat :=
  if hdr.m_locFlagsUse32Bit then
    (be32 hdr.m_pGloc (4 * (2 + glyphid)), be32 hdr.m_pGloc (4 * (3 + glyphid)),
      (List.range 8).map (fun i => 4 * (2 + glyphid) + i))
  else
    (be16 hdr.m_pGloc (2 * (4 + glyphid)), be16 hdr.m_pGloc (2 * (5 + glyphid)),
      (List.range 4).map (fun i => 2 * (4 + glyphid) + i))

/-- The attribute part of `GlyphFace::GlyphFace(hdr, glyphid)` (from
`if (glyphid < hdr.m_nGlyphsWithAttributes)` on).  There is no result when the iteration over
the attribute runs does not reach the end iterator within `fuel` increments. -/
def GlyphFace_attrs (fuel : Nat) (hdr : GlyphFaceCacheHeader) (glyphid : Nat) :
    Option AttrLoad :=
  if glyphid < hdr.m_nGlyphsWithAttributes then
    let glocs := (gloc_entries hdr glyphid).1
    let gloce := (gloc_entries hdr glyphid).2.1
    let gloc_reads := (gloc_entries hdr glyphid).2.2
    if glocs < hdr.m_lGlat ∧ gloce ≤ hdr.m_lGlat then
      if hdr.m_fGlat < 0x00020000 then
        let last := glat_iterator.make hdr.m_pGlat gloce
        (iterate (glat_iterator.increment hdr.m_pGlat) fuel
            (glat_iterator.make hdr.m_pGlat glocs) last).map fun x =>
          { attrs := some x.1, gloc_reads := gloc_reads, glat_reads := x.2.reads ++ last.reads }
      else
        let last := glat2_iterator.make hdr.m_pGlat gloce
        (iterate (glat2_iterator.increment hdr.m_pGlat) fuel
            (glat2_iterator.make hdr.m_pGlat glocs) last).map fun x =>
          { attrs := some x.1, gloc_reads := gloc_reads, glat_reads := x.2.reads ++ last.reads }
    else some { attrs := none, gloc_reads := gloc_reads, glat_reads := [] }
  else some { attrs := none, gloc_reads := [], glat_reads := [] }

/-- The tables `GlyphFaceCacheHeader::initialize` asks the face for, in the order of its
requests (`tagLoca`, `tagHead`, ...). -/
inductive Tag
  | loca | head | glyf | hmtx | hhea | Glat | maxp | Gloc
  deriving DecidableEq

/-- A table as `IFace::getTable` hands it out: the pointer (bytes by offset) and the length. -/
structure Table where
  bytes : Nat → Nat
  len : Nat

/-- The subtraction `lGloc - k` of a `size_t` on an LP64 target. -/
def size_sub (a k : Nat) : Nat := (a % 2 ^ 64 + (2 ^ 64 - k % 2 ^ 64)) % 2 ^ 64

/-- `GlyphFaceCacheHeader::initialize(iFace)`.  `getTable` is `iFace->getTable` (`none` for
NULL), `GlyphCount` is `TtfUtil::GlyphCount`, which is not among the sources, and `hdr` holds
the members before the call; the members `initialize` does not assign (`m_lGlat`, `m_fGlat`)
keep their values.  The result is `none` when `initialize` returns false, else the header and
the offsets read in the Gloc table. -/
def GlyphFaceCacheHeader_initialize (getTable : Tag → Option Table)
    (GlyphCount : (Nat → Nat) → Nat) (hdr : GlyphFaceCacheHeader) :
    Option (GlyphFaceCacheHeader × List Nat) :=
  match getTable .loca, getTable .head, getTable .glyf, getTable .hmtx, getTable .hhea,
      getTable .Glat, getTable .maxp, getTable .Gloc with
  | some _, some _, some _, some _, some _, some pGlat, some pMaxp, some pGloc =>
      let nGlyphsWithGraphics := GlyphCount pMaxp.bytes % 65536
      let lGloc := pGloc.len
      if lGloc < 6 then none
      else if be32 pGloc.bytes 0 ≠ 0x00010000 then none
      else
        let numAttrs := be16 pGloc.bytes 6
        let locFlags := be16 pGloc.bytes 4
        let use32 : Bool := locFlags % 2 = 1
        let nGlyphsWithAttributes :=
          if use32 then size_sub lGloc 10 / 4 % 65536 else size_sub lGloc 8 / 2 % 65536
        some ({ hdr with
                m_pGloc := pGloc.bytes
                m_pGlat := pGlat.bytes
                m_numAttrs := numAttrs
                m_locFlagsUse32Bit := use32
                m_nGlyphsWithGraphics := nGlyphsWithGraphics
                m_nGlyphsWithAttributes := nGlyphsWithAttributes
                m_nGlyphs := if nGlyphsWithAttributes > nGlyphsWithGraphics
                             then nGlyphsWithAttributes else nGlyphsWithGraphics },
              [0, 1, 2, 3, 6, 7, 4, 5])
  | _, _, _, _, _, _, _, _ => none

/-! ## The attribute runs of a glyph, as the format describes them -/

/-- Specification side: a run of attributes, the id of its first attribute and its values. -/
structure Run where
  id : Nat
  values : List Nat

/-- Specification side: a 16-bit value, big-endian. -/
def enc16 (v : Nat) : List Nat := [v / 256, v % 256]

/-- Specification side: the values of a run, each 16-bit big-endian. -/
def values_bytes : List Nat → List Nat
  | [] => []
  | v :: vs => enc16 v ++ values_bytes vs

/-- Specification side: a run with 1-byte headers, `[id][count][count values]`. -/
def run_v1_bytes (r : Run) : List Nat := [r.id, r.values.length] ++ values_bytes r.values

/-- Specification side: a run with 2-byte headers, `[id][count][count values]`, all 16-bit
big-endian. -/
def run_v2_bytes (r : Run) : List Nat :=
  enc16 r.id ++ enc16 r.values.length ++ values_bytes r.values

/-- Specification side: a concatenation of runs with 1-byte headers. -/
def runs_v1_bytes : List Run → List Nat
  | [] => []
  | r :: rs => run_v1_bytes r ++ runs_v1_bytes rs

/-- Specification side: a concatenation of runs with 2-byte headers. -/
def runs_v2_bytes : List Run → List Nat
  | [] => []
  | r :: rs => run_v2_bytes r ++ runs_v2_bytes rs

/-- Specification side: the pairs `(id + k, value_k)` of a run, `k = 0, 1, ...`. -/
def run_pairs (id : Nat) : List Nat → List glyph_attr
  | [] => []
  | v :: vs => { id := id, value := v } :: run_pairs (id + 1) vs

/-- Specification side: the pairs of a list of runs, run after run. -/
def runs_pairs : List Run → List glyph_attr
  | [] => []
  | r :: rs => run_pairs r.id r.values ++ runs_pairs rs

/-- The number of values in a list of runs. -/
def runs_count : List Run → Nat
  | [] => 0
  | r :: rs => r.values.length + runs_count rs

/-- An attribute id as a `uint16` holds it. -/
def wrap_id (a : glyph_attr) : glyph_attr := { id := a.id % 65536, value := a.value }

/-- Specification side: runs that 1-byte headers can hold: the id is a byte, the count is a
byte and at least 1, the values are 16-bit. -/
def runs_v1_ok (rs : List Run) : Prop :=
  ∀ r ∈ rs, r.id < 256 ∧ 1 ≤ r.values.length ∧ r.values.length < 256 ∧
    ∀ v ∈ r.values, v < 65536

/-- Specification side: runs that 2-byte headers can hold: the id is 16-bit, the count is
16-bit and at least 1, the values are 16-bit. -/
def runs_v2_ok (rs : List Run) : Prop :=
  ∀ r ∈ rs, r.id < 65536 ∧ 1 ≤ r.values.length ∧ r.values.length < 65536 ∧
    ∀ v ∈ r.values, v < 65536

/-- The bytes `bs` stand in the table `m` from offset `p` on. -/
def bytes_at (m : Nat → Nat) (p : Nat) : List Nat → Prop
  | [] => True
  | b :: bs => m p = b ∧ bytes_at m (p + 1) bs

instance runs_v1_ok_decidable (rs : List Run) : Decidable (runs_v1_ok rs) := by
  unfold runs_v1_ok; infer_instance

instance runs_v2_ok_decidable (rs : List Run) : Decidable (runs_v2_ok rs) := by
  unfold runs_v2_ok; infer_instance

/-- Deciding `bytes_at` byte by byte. -/
def bytes_at_decide (m : Nat → Nat) : (bs : List Nat) → (p : Nat) → Decidable (bytes_at m p bs)
  | [], _ => isTrue trivial
  | b :: bs, p =>
    match Nat.decEq (m p) b, bytes_at_decide m bs (p + 1) with
    | isTrue h1, isTrue h2 => isTrue ⟨h1, h2⟩
    | isFalse h1, _ => isFalse fun h => h1 h.1
    | _, isFalse h2 => isFalse fun h => h2 h.2

instance bytes_at_decidable (m : Nat → Nat) (p : Nat) (bs : List Nat) :
    Decidable (bytes_at m p bs) := bytes_at_decide m bs p

/-- A table with the bytes `l`, followed in memory by zero bytes. -/
def table_of (l : List Nat) : Nat → Nat := fun i => l.getD i 0

/-- A header over a Gloc table `gloc` with 16-bit entries and a Glat table `glat` of version
`fGlat`, for `n` glyphs with attributes; `m_lGlat` is the length of `glat`. -/
def header_of (gloc glat : List Nat) (fGlat n : Nat) : GlyphFaceCacheHeader :=
  { m_pGloc := table_of gloc, m_pGlat := table_of glat, m_lGlat := glat.length,
    m_fGlat := fGlat, m_numAttrs := 0, m_locFlagsUse32Bit := false,
    m_nGlyphsWithGraphics := 0, m_nGlyphsWithAttributes := n, m_nGlyphs := n }

/-- A Gloc table with 16-bit entries: version 0x00010000, flags 0, attribute count 0, then
the location entries `offsets`, big-endian. -/
def gloc16_table (offsets : List Nat) : List Nat :=
  [0, 1, 0, 0, 0, 0, 0, 0] ++ values_bytes offsets

/-- A Glat table of version 1 with the attributes of one glyph in the range `[4, 14)`: the
runs (5; 7, 9) and (8; 256). -/
def glat_v1_two_runs : List Nat := [0, 1, 0, 0, 5, 2, 0, 7, 0, 9, 8, 1, 1, 0]

/-- A Glat table of version 1 with the attributes of one glyph in the range `[4, 8)`, the end
of the table: the run (5; 7). -/
def glat_v1_one_run : List Nat := [0, 1, 0, 0, 5, 1, 0, 7]

/-- A Glat table of version 2 with the attributes of one glyph in the range `[4, 12)`: the run
(65535; 7, 9). -/
def glat_v2_one_run : List Nat := [0, 2, 0, 0, 255, 255, 0, 2, 0, 7, 0, 9]

/-- A face that hands out the table `gloc` for `Gloc` and an empty table for every other
tag. -/
def face_of (gloc : List Nat) : Tag → Option Table
  | .Gloc => some { bytes := table_of gloc, len := gloc.length }
  | _ => some { bytes := table_of [], len := 0 }

/-- A Glat table of version 1 with two runs, (5; 7) in `[4, 8)` and (6; 8) in `[8, 12)`. -/
def glat_v1_two_glyphs : List Nat := [0, 1, 0, 0, 5, 1, 0, 7, 6, 1, 0, 8]

/-! ## The metrics of a glyph and the preloaded glyph cache -/

/-- The value of `static_cast<float>(n)` for a natural number `n`: `n` rounded to 24
significant bits, ties to even.  (No `unsigned int` is large enough to overflow a float.) -/
def float_of_nat (n : Nat) : Nat :=
  let e := (Nat.log2 n + 1) - 24
  let q := n / 2 ^ e
  let r := n % 2 ^ e
  if 2 * r > 2 ^ e ∨ (2 * r = 2 ^ e ∧ q % 2 = 1) then (q + 1) * 2 ^ e else q * 2 ^ e

/-- The value of `static_cast<float>(z)` for an integer `z`. -/
def float_of_int (z : Int) : Int :=
  if z < 0 then -((float_of_nat z.natAbs : Nat) : Int) else ((float_of_nat z.natAbs : Nat) : Int)

/-- Modelled from the spec: the class `Position` of Position.h, which is not among the sources:
a pair of float coordinates (§3 "advance `(ax, ay)`"); a coordinate is held by its value,
which is an integer for every value the `GlyphFace` constructor stores. -/
structure Position where
  x : Int
  y : Int
  deriving DecidableEq

/-- Modelled from the spec: the default `Position()`, the origin (the class is not among the
sources; the claim's "(0, 0)"). -/
def Position.zero : Position := { x := 0, y := 0 }

/-- Modelled from the spec: the class `Rect` of Position.h, which is not among the sources:
the bottom left and top right corners (§3 "bounding box `(xmin,ymin,xmax,ymax)`"). -/
structure Rect where
  bl : Position
  tr : Position
  deriving DecidableEq

/-- Modelled from the spec: the default `Rect()`, both corners at the origin (the class is not
among the sources; the claim's "zero rectangle"). -/
def Rect.zero : Rect := { bl := Position.zero, tr := Position.zero }

/-- The functions of `TtfUtil` that the `GlyphFace` constructor calls, which are not among the
sources, applied to the tables of the header: `LocaLookup g` is
`TtfUtil::LocaLookup(g, m_pLoca, m_lLoca, m_pHead)`, `GlyfLookup i` is
`TtfUtil::GlyfLookup(m_pGlyf, i, m_lGlyf)` (`none` for NULL), `HorMetrics g` is
`TtfUtil::HorMetrics(g, m_pHmtx, m_lHmtx, m_pHHea, nLsb, nAdvWid)` (`none` for false, else
`nLsb` and `nAdvWid`), `GlyfBox p` is `TtfUtil::GlyfBox(p, xMin, yMin, xMax, yMax)` (`none` for
false, else the four values). -/
structure TtfUtil (γ : Type) where
  LocaLookup : Nat → Nat
  GlyfLookup : Nat → Option γ
  HorMetrics : Nat → Option (Int × Nat)
  GlyfBox : γ → Option (Int × Int × Int × Int)

/-- The first part of `GlyphFace::GlyphFace(hdr, glyphid)`: `m_advance` and `m_bbox`. -/
def GlyphFace_metrics {γ : Type} (ttf : TtfUtil γ) (hdr : GlyphFaceCacheHeader)
    (glyphid : Nat) : Position × Rect :=
  if glyphid < hdr.m_nGlyphsWithGraphics then
    let locidx := ttf.LocaLookup glyphid
    let pGlyph := ttf.GlyfLookup locidx
    let m_advance : Position :=
      match ttf.HorMetrics glyphid with
      | some (_, nAdvWid) => { x := float_of_int nAdvWid, y := 0 }
      | none => Position.zero
    let m_bbox : Rect :=
      match pGlyph with
      | some p =>
        match ttf.GlyfBox p with
        | some (xMin, yMin, xMax, yMax) =>
          { bl := { x := float_of_int xMin, y := float_of_int yMin },
            tr := { x := float_of_int xMax, y := float_of_int yMax } }
        | none => Rect.zero
      | none => Rect.zero
    (m_advance, m_bbox)
  else (Position.zero, Rect.zero)

/-- A `GlyphFace` as its constructor leaves it: the advance, the bounding box, and what the
attribute part did. -/
structure GlyphFace where
  m_advance : Position
  m_bbox : Rect
  load : AttrLoad

/-- `GlyphFace::GlyphFace(hdr, glyphid)`.  There is no result when the iteration over the
attribute runs does not end within `fuel` increments. -/
def GlyphFace_make {γ : Type} (fuel : Nat) (ttf : TtfUtil γ) (hdr : GlyphFaceCacheHeader)
    (glyphid : Nat) : Option GlyphFace :=
  (GlyphFace_attrs fuel hdr glyphid).map fun a =>
    { m_advance := (GlyphFace_metrics ttf hdr glyphid).1
      m_bbox := (GlyphFace_metrics ttf hdr glyphid).2
      load := a }

/-- The loop `for (unsigned int i = 0; i < nGlyphs; i++) new(m_glyphs + i) GlyphFace(*this, i)`
of `GlyphFaceCachePreloaded::initialize`: the glyphs 0 .. n-1. -/
def preload_glyphs {γ : Type} (fuel : Nat) (ttf : TtfUtil γ) (hdr : GlyphFaceCacheHeader) :
    Nat → Option (List GlyphFace)
  | 0 => some []
  | n + 1 =>
    match preload_glyphs fuel ttf hdr n, GlyphFace_make fuel ttf hdr n with
    | some gs, some g => some (gs ++ [g])
    | _, _ => none

/-- `GlyphFaceCachePreloaded::initialize(iFace)`.  `GlyphFaceCache::initialize` is the
`initialize` of the header the cache derives from (GlyphFaceCache.h is not among the sources),
`numGlyphs()` is `m_nGlyphs`, and `malloc_ok` tells whether `malloc` returned storage.  The
result is `some none` when `initialize` returns false, `some (some _)` with the header and the
glyphs when it returns true, and there is no result when the construction of a glyph does not
end. -/
def GlyphFaceCachePreloaded_initialize {γ : Type} (fuel : Nat) (getTable : Tag → Option Table)
    (GlyphCount : (Nat → Nat) → Nat) (ttf : TtfUtil γ) (hdr : GlyphFaceCacheHeader)
    (malloc_ok : Bool) : Option (Option (GlyphFaceCacheHeader × List GlyphFace)) :=
  match GlyphFaceCacheHeader_initialize getTable GlyphCount hdr with
  | none => some none
  | some h =>
    if malloc_ok then (preload_glyphs fuel ttf h.1 h.1.m_nGlyphs).map (fun gs => some (h.1, gs))
    else some none

/-- Location entries of 32 bits, big-endian. -/
def entries32_bytes : List Nat → List Nat
  | [] => []
  | o :: os =>
    [o / 16777216 % 256, o / 65536 % 256, o / 256 % 256, o % 256] ++ entries32_bytes os

/-- A Gloc table with 32-bit entries: version 0x00010000, flags 1, attribute count 0, then
the location entries `offsets`, big-endian. -/
def gloc32_table (offsets : List Nat) : List Nat :=
  [0, 1, 0, 0, 0, 1, 0, 0] ++ entries32_bytes offsets

/-- A face that hands out the tables `gloc` for `Gloc` and `glat` for `Glat`, and an empty
table for every other tag. -/
def face_with (gloc glat : List Nat) : Tag → Option Table
  | .Gloc => some { bytes := table_of gloc, len := gloc.length }
  | .Glat => some { bytes := table_of glat, len := glat.length }
  | _ => some { bytes := table_of [], len := 0 }

/-- A `TtfUtil` over a font without outlines: no glyph, no metrics. -/
def ttf_none : TtfUtil Unit :=
  { LocaLookup := fun _ => 0, GlyfLookup := fun _ => none, HorMetrics := fun _ => none,
    GlyfBox := fun _ => none }

/-! ## `GlyphFace::getMetric` -/

/-- The values of the ten enumerators of `enum metrics` that `getMetric` names in its case
labels. The enumeration is declared in a header that is not among the sources, so the
values are taken as given. -/
structure metrics where
  kgmetLsb : Nat
  kgmetRsb : Nat
  kgmetBbTop : Nat
  kgmetBbBottom : Nat
  kgmetBbLeft : Nat
  kgmetBbRight : Nat
  kgmetBbHeight : Nat
  kgmetBbWidth : Nat
  kgmetAdvWidth : Nat
  kgmetAdvHeight : Nat

/-- The case labels of the switch in `getMetric`, in order. The language requires them to
be pairwise distinct. -/
def metrics.labels (k : metrics) : List Nat :=
  [k.kgmetLsb, k.kgmetRsb, k.kgmetBbTop, k.kgmetBbBottom, k.kgmetBbLeft, k.kgmetBbRight,
   k.kgmetBbHeight, k.kgmetBbWidth, k.kgmetAdvWidth, k.kgmetAdvHeight]

/-- The difference `a - b` of two floats whose values are integers: the exact difference
rounded to a float. -/
def float_sub (a b : Int) : Int := float_of_int (a - b)

/-- The value of `static_cast<uint16>(f)` for a float whose value is an integer, on x86-64:
the float is converted to a 32-bit integer, of which the low 16 bits are kept; a value that
no 32-bit integer holds converts to 0x80000000, of which the low 16 bits are 0. -/
def uint16_of_float (f : Int) : Nat :=
  if -2 ^ 31 ≤ f ∧ f < 2 ^ 31 then (f % 65536).toNat else 0

/-- The function `GlyphFace::getMetric(metric)`. -/
def GlyphFace.getMetric (G : GlyphFace) (k : metrics) (metric : Nat) : Nat :=
  if metric = k.kgmetLsb then uint16_of_float G.m_bbox.bl.x
  else if metric = k.kgmetRsb then uint16_of_float (float_sub G.m_advance.x G.m_bbox.tr.x)
  else if metric = k.kgmetBbTop then uint16_of_float G.m_bbox.tr.y
  else if metric = k.kgmetBbBottom then uint16_of_float G.m_bbox.bl.y
  else if metric = k.kgmetBbLeft then uint16_of_float G.m_bbox.bl.x
  else if metric = k.kgmetBbRight then uint16_of_float G.m_bbox.tr.x
  else if metric = k.kgmetBbHeight then uint16_of_float (float_sub G.m_bbox.tr.y G.m_bbox.bl.y)
  else if metric = k.kgmetBbWidth then uint16_of_float (float_sub G.m_bbox.tr.x G.m_bbox.bl.x)
  else if metric = k.kgmetAdvWidth then uint16_of_float G.m_advance.x
  else if metric = k.kgmetAdvHeight then uint16_of_float G.m_advance.y
  else 0

/-- A glyph with the advance `(ax, 0)` and the bounding box from `(xMin, yMin)` to
`(xMax, yMax)`, without attributes. -/
def glyph_of (ax xMin yMin xMax yMax : Int) : GlyphFace :=
  { m_advance := { x := ax, y := 0 }, m_bbox := { bl := { x := xMin, y := yMin }, tr := { x := xMax, y := yMax } }, load := { attrs := none, gloc_reads := [], glat_reads := [] } }

/-- A numbering of the ten enumerators: 0 to 9 in the order of the case labels. -/
def metrics_numbered : metrics :=
  { kgmetLsb := 0, kgmetRsb := 1, kgmetBbTop := 2, kgmetBbBottom := 3, kgmetBbLeft := 4,
    kgmetBbRight := 5, kgmetBbHeight := 6, kgmetBbWidth := 7, kgmetAdvWidth := 8,
    kgmetAdvHeight := 9 }

/-- A header over the 8-byte Glat table `glat_v1_one_run` and the Gloc table of one glyph
with the attribute range `[4, 8)`, for a font with one glyph with graphics. -/
def header_one_glyph : GlyphFaceCacheHeader :=
  { m_pGloc := table_of (gloc16_table [4, 8]), m_pGlat := table_of glat_v1_one_run,
    m_lGlat := 8, m_fGlat := 0x00010000, m_numAttrs := 0, m_locFlagsUse32Bit := false,
    m_nGlyphsWithGraphics := 1, m_nGlyphsWithAttributes := 1, m_nGlyphs := 1 }

/-- A `TtfUtil` over a font whose glyph has the advance width 600, the left side bearing 10
and the box from (-20, -10) to (500, 700). -/
def ttf_one_glyph : TtfUtil Unit :=
  { LocaLookup := fun _ => 0, GlyfLookup := fun _ => some (),
    HorMetrics := fun _ => some (10, 600), GlyfBox := fun _ => some (-20, -10, 500, 700) }

end graphite2

namespace graphiteng

/-! ## The attribute codes of a slot (`SlotHandle.h`) -/

/-- The enumerators of `enum attrCode`. -/
inductive attrCode where
  | kslatAdvX | kslatAdvY
  | kslatAttTo
  | kslatAttX | kslatAttY
  | kslatAttXOff | kslatAttYOff
  | kslatAttWithX | kslatAttWithY
  | kslatAttWithXOff | kslatAttWithYOff
  | kslatAttLevel
  | kslatBreak
  | kslatCompRef
  | kslatDir
  | kslatInsert
  | kslatPosX | kslatPosY
  | kslatShiftX | kslatShiftY
  | kslatUserDefnV1
  | kslatMeasureSol | kslatMeasureEol
  | kslatJStretch | kslatJShrink | kslatJStep | kslatJWeight | kslatJWidth
  | kslatUserDefn
  | kslatMax
  | kslatNoEffect
  deriving DecidableEq, Repr

/-- The initialiser of an enumerator: none, a constant, or another enumerator plus a
constant. -/
inductive enum_init where
  | implicit
  | const (n : Nat)
  | plus (c : attrCode) (n : Nat)

/-- The enumerator list of `enum attrCode`, in declaration order, with the name and the
initialiser of each enumerator as written. -/
def attrCode_decl : List (attrCode × String × enum_init) :=
  [ (.kslatAdvX, "kslatAdvX", .const 0), (.kslatAdvY, "kslatAdvY", .implicit),
    (.kslatAttTo, "kslatAttTo", .implicit),
    (.kslatAttX, "kslatAttX", .implicit), (.kslatAttY, "kslatAttY", .implicit),
    (.kslatAttXOff, "kslatAttXOff", .implicit), (.kslatAttYOff, "kslatAttYOff", .implicit),
    (.kslatAttWithX, "kslatAttWithX", .implicit), (.kslatAttWithY, "kslatAttWithY", .implicit),
    (.kslatAttWithXOff, "kslatAttWithXOff", .implicit),
    (.kslatAttWithYOff, "kslatAttWithYOff", .implicit),
    (.kslatAttLevel, "kslatAttLevel", .implicit),
    (.kslatBreak, "kslatBreak", .implicit),
    (.kslatCompRef, "kslatCompRef", .implicit),
    (.kslatDir, "kslatDir", .implicit),
    (.kslatInsert, "kslatInsert", .implicit),
    (.kslatPosX, "kslatPosX", .implicit), (.kslatPosY, "kslatPosY", .implicit),
    (.kslatShiftX, "kslatShiftX", .implicit), (.kslatShiftY, "kslatShiftY", .implicit),
    (.kslatUserDefnV1, "kslatUserDefnV1", .implicit),
    (.kslatMeasureSol, "kslatMeasureSol", .implicit),
    (.kslatMeasureEol, "kslatMeasureEol", .implicit),
    (.kslatJStretch, "kslatJStretch", .implicit), (.kslatJShrink, "kslatJShrink", .implicit),
    (.kslatJStep, "kslatJStep", .implicit), (.kslatJWeight, "kslatJWeight", .implicit),
    (.kslatJWidth, "kslatJWidth", .implicit),
    (.kslatUserDefn, "kslatUserDefn", .plus .kslatJStretch 30),
    (.kslatMax, "kslatMax", .implicit),
    (.kslatNoEffect, "kslatNoEffect", .plus .kslatMax 1) ]

/-- The value of an enumerator among those already given a value. -/
def enum_lookup (c : attrCode) : List (attrCode × Nat) → Nat
  | [] => 0
  | (d, v) :: rest => if d = c then v else enum_lookup c rest

/-- The values of the enumerators by the rule of the language: an enumerator with an
initialiser has its value, one without has the value of the one before it plus one, and the
first has 0. `done` holds the enumerators already given a value, the latest first. -/
def enum_values : List (attrCode × String × enum_init) → List (attrCode × Nat) →
    List (attrCode × Nat)
  | [], done => done.reverse
  | (c, _, i) :: rest, done =>
    let v := match i with
      | .implicit => (match done with | [] => 0 | (_, p) :: _ => p + 1)
      | .const n => n
      | .plus d n => enum_lookup d done + n
    enum_values rest ((c, v) :: done)

/-- The value of an enumerator of `enum attrCode`. -/
def attrCode.toNat (c : attrCode) : Nat :=
  enum_lookup c (enum_values attrCode_decl [])

/-- The name of an enumerator as declared. -/
def attrCode.name (c : attrCode) : String :=
  ((attrCode_decl.find? fun e => decide (e.1 = c)).map fun e => e.2.1).getD ""

/-- The enumerators in declaration order. -/
def attrCode_all : List attrCode := attrCode_decl.map fun e => e.1

/-- The named codes below the user-attribute base `kslatUserDefn`, in declaration order. -/
def codes_below_user : List attrCode :=
  attrCode_all.filter fun c => decide (c.toNat < attrCode.kslatUserDefn.toNat)

/-- The attribute code set as the specification lists it, without `user[0..n)`. -/
def spec_attr_codes : List String :=
  ["adv_x", "adv_y", "att_to", "att_x", "att_y", "att_x_off", "att_y_off", "att_with_x",
   "att_with_y", "att_with_x_off", "att_with_y_off", "att_level", "break", "comp_ref", "dir",
   "insert", "pos_x", "pos_y", "shift_x", "shift_y", "measure_sol", "measure_eol",
   "j_stretch", "j_shrink", "j_step", "j_weight", "j_width"]

/-- Lower-case words joined by underscores from words that each start with a capital
letter: `AttXOff` gives `att_x_off`. -/
def snake_case : List Char → List Char
  | [] => []
  | c :: cs =>
    if c.isUpper then '_' :: c.toLower :: snake_case cs else c :: snake_case cs

/-- The name by which the specification's code set calls an enumerator: the name without the
prefix `kslat`, in lower case with underscores. -/
def spec_name (c : attrCode) : String :=
  String.mk ((snake_case (c.name.data.drop 5)).drop 1)

end graphiteng

namespace gr2fonttest

/-! ## Scalars -/

/-- Conversion of an integer to `int` (32 bits, two's complement wrap-around). -/
def to_int (x : Int) : Int := (x + 2 ^ 31) % 2 ^ 32 - 2 ^ 31

/-- Conversion of an integer to `unsigned int` (32 bits): the value modulo `2 ^ 32`. -/
def to_unsigned (x : Int) : Nat := (x % 2 ^ 32).toNat

/-! ## The segment that `testFileFont` dumps -/

/-- Modelled from the spec: the segment library (`gr_make_seg`, `gr_seg_first_slot`,
`gr_seg_last_slot`, `gr_seg_n_slots`, `gr_slot_next_in_segment`) is not among the sources.
A slot of the doubly-linked sequence of the data model: its handle, which is not null, and
the handles of its successor and predecessor, 0 where there is none. -/
structure gr_slot where
  handle : Nat
  next : Nat
  prev : Nat
  deriving DecidableEq, Repr

/-- Modelled from the spec: the segment library is not among the sources. A segment is the
sequence of its slots with the head, the tail and the length. -/
structure gr_segment where
  slots : List gr_slot
  first : Nat
  last : Nat
  n_slots : Nat
  deriving DecidableEq, Repr

/-- Modelled from the spec: the segment library is not among the sources. The slots with the
handles given, each linked to its neighbours; `prev` is the handle before the first. -/
def link_slots (prev : Nat) : List Nat → List gr_slot
  | [] => []
  | h :: rest => { handle := h, next := rest.headD 0, prev := prev } :: link_slots h rest

/-- Modelled from the spec: the segment library is not among the sources. The segment that a
shaping call returns, with the slots of the handles given in order. -/
def gr_make_seg (handles : List Nat) : gr_segment :=
  { slots := link_slots 0 handles, first := handles.headD 0, last := handles.getLastD 0,
    n_slots := handles.length }

/-- Modelled from the spec: the segment library is not among the sources. -/
def gr_seg_first_slot (pSeg : gr_segment) : Nat := pSeg.first

/-- Modelled from the spec: the segment library is not among the sources. -/
def gr_seg_last_slot (pSeg : gr_segment) : Nat := pSeg.last

/-- Modelled from the spec: the segment library is not among the sources. -/
def gr_seg_n_slots (pSeg : gr_segment) : Nat := pSeg.n_slots

/-- Modelled from the spec: the segment library is not among the sources. The successor of a
slot, 0 at the end. -/
def gr_slot_next_in_segment (pSeg : gr_segment) (slot : Nat) : Nat :=
  ((pSeg.slots.find? fun s => decide (s.handle = slot)).map fun s => s.next).getD 0

/-- What the dump of a segment in `testFileFont` did: the slots its loop body was run for,
in order, whether every `assert((i + 1 < numSlots) || (slot == gr_seg_last_slot(pSeg)))`
held, and whether `assert(i == numSlots)` after the loop held. -/
structure SegDump where
  visited : List Nat
  last_ok : Bool
  count_ok : Bool
  deriving DecidableEq, Repr

/-- The loop `for (slot = gr_seg_first_slot(pSeg); slot; slot =
gr_slot_next_in_segment(slot), ++i)` of `testFileFont` from the slot and the counter given:
the slots visited, whether the assertion in the body held each time, and the final counter.
`none` when the fuel does not suffice. The counter and `numSlots` are of type `int`. -/
def dump_loop (pSeg : gr_segment) (numSlots : Int) : Nat → Nat → Int →
    Option (List Nat × Bool × Int)
  | 0, _, _ => none
  | fuel + 1, slot, i =>
    if slot = 0 then some ([], true, i)
    else
      let ok := decide (to_int (i + 1) < numSlots) || decide (slot = gr_seg_last_slot pSeg)
      (dump_loop pSeg numSlots fuel (gr_slot_next_in_segment pSeg slot) (to_int (i + 1))).map
        fun r => (slot :: r.1, ok && r.2.1, r.2.2)

/-- The dump of a segment in `testFileFont`: `int numSlots = gr_seg_n_slots(pSeg)`, the loop
from the first slot with `i = 0`, and `assert(i == numSlots)`. -/
def dump_segment (pSeg : gr_segment) (fuel : Nat) : Option SegDump :=
  (dump_loop pSeg (to_int (gr_seg_n_slots pSeg)) fuel (gr_seg_first_slot pSeg) 0).map fun r =>
    { visited := r.1, last_ok := r.2.1,
      count_ok := decide (r.2.2 = to_int (gr_seg_n_slots pSeg)) }

/-! ## Strings and the C library -/

/-- The bytes of a string of ASCII characters, without the terminating NUL. -/
def ascii (s : String) : List Nat := s.data.map Char.toNat

/-- The value of a `char` holding the byte `c`, `char` being signed (x86-64). -/
def char_value (c : Nat) : Int :=
  if c % 256 < 128 then ((c % 256 : Nat) : Int) else ((c % 256 : Nat) : Int) - 256

/-- The memory read through a pointer to a string: its bytes, the terminating NUL, and then
the bytes `after` that follow the string in memory. -/
def c_string_mem (s : List Nat) (after : Nat → Nat) (k : Nat) : Nat :=
  if k < s.length then s.getD k 0 else if k = s.length then 0 else after (k - s.length - 1)

/-- The C library's `isspace` in the C locale. -/
def isspace (c : Nat) : Bool := decide (c = 32) || (decide (9 ≤ c) && decide (c ≤ 13))

/-- The value of a character as a digit of `strtol`: 0..9 for `0`..`9`, 10..35 for letters
of either case, and 36, a digit in no base, for any other character. -/
def digit_value (c : Nat) : Nat :=
  if 48 ≤ c ∧ c ≤ 57 then c - 48
  else if 97 ≤ c ∧ c ≤ 122 then c - 87
  else if 65 ≤ c ∧ c ≤ 90 then c - 55
  else 36

/-- The number that the longest prefix of digits of the base denotes, after the digits
already read with the value `acc`. -/
def digits (base : Nat) : List Nat → Nat → Nat
  | [], acc => acc
  | c :: rest, acc =>
    if digit_value c < base then digits base rest (acc * base + digit_value c) else acc

/-- The largest `long` (LP64). -/
def LONG_MAX : Int := 2 ^ 63 - 1

/-- The smallest `long` (LP64). -/
def LONG_MIN : Int := -2 ^ 63

/-- The prefix `0x` or `0X` that `strtol` skips in base 16 when a hexadecimal digit
follows it. -/
def strip_0x : List Nat → List Nat
  | 48 :: x :: d :: r =>
    if (x = 120 ∨ x = 88) ∧ digit_value d < 16 then d :: r else 48 :: x :: d :: r
  | s => s

/-- The C library's `strtol` from the first character that is not white space: an optional
sign, in base 16 an optional `0x`, and the longest run of digits; a value outside the range
of `long` gives `LONG_MAX` or `LONG_MIN`; no digits give 0. -/
def strtol_nospace (s : List Nat) (base : Nat) : Int :=
  let neg := decide (s.head? = some 45)
  let s2 := if s.head? = some 45 ∨ s.head? = some 43 then s.tail else s
  let s3 := if base = 16 then strip_0x s2 else s2
  let n : Int := ((digits base s3 0 : Nat) : Int)
  if neg then max (-n) LONG_MIN else min n LONG_MAX

/-- The C library's `strtol(s, &end, base)` for a base from 2 to 36, as far as its return
value goes. -/
def strtol : List Nat → Nat → Int
  | [], _ => 0
  | c :: rest, base => if isspace c then strtol rest base else strtol_nospace (c :: rest) base

/-- The C library's `atoi`: `(int)strtol(s, NULL, 10)`. -/
def atoi (s : List Nat) : Int := to_int (strtol s 10)

/-- The C library's `strstr`: the pointer to the first occurrence of `needle` in `s`, as the
rest of `s` from there. -/
def strstr : List Nat → List Nat → Option (List Nat)
  | [], needle => if needle = [] then some [] else none
  | c :: rest, needle =>
    if needle.isPrefixOf (c :: rest) then some (c :: rest) else strstr rest needle

/-! ## `Parameters::parseFeatures` -/

/-- The loop `for (int i = 4; i; --i, lang_id <<= 8)` of `parseFeatures` over the memory at
`pLang`: a character that is `'0'` or `'&'` is skipped without moving `pLang`, any other is
or-ed into `lang_id` and `pLang` moves on; `lang_id` is shifted after each of the four
rounds. The result is `lang_id` with the offsets read. -/
def lang_loop (mem : Nat → Nat) : Nat → Nat → Nat → List Nat → Nat × List Nat
  | 0, _, lang_id, reads => (lang_id, reads)
  | i + 1, pLang, lang_id, reads =>
    if mem pLang = 48 ∨ mem pLang = 38 then
      lang_loop mem i pLang ((lang_id <<< 8) % 2 ^ 32) (reads ++ [pLang])
    else
      lang_loop mem i (pLang + 1)
        (((lang_id ||| to_unsigned (char_value (mem pLang))) <<< 8) % 2 ^ 32)
        (reads ++ [pLang])

/-- The language tag `parseFeatures` asks the feature values for: 0 without `-feat` or
without `lang=` in it, else what `lang_loop` reads after the first `lang=`. -/
def parse_lang (features : Option (List Nat)) (after : Nat → Nat) : Nat :=
  match features with
  | none => 0
  | some f =>
    match strstr f (ascii "lang=") with
    | none => 0
    | some pLang => (lang_loop (c_string_mem (pLang.drop 5) after) 4 0 0 []).1

/-- The local variables of `parseFeatures` in its main loop. A pointer into `features` is
the rest of the string from there; `none` is the null pointer. -/
structure ParseState (ρ Φ : Type) where
  featureList : Φ
  name : Option (List Nat)
  valueText : Option (List Nat)
  nameLength : Nat
  value : Int
  ref : Option ρ
  feat_id : Nat

/-- The `switch (features[i])` of the main loop for the character `c`, `rest` being the
string from `features + i + 1`. `find` is `gr_face_find_fref(face, .)` and `set` is
`gr_fref_set_feature_value`. `none` when `atoi` is given a null pointer. -/
def parse_switch {ρ Φ : Type} (find : Nat → Option ρ) (set : ρ → Int → Φ → Φ)
    (c : Nat) (rest : List Nat) (st : ParseState ρ Φ) : Option (ParseState ρ Φ) :=
  if c = 44 ∨ c = 38 then
    match st.valueText with
    | none => none
    | some vt =>
      let fl := match st.ref with
        | some r => set r (atoi vt) st.featureList
        | none => st.featureList
      some { featureList := fl, name := some rest, valueText := none, nameLength := 0, value := atoi vt, ref := none, feat_id := 0 }
  else if c = 61 then
    let ref1 := if st.nameLength ≤ 4 then find st.feat_id else st.ref
    match ref1 with
    | some r => some { st with ref := some r, valueText := some rest, name := none }
    | none =>
      match st.name with
      | none => none
      | some nm =>
        some { st with feat_id := to_unsigned (atoi nm), ref := find (to_unsigned (atoi nm)), valueText := some rest, name := none }
  else if st.valueText.isNone ∧ st.nameLength < 4 then
    some { st with feat_id := ((st.feat_id <<< 8) % 2 ^ 32) ||| to_unsigned (char_value c) }
  else some st

/-- The `if (ref)` after the switch: the feature found is set to `atoi(valueText)`, and
`ref` is reset. The lines written to the log are left out. -/
def parse_set {ρ Φ : Type} (set : ρ → Int → Φ → Φ) (st : ParseState ρ Φ) :
    Option (ParseState ρ Φ) :=
  match st.ref with
  | none => some st
  | some r =>
    match st.valueText with
    | none => none
    | some vt =>
      some { st with value := atoi vt, featureList := set r (atoi vt) st.featureList, ref := none }

/-- The main loop `for (size_t i = 0; i < featureLength; i++)` over the characters left. -/
def parse_loop {ρ Φ : Type} (find : Nat → Option ρ) (set : ρ → Int → Φ → Φ) :
    List Nat → ParseState ρ Φ → Option (ParseState ρ Φ)
  | [], st => some st
  | c :: rest, st =>
    (parse_switch find set c rest st).bind fun st1 =>
      (parse_set set st1).bind fun st2 => parse_loop find set rest st2

/-- The function `Parameters::parseFeatures`: the feature values it returns. The library
calls are parameters: `featureval_for_lang` is `gr_face_featureval_for_lang(face, .)`, `find`
is `gr_face_find_fref(face, .)` and `set` is `gr_fref_set_feature_value`. `features` is the
member of that name, `none` for NULL, and `after` the memory that follows its NUL. -/
def parseFeatures {ρ Φ : Type} (featureval_for_lang : Nat → Φ) (find : Nat → Option ρ)
    (set : ρ → Int → Φ → Φ) (features : Option (List Nat)) (after : Nat → Nat) : Option Φ :=
  let featureList := featureval_for_lang (parse_lang features after)
  match features with
  | none => some featureList
  | some f =>
    if f.length = 0 then some featureList
    else
      (parse_loop find set f { featureList := featureList, name := some f, valueText := none, nameLength := 0, value := 0, ref := none, feat_id := 0 }).map
        fun st => st.featureList

/-! ## The `-feat` string as its usage text describes it -/

/-- The string `name=value[,name=value]...` of the pairs given. -/
def feat_string : List (List Nat × List Nat) → List Nat
  | [] => []
  | [p] => p.1 ++ 61 :: p.2
  | p :: q :: ps => p.1 ++ 61 :: p.2 ++ 44 :: feat_string (q :: ps)

/-- The tag packed big-endian from the characters of a name, as a 32-bit tag: of a name
longer than four characters the last four remain. -/
def pack_tag (name : List Nat) : Nat :=
  name.foldl (fun t c => (t * 256 + c) % 2 ^ 32) 0

/-- The feature a name stands for: the one with the tag packed from the name, or else the
one whose id is the decimal value of the name. -/
def feature_of_name {ρ : Type} (find : Nat → Option ρ) (name : List Nat) : Option ρ :=
  match find (pack_tag name) with
  | some r => some r
  | none => find (to_unsigned (atoi name))

/-- The feature values after the pairs have been applied in order: the feature of each
name, where there is one, is set to the decimal value of the pair. -/
def set_pairs {ρ Φ : Type} (find : Nat → Option ρ) (set : ρ → Int → Φ → Φ) :
    Φ → List (List Nat × List Nat) → Φ
  | fl, [] => fl
  | fl, p :: ps =>
    match feature_of_name find p.1 with
    | some r => set_pairs find set (set r (atoi p.2) fl) ps
    | none => set_pairs find set fl ps

/-- A character of a name or a value in a `-feat` string: ASCII, not NUL and none of the
separators `,`, `&` and `=`. -/
def plain_char (c : Nat) : Prop := 0 < c ∧ c < 128 ∧ c ≠ 44 ∧ c ≠ 38 ∧ c ≠ 61

instance plain_char_decidable (c : Nat) : Decidable (plain_char c) := by
  unfold plain_char
  infer_instance

/-! ## `Parameters` and `Parameters::loadFromArgs` -/

/-- The largest `int`. -/
def INT_MAX : Int := 2 ^ 31 - 1

/-- A block of `unsigned int` cells from `malloc`: the number of cells allocated and the
writes made through the pointer, each with its index and value, in order. -/
structure TextBuffer where
  cells : Nat
  writes : List (Nat × Nat)
  deriving DecidableEq, Repr

/-- The write `p[i] = v`. -/
def TextBuffer.write (b : TextBuffer) (i v : Nat) : TextBuffer :=
  { b with writes := b.writes ++ [(i, v)] }

/-- The value of `p[i]`: that of the last write to the cell; `none` when the cell was never
written. -/
def TextBuffer.get (b : TextBuffer) (i : Nat) : Option Nat :=
  (b.writes.reverse.find? fun w => decide (w.1 = i)).map fun w => w.2

/-- The members of `class Parameters`. A string is the list of its bytes; `log` is `none`
for `stdout` and `trace` is `none` for NULL, else the name of the file opened; a `float` is
the number it holds. -/
structure Parameters where
  fileName : List Nat
  features : Option (List Nat)
  pointSize : ℚ
  dpi : Int
  lineStart : Bool
  lineEnd : Bool
  ws : Bool
  rtl : Bool
  useLineFill : Bool
  useCodes : Bool
  justification : Bool
  enableCache : Bool
  width : ℚ
  textArgIndex : Int
  pText32 : Option TextBuffer
  charLength : Nat
  offset : Nat
  log : Option (List Nat)
  trace : Option (List Nat)
  mask : Int
  deriving DecidableEq

/-- The function `Parameters::clear`, which the constructor calls. `mask0` is
`GRLOG_SEGMENT | GRLOG_OPCODE`, of a header that is not among the sources. -/
def Parameters.clear (mask0 : Int) : Parameters :=
  { fileName := [], features := none, pointSize := 12, dpi := 72, lineStart := false,
    lineEnd := false, ws := false, rtl := false, useLineFill := false, useCodes := false,
    justification := false, enableCache := false, width := 100, textArgIndex := 0,
    pText32 := none, charLength := 0, offset := 0, log := none, trace := none,
    mask := mask0 }

/-- What `loadFromArgs` and `convertUtf` take from outside the program: the value that
`strtof` returns for a string, whether `fopen` opens a file, whether `malloc` gives a block
of the number of bytes, the values `*ui` and `ui.error()` of `utf8::const_iterator` at its
successive positions over a string, and the length of the string that follows the NUL of an
empty argument in memory. -/
structure Env where
  strtof : List Nat → ℚ
  fopen : List Nat → Bool
  malloc : Nat → Bool
  utf8 : List Nat → List (Nat × Bool)
  strlen_after : Nat

/-- The loop `while ((*out = *ui) != 0 && !ui.error())` of `convertUtf` from the position
`n_chars`: the count, the error flag where the loop stopped and the writes made. `none` when
the iterator is read beyond its positions. -/
def convert_loop : List (Nat × Bool) → Nat → List (Nat × Nat) →
    Option (Nat × Bool × List (Nat × Nat))
  | [], _, _ => none
  | (v, err) :: rest, n_chars, writes =>
    if v ≠ 0 ∧ err = false then convert_loop rest (n_chars + 1) (writes ++ [(n_chars, v)])
    else some (n_chars, err, writes ++ [(n_chars, v)])

/-- The function `convertUtf<utf8>`: the pointer left in `dest`, the value returned, and the
block that was allocated with the writes made to it, also when it was freed again. The block
has `strlen(src + 1)` cells. -/
def convertUtf (env : Env) (src : List Nat) :
    Option (Option TextBuffer × Nat × Option TextBuffer) :=
  let cells := match src with
    | [] => env.strlen_after
    | _ :: rest => rest.length
  if env.malloc (4 * cells % 2 ^ 64) = false then some (none, 0, none)
  else
    (convert_loop (env.utf8 src) 0 []).map fun r =>
      if r.2.1 then (none, 2 ^ 64 - 1, some { cells := cells, writes := r.2.2 })
      else (some { cells := cells, writes := r.2.2 }, r.1, some { cells := cells, writes := r.2.2 })

/-- The enumeration `TestOptions` of `loadFromArgs`. -/
inductive TestOptions where
  | NONE | POINT_SIZE | DPI | LINE_START | LINE_END | LINE_FILL | CODES | FEAT | LOG | TRACE
  | TRACE_MASK
  deriving DecidableEq, Repr

/-- The object and the local variables of `loadFromArgs` in its loop over the arguments. -/
structure LoadState where
  p : Parameters
  mainArgOffset : Int
  argError : Bool
  pText : Option (List Nat)
  option : TestOptions
  deriving DecidableEq

/-- The branch `default:` of the switch for the argument `argv[a]`: an option, the font
file, a code, the text, or one argument too many. `none` when a code is written through a
null `pText32`. What is printed is left out. -/
def load_default (env : Env) (argc a : Nat) (arg : List Nat) (st : LoadState) :
    Option LoadState :=
  if arg.head? = some 45 then
    if arg = ascii "-pt" then some { st with option := .POINT_SIZE }
    else if arg = ascii "-dpi" then some { st with option := .DPI }
    else if arg = ascii "-ls" then
      some { st with option := .NONE, p := { st.p with lineStart := true } }
    else if arg = ascii "-le" then
      some { st with option := .NONE, p := { st.p with lineEnd := true } }
    else if arg = ascii "-rtl" then
      some { st with option := .NONE, p := { st.p with rtl := true } }
    else if arg = ascii "-ws" then
      some { st with option := .NONE, p := { st.p with ws := true } }
    else if arg = ascii "-cache" then
      some { st with option := .NONE, p := { st.p with enableCache := true } }
    else if arg = ascii "-feat" then some { st with option := .FEAT }
    else if arg = ascii "-codes" then
      some { st with option := .NONE, p := { st.p with useCodes := true, pText32 := if env.malloc (4 * argc % 2 ^ 64) then some { cells := argc, writes := [] } else none } }
    else if arg = ascii "-linefill" then
      some { st with option := .LINE_FILL, p := { st.p with useLineFill := true } }
    else if arg = ascii "-j" then
      some { st with option := .NONE, p := { st.p with justification := true } }
    else if arg = ascii "-log" then some { st with option := .LOG }
    else if arg = ascii "-trace" then some { st with option := .TRACE }
    else if arg = ascii "-mask" then some { st with option := .TRACE_MASK }
    else some { st with option := .NONE, argError := true }
  else if st.mainArgOffset = 0 then
    some { st with option := .NONE, p := { st.p with fileName := arg }, mainArgOffset := to_int (st.mainArgOffset + 1) }
  else if st.p.useCodes then
    if 0 < to_unsigned (strtol arg 16) then
      match st.p.pText32 with
      | none => none
      | some b =>
        some { st with option := .NONE, mainArgOffset := to_int (st.mainArgOffset + 1), p := { st.p with pText32 := some (b.write st.p.charLength (to_unsigned (strtol arg 16))), charLength := (st.p.charLength + 1) % 2 ^ 64 } }
    else some { st with option := .NONE, mainArgOffset := to_int (st.mainArgOffset + 1) }
  else if st.mainArgOffset = 1 then
    some { st with option := .NONE, mainArgOffset := to_int (st.mainArgOffset + 1), pText := some arg, p := { st.p with textArgIndex := a } }
  else some { st with option := .NONE, argError := true }

/-- The body of the loop of `loadFromArgs` for the argument `argv[a]`: the
`switch (option)`. -/
def load_arg (env : Env) (argc a : Nat) (arg : List Nat) (st : LoadState) :
    Option LoadState :=
  match st.option with
  | .DPI =>
    if 0 < strtol arg 10 ∧ strtol arg 10 < INT_MAX ∧ strtol arg 10 ≠ LONG_MAX then
      some { st with option := .NONE, p := { st.p with dpi := to_int (strtol arg 10) } }
    else some { st with option := .NONE }
  | .POINT_SIZE =>
    if 0 < env.strtof arg ∧ env.strtof arg < 5000 then
      some { st with option := .NONE, p := { st.p with pointSize := env.strtof arg } }
    else some { st with option := .NONE, argError := true }
  | .LINE_FILL =>
    if 0 < env.strtof arg ∧ env.strtof arg < 10000 then
      some { st with option := .NONE, p := { st.p with width := env.strtof arg } }
    else some { st with option := .NONE, argError := true }
  | .FEAT => some { st with option := .NONE, p := { st.p with features := some arg } }
  | .LOG =>
    some { st with option := .NONE, p := { st.p with log := if env.fopen arg then some arg else none } }
  | .TRACE =>
    some { st with option := .NONE, p := { st.p with trace := if env.fopen arg then some arg else none } }
  | .TRACE_MASK => some { st with option := .NONE, p := { st.p with mask := atoi arg } }
  | _ => load_default env argc a arg st

/-- The loop `for (int a = 1; a < argc; a++)` over the arguments left, from `argv[a]`. -/
def load_loop (env : Env) (argc : Nat) : List (List Nat) → Nat → LoadState → Option LoadState
  | [], _, st => some st
  | arg :: rest, a, st =>
    (load_arg env argc a arg st).bind fun st1 => load_loop env argc rest (a + 1) st1

/-- The function `Parameters::loadFromArgs(argc, argv)` on the object `p`, with
`argc = argv.length`: the value returned and the object afterwards. `none` when a null
pointer is written through or the iterator of `convertUtf` is read beyond its positions. -/
def loadFromArgs (env : Env) (argv : List (List Nat)) (p : Parameters) :
    Option (Bool × Parameters) :=
  (load_loop env argv.length argv.tail 1
    { p := { p with pText32 := none, features := none, log := none }, mainArgOffset := 0, argError := false, pText := none, option := .NONE }).bind
  fun st =>
    if st.mainArgOffset < 1 then some (false, st.p)
    else if 1 < st.mainArgOffset then
      match st.p.useCodes, st.pText with
      | false, some pText =>
        (convertUtf env pText).map fun r =>
          (!st.argError, { st.p with charLength := r.2.1, pText32 := r.1 })
      | _, _ =>
        match st.p.pText32 with
        | none => none
        | some b => some (!st.argError, { st.p with pText32 := some (b.write st.p.charLength 0) })
    else some (!st.argError, st.p)

/-- The values of the code arguments as `loadFromArgs` stores them: `strtol` in base 16 of
each argument, converted to `unsigned int`, without those that are 0. -/
def code_values (codes : List (List Nat)) : List Nat :=
  (codes.map fun c => to_unsigned (strtol c 16)).filter fun v => decide (0 < v)

/-- The writes that store the values in consecutive cells from index `k` on. -/
def indexed (k : Nat) : List Nat → List (Nat × Nat)
  | [] => []
  | v :: vs => (k, v) :: indexed (k + 1) vs

/-- The object as `loadFromArgs` leaves it when, from the state of `Parameters::clear`, it
has read the font file and `-codes`, with the block of `pText32` and `charLength` as
given. -/
def codes_params (mask0 : Int) (font : List Nat) (b : TextBuffer) (charLength : Nat) :
    Parameters :=
  { fileName := font, features := none, pointSize := 12, dpi := 72, lineStart := false,
    lineEnd := false, ws := false, rtl := false, useLineFill := false, useCodes := true,
    justification := false, enableCache := false, width := 100, textArgIndex := 0,
    pText32 := some b, charLength := charLength, offset := 0, log := none, trace := none,
    mask := mask0 }

/-- An environment in which every file opens and every allocation succeeds, `strtof` gives
0, and the iterator yields the bytes of the string, as for ASCII text. -/
def env_plain : Env :=
  { strtof := fun _ => 0, fopen := fun _ => true, malloc := fun _ => true,
    utf8 := fun s => (s ++ [0]).map fun c => (c, false), strlen_after := 0 }

/-! ## `Parameters::testFileFont` -/

/-- The calls `testFileFont` makes, to the library and to `printFeatures`. -/
inductive Call where
  | start_logging (trace : List Nat) (mask : Int)
  | make_file_face_with_seg_cache (fileName : List Nat)
  | make_file_face (fileName : List Nat)
  | printFeatures
  | face_destroy
  | stop_logging
  | make_font (ppm : ℚ)
  | parseFeatures
  | make_seg (text : Option TextBuffer) (length : Nat) (rtl : Bool)
  | dump (d : SegDump)
  | seg_destroy
  | featureval_destroy
  | font_destroy
  deriving DecidableEq

/-- What the library gives `testFileFont`: whether the face of a file loads, with the
segment cache or without, whether `parseFeatures` returns feature values, and the segment
of `gr_make_seg`, if any. -/
structure Lib where
  face_with_seg_cache : List Nat → Bool
  face : List Nat → Bool
  featureList : Bool
  seg : Option gr_segment

/-- The `float` nearest to the number `q`: 24 significant bits, ties to the even
significand, and no exponent below that of the least normal `float`. A number beyond the
largest `float` is not turned into an infinity. -/
def float_round (q : ℚ) : ℚ :=
  if q = 0 then 0
  else
    let e : Int := max (Int.log 2 |q|) (-126)
    let ulp : ℚ := (2 : ℚ) ^ (e - 23)
    let m : ℚ := q / ulp
    let f : Int := ⌊m⌋
    let n : Int :=
      if m - f < 1 / 2 then f
      else if 1 / 2 < m - f then f + 1
      else if f % 2 = 0 then f else f + 1
    n * ulp

/-- The function `Parameters::testFileFont`: the value returned and the calls made, in
order. `none` when the dump of the segment does not end within the fuel. What is printed is
left out. The argument of `gr_make_font` is `pointSize * dpi / 72` in `float`
arithmetic: `dpi` is converted, and the product and the quotient are each rounded. -/
def testFileFont (lib : Lib) (fuel : Nat) (p : Parameters) : Option (Int × List Call) :=
  let c0 : List Call := match p.trace with
    | some t => [.start_logging t p.mask]
    | none => []
  let c1 : List Call := c0 ++
    [if p.enableCache then .make_file_face_with_seg_cache p.fileName
      else .make_file_face p.fileName]
  let face := if p.enableCache then lib.face_with_seg_cache p.fileName else lib.face p.fileName
  if face = false then some (3, c1)
  else if p.charLength = 0 then some (0, c1 ++ [.printFeatures, .face_destroy, .stop_logging])
  else
    let c2 : List Call := c1 ++
      [.make_font (float_round (float_round (p.pointSize * float_round p.dpi) / 72))] ++
      (if p.features.isSome then [.parseFeatures] else []) ++
      [.make_seg p.pText32 p.charLength p.rtl]
    let c4 : List Call :=
      (if p.features.isSome ∧ lib.featureList then [.featureval_destroy] else []) ++
      [.font_destroy, .face_destroy] ++ (if p.trace.isSome then [.stop_logging] else [])
    match lib.seg with
    | none => some (0, c2 ++ c4)
    | some pSeg => (dump_segment pSeg fuel).map fun d => (0, c2 ++ [.dump d, .seg_destroy] ++ c4)

/-! ## `lookup` -/

/-- The memory at a pointer to a zero-terminated array of `size_t`: the entries, the
terminating 0, and `after` for every other cell. -/
def array_mem (entries : List Nat) (after : Int → Nat) (i : Int) : Nat :=
  if 0 ≤ i ∧ i < entries.length then entries.getD i.toNat 0
  else if i = entries.length then 0
  else after i

/-- The loop `for ( ; map[i] != val && map[i]; i++) {}` of `lookup` from `i`, an `int`: the
value of `i` when the loop ends; `none` when it does not end within the fuel. -/
def lookup_loop (map : Int → Nat) (val : Nat) : Nat → Int → Option Int
  | 0, _ => none
  | fuel + 1, i =>
    if map i ≠ val ∧ map i ≠ 0 then lookup_loop map val fuel (to_int (i + 1)) else some i

/-- The function `lookup(map, val)`: the loop from `i = 0` and `return map[i] ? i : -1`. -/
def lookup (map : Int → Nat) (val : Nat) (fuel : Nat) : Option Int :=
  (lookup_loop map val fuel 0).map fun i => if map i ≠ 0 then i else -1

end gr2fonttest

namespace vm

/-! ## The dispatch step -/

theorem size_t_of_nonneg (d : Int) (h0 : 0 ≤ d) (h1 : d < 2 ^ 64) : size_t d = d.toNat := by
  unfold size_t
  rw [Int.emod_eq_of_lt h0 h1]

theorem size_t_of_neg (d : Int) (h0 : d < 0) (h1 : -(2 ^ 63) ≤ d) :
    size_t d = (d + 2 ^ 64).toNat := by
  unfold size_t
  have h : d % 2 ^ 64 = d + 2 ^ 64 := by
    rw [← Int.add_emod_self]
    exact Int.emod_eq_of_lt (by omega) (by omega)
  rw [h]

/-- For a stack depth that a `ptrdiff_t` can hold, `ENDOP` dispatches the next instruction
exactly when the depth is in `[0, STACK_MAX)`. -/
theorem ENDOP_eq_false_iff (STACK_MAX : Nat) (d : Int) (hM : 0 < STACK_MAX)
    (hM2 : STACK_MAX ≤ 2 ^ 63) (hlo : -(2 ^ 63) ≤ d) (hhi : d < 2 ^ 63) :
    ENDOP STACK_MAX d = false ↔ (0 ≤ d ∧ d < STACK_MAX) := by
  unfold ENDOP
  simp only [bne_eq_false_iff_eq, beq_iff_eq]
  rw [Nat.div_eq_zero_iff hM]
  by_cases h0 : 0 ≤ d
  · rw [size_t_of_nonneg d h0 (by omega)]
    omega
  · rw [size_t_of_neg d (by omega) hlo]
    omega

theorem ENDOP_false_of_lt (STACK_MAX : Nat) (d : Int) (h0 : 0 ≤ d) (h1 : d < STACK_MAX)
    (hM2 : STACK_MAX ≤ 2 ^ 63) : ENDOP STACK_MAX d = false :=
  (ENDOP_eq_false_iff STACK_MAX d (by omega) hM2 (by omega) (by omega)).2 ⟨h0, h1⟩

theorem ENDOP_true_of_neg (STACK_MAX : Nat) (d : Int) (hM : 0 < STACK_MAX)
    (hM2 : STACK_MAX ≤ 2 ^ 63) (h1 : d < 0) (hlo : -(2 ^ 63) ≤ d) :
    ENDOP STACK_MAX d = true := by
  cases h : ENDOP STACK_MAX d with
  | true => rfl
  | false =>
    have := (ENDOP_eq_false_iff STACK_MAX d hM hM2 hlo (by omega)).1 h
    omega

/-- The smoke program leaves run status finished and returns the cell below the result. -/
theorem run_simple_prog (σ : Type) (pick : Int → Int → Int → Int) (STACK_MAX : Nat)
    (hM : 4 < STACK_MAX) (hM2 : STACK_MAX ≤ 2 ^ 63) (_stack : Int → Int) (seg : σ)
    (islot_idx iStart : Int) :
    ∃ r, Machine.run STACK_MAX (simple_prog pick) simple_data _stack seg islot_idx iStart = some r
      ∧ r.status = status_t.finished ∧ r.ret = _stack 0 ∧ r._stack 1 = pick 43 42 20
      ∧ r.seg = seg ∧ r._stack 0 = _stack 0
      ∧ (direct_run STACK_MAX (simple_prog pick)
            (Regs.init simple_data _stack seg islot_idx iStart)).map
          (fun x => (Machine.ret_sp x.1).1) = some (pick 43 42 20) := by
  have e1 : ENDOP STACK_MAX 1 = false := ENDOP_false_of_lt _ _ (by omega) (by omega) hM2
  have e2 : ENDOP STACK_MAX 2 = false := ENDOP_false_of_lt _ _ (by omega) (by omega) hM2
  have e3 : ENDOP STACK_MAX 3 = false := ENDOP_false_of_lt _ _ (by omega) (by omega) hM2
  have e4 : ENDOP STACK_MAX 4 = false := ENDOP_false_of_lt _ _ (by omega) (by omega) hM2
  simp [Machine.run, Machine.ret_sp, direct_run, simple_prog, simple_data, Regs.init, PUSH_BYTE,
    ADD, SUB, COND, POP_RET, push_byte, binop, cond, pop_ret, push, pop, param, e1, e2, e3, e4,
    check_final_stack, int8, int32]
  omega


theorem direct_run_startop {σ : Type} (STACK_MAX : Nat) (body : Regs σ → Regs σ)
    (rest : List (instr σ)) (r : Regs σ) :
    direct_run STACK_MAX (instr.startop body :: rest) r =
      if ENDOP STACK_MAX (body r).sp then some (body r, [r])
      else (direct_run STACK_MAX rest (body r)).map (fun x => (x.1, r :: x.2)) := by
  simp [direct_run]

theorem direct_run_exitop {σ : Type} (STACK_MAX : Nat) (body : Regs σ → Regs σ × Int)
    (rest : List (instr σ)) (r : Regs σ) :
    direct_run STACK_MAX (instr.exitop body :: rest) r =
      some (push (body r).2 (body r).1, [r]) := by
  simp [direct_run]

/-- The invariant of the dispatch loop, for a run that starts at any depth in range. -/
theorem direct_run_invariant {σ : Type} (STACK_MAX : Nat) (hM : 0 < STACK_MAX)
    (hM2 : STACK_MAX ≤ 2 ^ 62) :
    ∀ (prog : List (instr σ)) (r0 fin : Regs σ) (tr : List (Regs σ)),
      0 ≤ r0.sp → r0.sp < STACK_MAX →
      (∀ body, instr.startop body ∈ prog →
        ∀ r, r.sp - 2 ^ 62 ≤ (body r).sp ∧ (body r).sp ≤ r.sp + 2 ^ 62) →
      direct_run STACK_MAX prog r0 = some (fin, tr) →
      (∀ r ∈ tr, 0 ≤ r.sp ∧ r.sp < STACK_MAX) ∧
      (∀ k body r, prog[k]? = some (instr.startop body) → tr[k]? = some r →
        ¬ (0 ≤ (body r).sp ∧ (body r).sp < STACK_MAX) → fin = body r ∧ tr.length = k + 1) := by
  intro prog
  induction prog with
  | nil => intro r0 fin tr _ _ _ h; simp [direct_run] at h
  | cons i rest ih =>
    intro r0 fin tr h0 h1 hstep hrun
    cases i with
    | exitop body =>
      rw [direct_run_exitop] at hrun
      simp only [Option.some.injEq, Prod.mk.injEq] at hrun
      obtain ⟨_, rfl⟩ := hrun
      refine ⟨?_, ?_⟩
      · intro r hr
        simp only [List.mem_singleton] at hr
        subst hr
        exact ⟨h0, h1⟩
      · intro k b r hk hr _
        cases k with
        | zero => simp at hk
        | succ k => simp at hr
    | startop body =>
      rw [direct_run_startop] at hrun
      have hd := hstep body (List.mem_cons_self _ _) r0
      have hiff := ENDOP_eq_false_iff STACK_MAX (body r0).sp hM (by omega) (by omega) (by omega)
      by_cases he : ENDOP STACK_MAX (body r0).sp = true
      · rw [if_pos he] at hrun
        simp only [Option.some.injEq, Prod.mk.injEq] at hrun
        obtain ⟨rfl, rfl⟩ := hrun
        refine ⟨?_, ?_⟩
        · intro r hr
          simp only [List.mem_singleton] at hr
          subst hr
          exact ⟨h0, h1⟩
        · intro k b r hk hr _
          cases k with
          | zero =>
            simp only [List.getElem?_cons_zero, Option.some.injEq, instr.startop.injEq] at hk hr
            subst hk; subst hr
            exact ⟨rfl, rfl⟩
          | succ k => simp at hr
      · have he2 : ENDOP STACK_MAX (body r0).sp = false := by
          cases h : ENDOP STACK_MAX (body r0).sp
          · rfl
          · exact absurd h he
        rw [he2] at hrun
        simp only [Bool.false_eq_true, if_false] at hrun
        cases hrun1 : direct_run STACK_MAX rest (body r0) with
        | none => simp [hrun1] at hrun
        | some x =>
        obtain ⟨fin1, tr1⟩ := x
        simp only [hrun1, Option.map_some', Option.some.injEq, Prod.mk.injEq] at hrun
        obtain ⟨rfl, rfl⟩ := hrun
        have hin := hiff.1 he2
        have hstep1 : ∀ b, instr.startop b ∈ rest →
            ∀ r, r.sp - 2 ^ 62 ≤ (b r).sp ∧ (b r).sp ≤ r.sp + 2 ^ 62 :=
          fun b hb => hstep b (List.mem_cons_of_mem _ hb)
        obtain ⟨ih1, ih2⟩ := ih (body r0) fin1 tr1 hin.1 hin.2 hstep1 hrun1
        refine ⟨?_, ?_⟩
        · intro r hr
          simp only [List.mem_cons] at hr
          rcases hr with rfl | hr
          · exact ⟨h0, h1⟩
          · exact ih1 r hr
        · intro k b r hk hr hout
          cases k with
          | zero =>
            simp only [List.getElem?_cons_zero, Option.some.injEq, instr.startop.injEq] at hk hr
            subst hk; subst hr
            exact absurd hin hout
          | succ k =>
            simp only [List.getElem?_cons_succ] at hk hr
            obtain ⟨e1, e2⟩ := ih2 k b r hk hr hout
            exact ⟨e1, by simp [e2]⟩


/-- No body of the test programs moves `sp` by more than three cells. -/
theorem step_bound_underflow_prog {σ : Type} (pick : Int → Int → Int → Int) :
    ∀ body : Regs σ → Regs σ, instr.startop body ∈ underflow_prog pick →
      ∀ r, r.sp - 2 ^ 62 ≤ (body r).sp ∧ (body r).sp ≤ r.sp + 2 ^ 62 := by
  intro body hb r
  simp only [underflow_prog, PUSH_BYTE, ADD, SUB, COND, POP_RET, List.mem_cons,
    instr.startop.injEq, List.mem_singleton, List.not_mem_nil, or_false] at hb
  rcases hb with rfl | rfl | rfl | rfl | rfl | rfl | rfl | rfl | rfl | hb
  all_goals first
    | (simp [push_byte, binop, cond, push, pop, param]; omega)
    | (simp at hb)

/-- C1 (as the code behaves): for every content of the stack array, `Machine::run` on the
smoke program ends with status finished and the segment untouched; the result of the program,
`pick 43 42 20`, is in the cell above the stack base and in the local `ret`; the value returned
is the cell at the stack base, which still holds what the array held there before the call. -/
theorem Machine_run_simple_prog (σ : Type) (pick : Int → Int → Int → Int) (STACK_MAX : Nat)
    (hM : 4 < STACK_MAX) (hM2 : STACK_MAX ≤ 2 ^ 63) (_stack : Int → Int) (seg : σ)
    (islot_idx iStart : Int) :
    ∃ r, Machine.run STACK_MAX (simple_prog pick) simple_data _stack seg islot_idx iStart = some r
      ∧ r.status = status_t.finished ∧ r.ret = _stack 0 ∧ r._stack 1 = pick 43 42 20
      ∧ r.seg = seg ∧ r._stack 0 = _stack 0
      ∧ (direct_run STACK_MAX (simple_prog pick)
            (Regs.init simple_data _stack seg islot_idx iStart)).map
          (fun x => (Machine.ret_sp x.1).1) = some (pick 43 42 20) :=
  run_simple_prog σ pick STACK_MAX hM hM2 _stack seg islot_idx iStart

/-- Witness of C1's theorem: a machine with `STACK_MAX = 1024` whose stack array is zero-filled
runs the smoke program to status finished and returns 0. -/
theorem Machine_run_simple_prog_witness :
    (4 < 1024 ∧ 1024 ≤ 2 ^ 63) ∧
    ∃ r, Machine.run 1024 (simple_prog (fun c t f => if c ≠ 0 then t else f)) simple_data
        (fun _ => 0) () 0 0 = some r
      ∧ r.status = status_t.finished ∧ r.ret = 0 :=
  ⟨by norm_num,
    (Machine_run_simple_prog Unit (fun c t f => if c ≠ 0 then t else f) 1024 (by norm_num)
      (by norm_num) (fun _ => 0) () 0 0).imp fun _ h => ⟨h.1, h.2.1, h.2.2.1⟩⟩

/-- C2 (as the code behaves): for the program whose only instruction is POP_RET,
`Machine::run` sets status finished and its local `ret` is 0, but the value it returns is the
one the stack array held at the stack base before the call: 7 if that cell held 7. -/
theorem Machine_run_pop_ret_only (σ : Type) (STACK_MAX : Nat) (hM : 0 < STACK_MAX)
    (data : List Nat) (_stack : Int → Int) (seg : σ) (islot_idx iStart : Int) :
    ∃ r, Machine.run STACK_MAX [POP_RET] data _stack seg islot_idx iStart = some r
      ∧ r.status = status_t.finished ∧ r.ret = _stack 0
      ∧ (direct_run STACK_MAX [POP_RET] (Regs.init data _stack seg islot_idx iStart)).map
          (fun x => (Machine.ret_sp x.1).1) = some 0
      ∧ (Machine.run STACK_MAX [POP_RET] data (Function.update _stack 0 7) seg islot_idx
          iStart).map (fun r => (r.ret, r.status)) = some (7, status_t.finished) := by
  simp [Machine.run, Machine.ret_sp, direct_run, Regs.init, POP_RET, pop_ret, push, pop,
    check_final_stack]
  omega

/-- Witness of C2's theorem: with `STACK_MAX = 1024` and a stack array holding 7 at the stack
base, the program POP_RET returns 7 with status finished. -/
theorem Machine_run_pop_ret_only_witness :
    0 < 1024 ∧
    ∃ r, Machine.run 1024 [POP_RET] [] (fun i => if i = 0 then 7 else 0) () 0 0 = some r
      ∧ r.status = status_t.finished ∧ r.ret = 7 :=
  ⟨by norm_num,
    (Machine_run_pop_ret_only Unit 1024 (by norm_num) [] (fun i => if i = 0 then 7 else 0) () 0
      0).imp fun _ h => ⟨h.1, h.2.1, by simpa using h.2.2.1⟩⟩

theorem Machine_run_underflow_prog_aux (σ : Type) (pick : Int → Int → Int → Int)
    (STACK_MAX : Nat) (hM : 4 < STACK_MAX) (hM2 : STACK_MAX ≤ 2 ^ 63) (_stack : Int → Int)
    (seg : σ) (islot_idx iStart : Int) :
    (direct_run STACK_MAX (underflow_prog pick)
          (Regs.init simple_data _stack seg islot_idx iStart)).map
        (fun x => (x.2.length, x.1.sp, x.1.seg)) = some (9, -1, seg) := by
  have e1 : ENDOP STACK_MAX 1 = false := ENDOP_false_of_lt _ _ (by omega) (by omega) hM2
  have e2 : ENDOP STACK_MAX 2 = false := ENDOP_false_of_lt _ _ (by omega) (by omega) hM2
  have e3 : ENDOP STACK_MAX 3 = false := ENDOP_false_of_lt _ _ (by omega) (by omega) hM2
  have e4 : ENDOP STACK_MAX 4 = false := ENDOP_false_of_lt _ _ (by omega) (by omega) hM2
  have e5 : ENDOP STACK_MAX (-1) = true :=
    ENDOP_true_of_neg _ _ (by omega) hM2 (by omega) (by norm_num)
  simp [direct_run, underflow_prog, simple_data, Regs.init, PUSH_BYTE, ADD, SUB,
    COND, POP_RET, push_byte, binop, cond, pop_ret, push, pop, param, e1, e2, e3, e4, e5,
    int8, int32]

/-- C4: run on the smoke program with a second COND after its COND, `Machine::run` sets status
stack_underflow and leaves the segment as it was, and `direct_run` executes nine instructions:
the second COND is the last one, the POP_RET after it is not executed. -/
theorem Machine_run_underflow_prog (σ : Type) (pick : Int → Int → Int → Int) (STACK_MAX : Nat)
    (hM : 4 < STACK_MAX) (hM2 : STACK_MAX ≤ 2 ^ 63) (_stack : Int → Int) (seg : σ)
    (islot_idx iStart : Int) :
    (∃ r, Machine.run STACK_MAX (underflow_prog pick) simple_data _stack seg islot_idx iStart
          = some r
      ∧ r.status = status_t.stack_underflow ∧ r.seg = seg) ∧
    (underflow_prog pick : List (instr σ)).length = 10 ∧
    (direct_run STACK_MAX (underflow_prog pick)
          (Regs.init simple_data _stack seg islot_idx iStart)).map
        (fun x => (x.2.length, x.1.sp, x.1.seg)) = some (9, -1, seg) := by
  have e1 : ENDOP STACK_MAX 1 = false := ENDOP_false_of_lt _ _ (by omega) (by omega) hM2
  have e2 : ENDOP STACK_MAX 2 = false := ENDOP_false_of_lt _ _ (by omega) (by omega) hM2
  have e3 : ENDOP STACK_MAX 3 = false := ENDOP_false_of_lt _ _ (by omega) (by omega) hM2
  have e4 : ENDOP STACK_MAX 4 = false := ENDOP_false_of_lt _ _ (by omega) (by omega) hM2
  have e5 : ENDOP STACK_MAX (-1) = true :=
    ENDOP_true_of_neg _ _ (by omega) hM2 (by omega) (by norm_num)
  refine ⟨?_, by simp [underflow_prog],
    Machine_run_underflow_prog_aux σ pick STACK_MAX hM hM2 _stack seg islot_idx iStart⟩
  simp [Machine.run, Machine.ret_sp, direct_run, underflow_prog, simple_data, Regs.init, PUSH_BYTE, ADD, SUB,
    COND, POP_RET, push_byte, binop, cond, pop_ret, push, pop, param, e1, e2, e3, e4, e5,
    check_final_stack, int8, int32]

/-- Witness of C4's theorem at `STACK_MAX = 1024`, a zero-filled stack array and the empty
segment. -/
theorem Machine_run_underflow_prog_witness :
    (4 < 1024 ∧ 1024 ≤ 2 ^ 63) ∧
    ∃ r, Machine.run 1024 (underflow_prog (fun c t f => if c ≠ 0 then t else f)) simple_data
        (fun _ => 0) () 0 0 = some r
      ∧ r.status = status_t.stack_underflow ∧ r.seg = () :=
  ⟨by norm_num,
    (Machine_run_underflow_prog Unit (fun c t f => if c ≠ 0 then t else f) 1024 (by norm_num)
      (by norm_num) (fun _ => 0) () 0 0).1⟩


/-- C3: the dispatch step `ENDOP` after an instruction body goes on to the next instruction
exactly when the stack depth `sp - sb` is in `[0, STACK_MAX)` and otherwise ends the run in the
state the body left; so in every run of `direct_run` the depth at the start of each executed
instruction is in `[0, STACK_MAX)`, and an instruction that leaves the depth outside
`[0, STACK_MAX)` is the last one executed: the run ends in the very state it left (stack,
segment and all).  An instruction that leaves through `EXIT` ends the run without a dispatch
step.  Depths are those a `ptrdiff_t` can hold: no body moves `sp` by more than `2 ^ 62`
cells. -/
theorem direct_run_stack_depth (σ : Type) (STACK_MAX : Nat) (hM : 0 < STACK_MAX)
    (hM2 : STACK_MAX ≤ 2 ^ 62) (prog : List (instr σ)) (data : List Nat) (_stack : Int → Int)
    (seg : σ) (islot_idx iStart : Int)
    (hstep : ∀ body, instr.startop body ∈ prog →
      ∀ r, r.sp - 2 ^ 62 ≤ (body r).sp ∧ (body r).sp ≤ r.sp + 2 ^ 62) :
    (∀ (body : Regs σ → Regs σ) (rest : List (instr σ)) (r : Regs σ),
      -(2 ^ 63) ≤ (body r).sp → (body r).sp < 2 ^ 63 →
      direct_run STACK_MAX (instr.startop body :: rest) r =
        if 0 ≤ (body r).sp ∧ (body r).sp < STACK_MAX
        then (direct_run STACK_MAX rest (body r)).map (fun x => (x.1, r :: x.2))
        else some (body r, [r])) ∧
    (∀ fin tr, direct_run STACK_MAX prog (Regs.init data _stack seg islot_idx iStart)
        = some (fin, tr) →
      (∀ r ∈ tr, 0 ≤ r.sp ∧ r.sp < STACK_MAX) ∧
      (∀ k body r, prog[k]? = some (instr.startop body) → tr[k]? = some r →
        ¬ (0 ≤ (body r).sp ∧ (body r).sp < STACK_MAX) →
        fin = body r ∧ tr.length = k + 1)) := by
  refine ⟨?_, ?_⟩
  · intro body rest r hlo hhi
    rw [direct_run_startop]
    have hiff := ENDOP_eq_false_iff STACK_MAX (body r).sp hM (by omega) hlo hhi
    by_cases hin : 0 ≤ (body r).sp ∧ (body r).sp < STACK_MAX
    · rw [if_pos hin, hiff.2 hin]
      simp
    · rw [if_neg hin]
      cases he : ENDOP STACK_MAX (body r).sp with
      | true => simp
      | false => exact absurd (hiff.1 he) hin
  · intro fin tr hrun
    exact direct_run_invariant STACK_MAX hM hM2 prog _ fin tr (by simp [Regs.init])
      (by simp [Regs.init]; omega) hstep hrun

theorem direct_run_underflow_prog_some :
    ∃ fin tr, direct_run 1024 (underflow_prog (fun c t f => if c ≠ 0 then t else f))
      (Regs.init simple_data (fun _ => 0) () 0 0) = some (fin, tr) ∧ tr.length = 9 := by
  have h := (Machine_run_underflow_prog_aux Unit (fun c t f => if c ≠ 0 then t else f) 1024
    (by norm_num) (by norm_num) (fun _ => 0) () 0 0)
  obtain ⟨x, hx, hfx⟩ := Option.map_eq_some'.1 h
  refine ⟨x.1, x.2, hx, ?_⟩
  simp only [Prod.mk.injEq] at hfx
  exact hfx.1

/-- Witness of C3's theorem: the run of the underflow program on a machine with
`STACK_MAX = 1024` executes nine instructions, each started at a depth in `[0, 1024)`. -/
theorem direct_run_stack_depth_witness :
    (0 < 1024 ∧ 1024 ≤ 2 ^ 62) ∧
    ∃ fin tr, direct_run 1024 (underflow_prog (fun c t f => if c ≠ 0 then t else f))
        (Regs.init simple_data (fun _ => 0) () 0 0) = some (fin, tr)
      ∧ tr.length = 9 ∧ ∀ r ∈ tr, 0 ≤ r.sp ∧ r.sp < (1024 : Nat) :=
  ⟨by norm_num,
    direct_run_underflow_prog_some.elim fun fin h => h.elim fun tr h =>
      ⟨fin, tr, h.1, h.2,
        ((direct_run_stack_depth Unit 1024 (by norm_num) (by norm_num)
          (underflow_prog (fun c t f => if c ≠ 0 then t else f)) simple_data (fun _ => 0) () 0 0
          (step_bound_underflow_prog _)).2 fin tr h.1).1⟩⟩


/-! ## Runs that end in the dispatch step -/

theorem push_byte_sp {σ : Type} (r : Regs σ) :
    (push_byte r).sp = r.sp + 1 ∧ (push_byte r).seg = r.seg := by
  simp [push_byte, push, param]

theorem binop_sp {σ : Type} (op : Int → Int → Int) (r : Regs σ) :
    (binop op r).sp = r.sp - 1 ∧ (binop op r).seg = r.seg := by
  simp [binop, pop]

theorem cond_sp {σ : Type} (pick : Int → Int → Int → Int) (r : Regs σ) :
    (cond pick r).sp = r.sp - 2 ∧ (cond pick r).seg = r.seg := by
  simp [cond, push, pop]
  omega

theorem prog_error_msg_no_overflow : "stack_overflow" ∉ prog_error_msg := by
  decide

/-- C6 (as the code behaves): the value `Machine::run` returns is a cell of the stack array
that the run may never have written.  On the smoke program it is the content the array had at
the stack base before the call, so two machines that differ only there return different values
for the same program, data, segment and slot index; and on PUSH_BYTE 1; ADD; POP_RET two
successive calls on one machine with a zero-filled array return 1, then 2, both with status
finished. -/
theorem Machine_run_not_deterministic (σ : Type) (pick : Int → Int → Int → Int)
    (STACK_MAX : Nat) (hM : 4 < STACK_MAX) (hM2 : STACK_MAX ≤ 2 ^ 63) (seg : σ)
    (islot_idx iStart : Int) :
    (∀ _stack : Int → Int, ∀ v : Int,
      ∃ r, Machine.run STACK_MAX (simple_prog pick) simple_data (Function.update _stack 0 v) seg
          islot_idx iStart = some r
        ∧ r.ret = v ∧ r.status = status_t.finished ∧ r._stack 0 = v) ∧
    (∃ r1 r2,
      Machine.run STACK_MAX [PUSH_BYTE, ADD, POP_RET] [1] (fun _ => 0) seg islot_idx iStart
          = some r1 ∧
      Machine.run STACK_MAX [PUSH_BYTE, ADD, POP_RET] [1] r1._stack r1.seg islot_idx iStart
          = some r2 ∧
      r1.status = status_t.finished ∧ r2.status = status_t.finished ∧
      r1.ret = 1 ∧ r2.ret = 2) := by
  have e0 : ENDOP STACK_MAX 0 = false := ENDOP_false_of_lt _ _ (by omega) (by omega) hM2
  have e1 : ENDOP STACK_MAX 1 = false := ENDOP_false_of_lt _ _ (by omega) (by omega) hM2
  refine ⟨?_, ?_⟩
  · intro _stack v
    obtain ⟨r, h1, h2, h3, _, _, h6, _⟩ := run_simple_prog σ pick STACK_MAX hM hM2
      (Function.update _stack 0 v) seg islot_idx iStart
    exact ⟨r, h1, by simpa using h3, h2, by simpa using h6⟩
  · simp [Machine.run, Machine.ret_sp, direct_run, Regs.init, PUSH_BYTE, ADD, POP_RET, push_byte, binop,
      pop_ret, push, pop, param, e0, e1, check_final_stack, int8, int32]
    omega


/-- Witness of C6's theorem: `STACK_MAX = 1024`; the smoke program returns 0 on a zero-filled
stack array and 7 on one that holds 7 at the stack base. -/
theorem Machine_run_not_deterministic_witness :
    (4 < 1024 ∧ 1024 ≤ 2 ^ 63) ∧
    (∃ r, Machine.run 1024 (simple_prog (fun c t f => if c ≠ 0 then t else f)) simple_data
        (Function.update (fun _ => 0) 0 0) () 0 0 = some r ∧ r.ret = 0) ∧
    (∃ r, Machine.run 1024 (simple_prog (fun c t f => if c ≠ 0 then t else f)) simple_data
        (Function.update (fun _ => 0) 0 7) () 0 0 = some r ∧ r.ret = 7) :=
  ⟨by norm_num,
    ((Machine_run_not_deterministic Unit (fun c t f => if c ≠ 0 then t else f) 1024
      (by norm_num) (by norm_num) () 0 0).1 (fun _ => 0) 0).imp fun _ h => ⟨h.1, h.2.1⟩,
    ((Machine_run_not_deterministic Unit (fun c t f => if c ≠ 0 then t else f) 1024
      (by norm_num) (by norm_num) () 0 0).1 (fun _ => 0) 7).imp fun _ h => ⟨h.1, h.2.1⟩⟩

theorem direct_run_continue {σ : Type} (STACK_MAX : Nat) (body : Regs σ → Regs σ)
    (rest : List (instr σ)) (r : Regs σ) (he : ENDOP STACK_MAX (body r).sp = false) :
    direct_run STACK_MAX (instr.startop body :: rest) r =
      (direct_run STACK_MAX rest (body r)).map (fun x => (x.1, r :: x.2)) := by
  rw [direct_run_startop, he]
  simp

theorem push_byte_stack {σ : Type} (r : Regs σ) (i : Int) (h : i ≠ r.sp + 1) :
    (push_byte r).stack i = r.stack i := by
  simp [push_byte, push, param, Function.update, h]

theorem binop_stack {σ : Type} (op : Int → Int → Int) (r : Regs σ) (i : Int)
    (h : i ≠ r.sp - 1) : (binop op r).stack i = r.stack i := by
  simp [binop, pop, Function.update, h]

theorem cond_stack {σ : Type} (pick : Int → Int → Int → Int) (r : Regs σ) (i : Int)
    (h : i ≠ r.sp - 2) : (cond pick r).stack i = r.stack i := by
  have h2 : ¬ i = r.sp - 1 - 1 := by omega
  simp [cond, push, pop, Function.update, h2]

/-- C22 (as the code behaves): at the start of every run of `direct_run`, in the register
file of its first instruction, the array `copies` has 64 entries of which only the first
holds -1; each of the other 63 holds 0, because `int8 copies[64] = {-1}` gives a value to
the first element only. -/
theorem direct_run_copies_start {σ : Type} (STACK_MAX : Nat) (program : List (instr σ))
    (data : List Nat) (_stack : Int → Int) (seg : σ) (islot_idx iStart : Int)
    (res : Regs σ × List (Regs σ))
    (h : direct_run STACK_MAX program (Regs.init data _stack seg islot_idx iStart) = some res) :
    ∃ r0 rest, res.2 = r0 :: rest ∧
      r0 = Regs.init data _stack seg islot_idx iStart ∧
      r0.copies.length = 64 ∧ r0.copies.get? 0 = some (-1) ∧
      (∀ k, 1 ≤ k → k < 64 → r0.copies.get? k = some 0) ∧
      ¬ (∀ k, k < 64 → r0.copies.get? k = some (-1)) := by
  have hc : (Regs.init data _stack seg islot_idx iStart).copies = copies_init := rfl
  have hk : ∀ k, 1 ≤ k → k < 64 → copies_init.get? k = some 0 := by decide
  have hn : ¬ (∀ k, k < 64 → copies_init.get? k = some (-1)) := by decide
  cases program with
  | nil => simp [direct_run] at h
  | cons i rest =>
    cases i with
    | startop body =>
      simp only [direct_run] at h
      split at h
      · cases h
        exact ⟨_, [], rfl, rfl, by rw [hc]; rfl, by rw [hc]; rfl, by rw [hc]; exact hk,
          by rw [hc]; exact hn⟩
      · obtain ⟨x, _, hx⟩ := Option.map_eq_some'.1 h
        cases hx
        exact ⟨_, x.2, rfl, rfl, by rw [hc]; rfl, by rw [hc]; rfl, by rw [hc]; exact hk,
          by rw [hc]; exact hn⟩
    | exitop body =>
      simp only [direct_run] at h
      cases h
      exact ⟨_, [], rfl, rfl, by rw [hc]; rfl, by rw [hc]; rfl, by rw [hc]; exact hk,
        by rw [hc]; exact hn⟩

/-- Witness of C22's theorem: the run of the program that is `POP_RET` alone. -/
theorem direct_run_copies_start_witness :
    ∃ r0 rest,
      [Regs.init [] (fun _ => 0) () 0 0] = r0 :: rest ∧
      r0 = Regs.init [] (fun _ => 0) () 0 0 ∧
      r0.copies.length = 64 ∧ r0.copies.get? 0 = some (-1) ∧
      (∀ k, 1 ≤ k → k < 64 → r0.copies.get? k = some 0) ∧
      ¬ (∀ k, k < 64 → r0.copies.get? k = some (-1)) :=
  direct_run_copies_start 1024 [POP_RET] [] (fun _ => 0) () 0 0
    (push (pop_ret (Regs.init [] (fun _ => 0) () 0 0)).2
      (pop_ret (Regs.init [] (fun _ => 0) () 0 0)).1, [Regs.init [] (fun _ => 0) () 0 0]) rfl

/-- One repetition of the body of the test program, entered at depth 1 with its four
immediate bytes next in the data block: seven instructions are executed at depths 1, 2, 3,
4, 3, 4, 3, and the depth is 1 again after them; the cell at the stack base and the segment
are not touched, and COND has replaced the value `c` in the cell above the base by
`pick c 42 20`. -/
theorem simple_body_run {σ : Type} (pick : Int → Int → Int → Int) (STACK_MAX : Nat)
    (hM : 4 < STACK_MAX) (hM2 : STACK_MAX ≤ 2 ^ 63) (rest : List (instr σ)) (r : Regs σ)
    (d : List Nat) (h : r.sp = 1) (hd : r.dp = simple_body_data ++ d) :
    ∃ (r7 : Regs σ) (t : List (Regs σ)), r7.sp = 1 ∧ r7.seg = r.seg ∧
      r7.stack 0 = r.stack 0 ∧ t.length = 7 ∧ t[0]? = some r ∧
      (∀ x ∈ t, 0 ≤ x.sp ∧ x.sp ≤ 4) ∧
      r7.dp = d ∧ r7.stack 1 = pick (r.stack 1) 42 20 ∧
      direct_run STACK_MAX (simple_body pick ++ rest) r =
        (direct_run STACK_MAX rest r7).map (fun x => (x.1, t ++ x.2)) := by
  have s1 := push_byte_sp r
  have s2 := push_byte_sp (push_byte r)
  have s3 := push_byte_sp (push_byte (push_byte r))
  have s4 := binop_sp (· + ·) (push_byte (push_byte (push_byte r)))
  have s5 := push_byte_sp (binop (· + ·) (push_byte (push_byte (push_byte r))))
  have s6 := binop_sp (· - ·) (push_byte (binop (· + ·) (push_byte (push_byte (push_byte r)))))
  have s7 := cond_sp pick
    (binop (· - ·) (push_byte (binop (· + ·) (push_byte (push_byte (push_byte r))))))
  have c1 := push_byte_stack r 0 (by omega)
  have c2 := push_byte_stack (push_byte r) 0 (by omega)
  have c3 := push_byte_stack (push_byte (push_byte r)) 0 (by omega)
  have c4 := binop_stack (· + ·) (push_byte (push_byte (push_byte r))) 0 (by omega)
  have c5 := push_byte_stack (binop (· + ·) (push_byte (push_byte (push_byte r)))) 0 (by omega)
  have c6 := binop_stack (· - ·)
    (push_byte (binop (· + ·) (push_byte (push_byte (push_byte r))))) 0 (by omega)
  have c7 := cond_stack pick
    (binop (· - ·) (push_byte (binop (· + ·) (push_byte (push_byte (push_byte r)))))) 0
    (by omega)
  refine ⟨cond pick (binop (· - ·) (push_byte (binop (· + ·)
      (push_byte (push_byte (push_byte r)))))),
    [r, push_byte r, push_byte (push_byte r), push_byte (push_byte (push_byte r)),
      binop (· + ·) (push_byte (push_byte (push_byte r))),
      push_byte (binop (· + ·) (push_byte (push_byte (push_byte r)))),
      binop (· - ·) (push_byte (binop (· + ·) (push_byte (push_byte (push_byte r)))))],
    by omega, ?_, ?_, rfl, rfl, ?_, ?_, ?_, ?_⟩
  · rw [s7.2, s6.2, s5.2, s4.2, s3.2, s2.2, s1.2]
  · rw [c7, c6, c5, c4, c3, c2, c1]
  · intro x hx
    simp only [List.mem_cons, List.mem_singleton, List.not_mem_nil, or_false] at hx
    rcases hx with rfl | rfl | rfl | rfl | rfl | rfl | rfl <;> omega
  · simp [cond, binop, push_byte, push, pop, param, hd, simple_body_data]
  · simp [cond, binop, push_byte, push, pop, param, hd, h, simple_body_data, Function.update,
      int8, int32]
  · simp only [simple_body, PUSH_BYTE, ADD, SUB, COND, List.cons_append, List.nil_append]
    rw [direct_run_continue _ _ _ _ (ENDOP_false_of_lt _ _ (by omega) (by omega) hM2),
      direct_run_continue _ _ _ _ (ENDOP_false_of_lt _ _ (by omega) (by omega) hM2),
      direct_run_continue _ _ _ _ (ENDOP_false_of_lt _ _ (by omega) (by omega) hM2),
      direct_run_continue _ _ _ _ (ENDOP_false_of_lt _ _ (by omega) (by omega) hM2),
      direct_run_continue _ _ _ _ (ENDOP_false_of_lt _ _ (by omega) (by omega) hM2),
      direct_run_continue _ _ _ _ (ENDOP_false_of_lt _ _ (by omega) (by omega) hM2),
      direct_run_continue _ _ _ _ (ENDOP_false_of_lt _ _ (by omega) (by omega) hM2)]
    simp only [Option.map_map]
    rfl

/-- The repetitions of the body followed by POP_RET, entered at depth 1: the run ends at depth
1, the depth is 1 at the start of every repetition and at POP_RET, never above 4, the cell
at the stack base and the segment are not touched, and the cell above the base holds the
value COND left in the last repetition. -/
theorem big_copies_run {σ : Type} (pick : Int → Int → Int → Int) (STACK_MAX : Nat)
    (hM : 4 < STACK_MAX) (hM2 : STACK_MAX ≤ 2 ^ 63) :
    ∀ (n : Nat) (r : Regs σ), r.sp = 1 → r.dp = big_copies_data n →
      ∃ fin tr, direct_run STACK_MAX (big_copies pick n) r = some (fin, tr) ∧
        fin.sp = 1 ∧ fin.seg = r.seg ∧ fin.stack 0 = r.stack 0 ∧ tr.length = 7 * n + 1 ∧
        (∀ x ∈ tr, 0 ≤ x.sp ∧ x.sp ≤ 4) ∧
        (∀ k, k ≤ n → ∃ x, tr[7 * k]? = some x ∧ x.sp = 1) ∧
        fin.stack 1 = (fun c => pick c 42 20)^[n] (r.stack 1) := by
  intro n
  induction n with
  | zero =>
    intro r h _
    refine ⟨push (pop_ret r).2 (pop_ret r).1, [r], by simp [big_copies, POP_RET, direct_run],
      by simp [push, pop_ret, pop, h], by simp [push, pop_ret, pop], ?_, rfl, ?_, ?_, ?_⟩
    · simp [push, pop_ret, pop, h]
    · intro x hx
      simp only [List.mem_singleton] at hx
      subst hx
      omega
    · intro k hk
      have : k = 0 := by omega
      subst this
      exact ⟨r, rfl, h⟩
    · simp [push, pop_ret, pop, h]
  | succ n ih =>
    intro r h hd
    obtain ⟨r7, t, h1, h2, h3, h4, h5, h6, hd7, hv, h7⟩ :=
      simple_body_run pick STACK_MAX hM hM2 (big_copies pick n) r (big_copies_data n) h hd
    obtain ⟨fin, tr, g1, g2, g3, g4, g5, g6, g7, gv⟩ := ih r7 h1 hd7
    refine ⟨fin, t ++ tr, ?_, g2, by rw [g3, h2], by rw [g4, h3], ?_, ?_, ?_, ?_⟩
    · simp only [big_copies]
      rw [h7, g1]
      rfl
    · rw [List.length_append, h4, g5]
      omega
    · intro x hx
      rcases List.mem_append.1 hx with hx | hx
      · exact h6 x hx
      · exact g6 x hx
    · intro k hk
      cases k with
      | zero =>
        refine ⟨r, ?_, h⟩
        rw [List.getElem?_append_left (by omega)]
        exact h5
      | succ k =>
        obtain ⟨x, hx1, hx2⟩ := g7 k (by omega)
        refine ⟨x, ?_, hx2⟩
        rw [List.getElem?_append_right (by omega), h4]
        have : 7 * (k + 1) - 7 = 7 * k := by omega
        rw [this]
        exact hx1
    · rw [gv, hv, Function.iterate_succ_apply]

/-- The amplified program under `direct_run`, from the registers `Machine::run` starts with. -/
theorem big_prog_run {σ : Type} (pick : Int → Int → Int → Int) (STACK_MAX : Nat)
    (hM : 4 < STACK_MAX) (hM2 : STACK_MAX ≤ 2 ^ 63) (n : Nat) (_stack : Int → Int) (seg : σ)
    (islot_idx iStart : Int) :
    ∃ fin tr, direct_run STACK_MAX (big_prog pick n)
          (Regs.init (big_data n) _stack seg islot_idx iStart) = some (fin, tr) ∧
        fin.sp = 1 ∧ fin.seg = seg ∧ fin.stack 0 = _stack 0 ∧ tr.length = 7 * n + 2 ∧
        (∀ x ∈ tr, 0 ≤ x.sp ∧ x.sp ≤ 4) ∧
        (∀ k, k ≤ n → ∃ x, tr[7 * k + 1]? = some x ∧ x.sp = 1) ∧
        fin.stack 1 = big_prog_result pick n := by
  have s1 := push_byte_sp (Regs.init (big_data n) _stack seg islot_idx iStart)
  have c1 := push_byte_stack (Regs.init (big_data n) _stack seg islot_idx iStart) 0
    (by simp [Regs.init])
  have hinit : (Regs.init (big_data n) _stack seg islot_idx iStart).sp = 0 := rfl
  have hdp : (push_byte (Regs.init (big_data n) _stack seg islot_idx iStart)).dp
      = big_copies_data n := by
    simp [push_byte, push, param, Regs.init, big_data]
  have htop : (push_byte (Regs.init (big_data n) _stack seg islot_idx iStart)).stack 1
      = 43 := by
    simp [push_byte, push, param, Regs.init, big_data, int8]
  obtain ⟨fin, tr, g1, g2, g3, g4, g5, g6, g7, gv⟩ := big_copies_run pick STACK_MAX hM hM2 n
    (push_byte (Regs.init (big_data n) _stack seg islot_idx iStart)) (by omega) hdp
  refine ⟨fin, Regs.init (big_data n) _stack seg islot_idx iStart :: tr, ?_, g2,
    by rw [g3, s1.2]; rfl, by rw [g4, c1]; rfl, by simp [g5], ?_, ?_, ?_⟩
  · simp only [big_prog, PUSH_BYTE]
    rw [direct_run_continue _ _ _ _ (ENDOP_false_of_lt _ _ (by omega) (by omega) hM2), g1]
    rfl
  · intro x hx
    rcases List.mem_cons.1 hx with rfl | hx
    · omega
    · exact g6 x hx
  · intro k hk
    obtain ⟨x, hx1, hx2⟩ := g7 k hk
    exact ⟨x, by simpa using hx1, hx2⟩
  · rw [gv, htop]
    rfl

/-- What `Machine::run` makes of the run of the amplified program: the status is finished
and the value returned is the cell at the stack base as it was before the call, while the
value the program computed is left in the cell above it. -/
theorem run_big_prog {σ : Type} (pick : Int → Int → Int → Int) (STACK_MAX : Nat)
    (hM : 4 < STACK_MAX) (hM2 : STACK_MAX ≤ 2 ^ 63) (n : Nat) (_stack : Int → Int) (seg : σ)
    (islot_idx iStart : Int) :
    ∃ r, Machine.run STACK_MAX (big_prog pick n) (big_data n) _stack seg islot_idx iStart
        = some r ∧ r.status = status_t.finished ∧ r.ret = _stack 0 ∧ r.seg = seg ∧
        r._stack 0 = _stack 0 ∧ r._stack 1 = big_prog_result pick n := by
  obtain ⟨fin, tr, g1, g2, g3, g4, _, _, _, gv⟩ :=
    big_prog_run pick STACK_MAX hM hM2 n _stack seg islot_idx iStart
  have hM0 : ¬ STACK_MAX = 0 := by omega
  simp [Machine.run, Machine.ret_sp, g1, g2, g3, g4, gv, check_final_stack, hM0]

theorem big_prog_result_cond (pick : Int → Int → Int → Int)
    (hp : ∀ c t f, pick c t f = if c ≠ 0 then t else f) (n : Nat) :
    big_prog_result pick (n + 1) = 42 := by
  induction n with
  | zero => simp [big_prog_result, hp]
  | succ n ih =>
    have hstep : big_prog_result pick (n + 1 + 1)
        = pick (big_prog_result pick (n + 1)) 42 20 := by
      unfold big_prog_result
      rw [Function.iterate_succ_apply']
    rw [hstep, ih, hp]
    simp

/-- C19 (as the code behaves): for every number of copies `n`, the amplified program of the
VM test runs at depths between 0 and 4, the depth is 1 after the leading PUSH_BYTE and after
each repetition of the body, and the run ends at depth 1 after 7 n + 2 instructions with
status finished. The value the program computed, `big_prog_result pick n`, which is 42 for
every `n >= 1` when COND is the conditional, is left in the cell above the stack base; the
value `Machine::run` returns is the cell at the stack base as it was before the call, which
the program never writes. So the run returns the same value as a run of the program with one
copy exactly when the two stack arrays held the same value at their base. -/
theorem Machine_run_big_prog (σ : Type) (pick : Int → Int → Int → Int) (STACK_MAX : Nat)
    (hM : 4 < STACK_MAX) (hM2 : STACK_MAX ≤ 2 ^ 63) (n : Nat) (_stack : Int → Int) (seg : σ)
    (islot_idx iStart : Int) :
    ((big_prog pick 1 : List (instr σ)) = simple_prog pick ∧ big_data 1 = simple_data) ∧
    ∃ r fin tr,
      Machine.run STACK_MAX (big_prog pick n) (big_data n) _stack seg islot_idx iStart
        = some r ∧
      direct_run STACK_MAX (big_prog pick n)
        (Regs.init (big_data n) _stack seg islot_idx iStart) = some (fin, tr) ∧
      r.status = status_t.finished ∧
      tr.length = 7 * n + 2 ∧ (∀ x ∈ tr, 0 ≤ x.sp ∧ x.sp ≤ 4) ∧ fin.sp = 1 ∧
      (∀ k, k ≤ n → ∃ x, tr[7 * k + 1]? = some x ∧ x.sp = 1) ∧
      r.ret = _stack 0 ∧ r._stack 0 = _stack 0 ∧
      r._stack 1 = big_prog_result pick n ∧
      ((∀ c t f, pick c t f = if c ≠ 0 then t else f) → 1 ≤ n → r._stack 1 = 42) ∧
      ∀ (_stack1 : Int → Int) (seg1 : σ) (islot_idx1 iStart1 : Int),
        ∃ r1, Machine.run STACK_MAX (big_prog pick 1) (big_data 1) _stack1 seg1 islot_idx1
            iStart1 = some r1 ∧
          r1.status = status_t.finished ∧ r1.ret = _stack1 0 ∧
          (r.ret = r1.ret ↔ _stack 0 = _stack1 0) := by
  refine ⟨⟨rfl, rfl⟩, ?_⟩
  obtain ⟨r, h1, h2, h3, _, h5, h6⟩ :=
    run_big_prog pick STACK_MAX hM hM2 n _stack seg islot_idx iStart
  obtain ⟨fin, tr, g1, g2, _, _, g5, g6, g7, _⟩ :=
    big_prog_run pick STACK_MAX hM hM2 n _stack seg islot_idx iStart
  refine ⟨r, fin, tr, h1, g1, h2, g5, g6, g2, g7, h3, h5, h6, ?_, ?_⟩
  · intro hp hn
    obtain ⟨m, rfl⟩ : ∃ m, n = m + 1 := ⟨n - 1, by omega⟩
    rw [h6, big_prog_result_cond pick hp m]
  · intro _stack1 seg1 islot_idx1 iStart1
    obtain ⟨r1, k1, k2, k3, _⟩ :=
      run_big_prog pick STACK_MAX hM hM2 1 _stack1 seg1 islot_idx1 iStart1
    exact ⟨r1, k1, k2, k3, by rw [h3, k3]⟩

/-- Witness of C19's theorem: `STACK_MAX = 1024`, 322639 copies (the number `main` makes of
the 13-byte test program when no count is given), COND the conditional, and a stack array
that holds 7 in every cell: the run ends with status finished, returns 7 and leaves the
result 42 above the base, and the program with one copy on a stack array of zeros returns
0, another value. -/
theorem Machine_run_big_prog_witness :
    (4 < 1024 ∧ 1024 ≤ 2 ^ 63 ∧ ((1 <<< 20) * 4 + 13 - 1) / 13 = 322639) ∧
    ∃ r,
      Machine.run 1024 (big_prog (fun c t f => if c ≠ 0 then t else f) 322639)
        (big_data 322639) (fun _ => 7) () 0 0 = some r ∧
      r.status = status_t.finished ∧ r.ret = 7 ∧ r._stack 1 = 42 ∧
      ∃ r1,
        Machine.run 1024 (big_prog (fun c t f => if c ≠ 0 then t else f) 1) (big_data 1)
          (fun _ => 0) () 0 0 = some r1 ∧
        r1.status = status_t.finished ∧ r1.ret = 0 ∧ r.ret ≠ r1.ret :=
  ⟨⟨by norm_num, by norm_num, by decide⟩,
    (Machine_run_big_prog Unit (fun c t f => if c ≠ 0 then t else f) 1024 (by norm_num)
      (by norm_num) 322639 (fun _ => 7) () 0 0).2.elim fun r h => h.elim fun _ h =>
        h.elim fun _ h =>
          ⟨r, h.1, h.2.2.1, h.2.2.2.2.2.2.2.1,
            h.2.2.2.2.2.2.2.2.2.2.1 (fun _ _ _ => rfl) (by norm_num),
            (h.2.2.2.2.2.2.2.2.2.2.2 (fun _ => 0) () 0 0).elim fun r1 k =>
              ⟨r1, k.1, k.2.1, k.2.2.1, fun e => absurd (k.2.2.2.1 e) (by decide)⟩⟩⟩

end vm

namespace graphite2

/-! ## Reading runs -/

theorem bytes_at_append (m : Nat → Nat) :
    ∀ (as bs : List Nat) (p : Nat),
      bytes_at m p (as ++ bs) ↔ bytes_at m p as ∧ bytes_at m (p + as.length) bs := by
  intro as
  induction as with
  | nil => intro bs p; simp [bytes_at]
  | cons a as ih =>
    intro bs p
    rw [List.cons_append]
    simp only [bytes_at, List.length_cons]
    rw [ih bs (p + 1)]
    have : p + 1 + as.length = p + (as.length + 1) := by omega
    rw [this]
    tauto

theorem be16_of_bytes (m : Nat → Nat) (p v : Nat) (hv : v < 65536)
    (h : bytes_at m p (enc16 v)) : be16 m p = v := by
  simp only [enc16, bytes_at] at h
  unfold be16
  rw [h.1, h.2.1]
  omega

theorem dec32_of_pos (n : Nat) (h0 : 1 ≤ n) (h1 : n < 2 ^ 32) : dec32 n = n - 1 := by
  unfold dec32
  omega

theorem values_bytes_length (vs : List Nat) : (values_bytes vs).length = 2 * vs.length := by
  induction vs with
  | nil => rfl
  | cons v vs ih => simp [values_bytes, enc16, ih]; omega

theorem run_pairs_wrap_congr :
    ∀ (vs : List Nat) (a b : Nat), a % 65536 = b % 65536 →
      (run_pairs a vs).map wrap_id = (run_pairs b vs).map wrap_id := by
  intro vs
  induction vs with
  | nil => intro a b _; rfl
  | cons v vs ih =>
    intro a b h
    simp only [run_pairs, List.map_cons, wrap_id, h, List.cons.injEq, true_and]
    exact ih (a + 1) (b + 1) (by omega)

theorem run_pairs_wrap_of_lt :
    ∀ (vs : List Nat) (a : Nat), a + vs.length ≤ 65536 →
      (run_pairs a vs).map wrap_id = run_pairs a vs := by
  intro vs
  induction vs with
  | nil => intro a _; rfl
  | cons v vs ih =>
    intro a h
    simp only [List.length_cons] at h
    simp only [run_pairs, List.map_cons, wrap_id, List.cons.injEq]
    refine ⟨?_, ih (a + 1) (by omega)⟩
    rw [Nat.mod_eq_of_lt (by omega)]

/-- The values of a run: an iterator with `_n = |vs|` values of its run still to come yields
them with consecutive ids and is then at the end of the run with `_n = 0`. -/
theorem iterate_values (m : Nat → Nat) (incr : glat_iterator → glat_iterator)
    (hinc : ∀ it : glat_iterator, it._n ≠ 0 →
      (incr it)._p = it._p + 2 ∧
      (incr it)._v = { id := (it._v.id + 1) % 65536, value := be16 m it._p } ∧
      (incr it)._n = dec32 it._n)
    (last : glat_iterator) :
    ∀ (vs : List Nat) (it : glat_iterator) (fuel : Nat),
      it._n = vs.length → vs.length < 2 ^ 32 → (∀ v ∈ vs, v < 65536) →
      bytes_at m it._p (values_bytes vs) → it._p + 2 * vs.length < last._p →
      ∃ it1 : glat_iterator, it1._p = it._p + 2 * vs.length ∧ it1._n = 0 ∧
        (iterate incr (vs.length + fuel) (incr it) last).map (fun x => x.1) =
          (iterate incr fuel (incr it1) last).map
            (fun x => (run_pairs (it._v.id + 1) vs).map wrap_id ++ x.1) := by
  intro vs
  induction vs with
  | nil =>
    intro it fuel hn _ _ _ _
    exact ⟨it, by simp, by simpa using hn, by simp [run_pairs]⟩
  | cons v vs ih =>
    intro it fuel hn hlen hv hb hp
    simp only [List.length_cons] at hn hlen hp
    obtain ⟨h1, h2, h3⟩ := hinc it (by omega)
    simp only [values_bytes] at hb
    rw [bytes_at_append] at hb
    have hval : be16 m it._p = v := be16_of_bytes m _ v (hv v (List.mem_cons_self _ _)) hb.1
    have hn1 : (incr it)._n = vs.length := by
      rw [h3, dec32_of_pos _ (by omega) (by omega)]; omega
    have hb1 : bytes_at m (incr it)._p (values_bytes vs) := by
      rw [h1]; simpa [enc16] using hb.2
    obtain ⟨it1, e1, e2, e3⟩ := ih (incr it) fuel hn1 (by omega)
      (fun w hw => hv w (List.mem_cons_of_mem _ hw)) hb1 (by rw [h1]; omega)
    refine ⟨it1, by rw [e1, h1]; simp only [List.length_cons]; omega, e2, ?_⟩
    have hne : (incr it).eq last = false := by
      simp only [glat_iterator.eq, beq_eq_false_iff_ne, ne_eq, h1]
      omega
    have hfuel : (v :: vs).length + fuel = (vs.length + fuel) + 1 := by
      simp only [List.length_cons]; omega
    rw [hfuel, iterate, hne]
    simp only [Bool.false_eq_true, if_false, Option.map_map]
    have hcomp : ((fun x : List glyph_attr × glat_iterator => x.1) ∘
        fun x : List glyph_attr × glat_iterator => ((incr it)._v :: x.1, x.2)) =
        (fun l => (incr it)._v :: l) ∘ (fun x => x.1) := by
      funext x; rfl
    rw [hcomp, ← Option.map_map, e3, Option.map_map]
    congr 1
    funext x
    simp only [Function.comp, run_pairs, List.map_cons, List.cons_append, List.cons.injEq]
    refine ⟨?_, ?_⟩
    · rw [h2, hval]; rfl
    · congr 1
      apply run_pairs_wrap_congr
      rw [h2]
      simp

theorem iterate_of_eq (incr : glat_iterator → glat_iterator) (fuel : Nat)
    (first last : glat_iterator) (h : first.eq last = true) :
    iterate incr fuel first last = some ([], first) := by
  cases fuel <;> simp [iterate, h]

theorem iterate_of_ne (incr : glat_iterator → glat_iterator) (fuel : Nat)
    (first last : glat_iterator) (h : first._p ≠ last._p) :
    iterate incr (fuel + 1) first last =
      (iterate incr fuel (incr first) last).map (fun x => (first._v :: x.1, x.2)) := by
  have hne : first.eq last = false := by
    simpa [glat_iterator.eq] using h
  rw [iterate, hne]
  simp

/-- The runs of a range, for either header format: `hb r` are the header bytes of the run `r`,
`H` their number; an iterator with `_n = 0` at the start of the runs `rs`, incremented, yields
their pairs, ids held as `uint16`, and stops equal to `last` when `last._p` is 2 + `H` bytes
past the end of the runs. -/
theorem iterate_runs (m : Nat → Nat) (incr : glat_iterator → glat_iterator)
    (hb : Run → List Nat) (H : Nat) (rb : List Run → List Nat) (ok : Run → Prop)
    (hrb0 : rb [] = [])
    (hrb : ∀ r rs, rb (r :: rs) = hb r ++ values_bytes r.values ++ rb rs)
    (hH : ∀ r, (hb r).length = H)
    (hok : ∀ r, ok r → r.id < 65536 ∧ 1 ≤ r.values.length ∧ r.values.length < 65536 ∧
      ∀ v ∈ r.values, v < 65536)
    (hinc : ∀ it : glat_iterator, it._n ≠ 0 →
      (incr it)._p = it._p + 2 ∧
      (incr it)._v = { id := (it._v.id + 1) % 65536, value := be16 m it._p } ∧
      (incr it)._n = dec32 it._n)
    (hp0 : ∀ it : glat_iterator, it._n = 0 → (incr it)._p = it._p + H + 2)
    (hhead : ∀ (it : glat_iterator) (r : Run), it._n = 0 → ok r → bytes_at m it._p (hb r) →
      (incr it)._v = { id := r.id, value := be16 m (it._p + H) } ∧
      (incr it)._n = dec32 r.values.length)
    (last : glat_iterator) :
    ∀ (rs : List Run) (it : glat_iterator) (fuel : Nat),
      it._n = 0 → (∀ r ∈ rs, ok r) → bytes_at m it._p (rb rs) →
      it._p + (rb rs).length + H + 2 = last._p →
      (iterate incr (runs_count rs + fuel) (incr it) last).map (fun x => x.1) =
        some ((runs_pairs rs).map wrap_id) := by
  intro rs
  induction rs with
  | nil =>
    intro it fuel hn _ _ hp
    rw [iterate_of_eq]
    · simp [runs_pairs]
    · simp only [glat_iterator.eq, beq_iff_eq]
      rw [hp0 it hn, ← hp, hrb0]
      simp
  | cons r rs ih =>
    intro it fuel hn hwf hbytes hp
    obtain ⟨hid, hc1, hc2, hv⟩ := hok r (hwf r (List.mem_cons_self _ _))
    rw [hrb, bytes_at_append, bytes_at_append, hH] at hbytes
    obtain ⟨⟨hbh, hbv⟩, hbr⟩ := hbytes
    rw [hrb] at hp
    simp only [List.length_append, hH, values_bytes_length] at hp hbr
    obtain ⟨e2, e3⟩ := hhead it r hn (hwf r (List.mem_cons_self _ _)) hbh
    have e1 := hp0 it hn
    rcases hvals : r.values with _ | ⟨v, vs⟩
    · rw [hvals] at hc1; simp at hc1
    rw [hvals] at hbv hc2 hv e3 hp hbr
    simp only [List.length_cons] at hc2 e3 hp hbr
    simp only [values_bytes] at hbv
    rw [bytes_at_append] at hbv
    have hval : be16 m (it._p + H) = v :=
      be16_of_bytes m _ v (hv v (List.mem_cons_self _ _)) hbv.1
    have hn1 : (incr it)._n = vs.length := by
      rw [e3, dec32_of_pos _ (by omega) (by omega)]; omega
    have hb1 : bytes_at m (incr it)._p (values_bytes vs) := by
      rw [e1]
      have : it._p + H + (enc16 v).length = it._p + H + 2 := by simp [enc16]
      rw [← this]
      exact hbv.2
    obtain ⟨it1, f1, f2, f3⟩ := iterate_values m incr hinc last vs (incr it)
      (runs_count rs + fuel) hn1 (by omega) (fun w hw => hv w (List.mem_cons_of_mem _ hw)) hb1
      (by rw [e1]; omega)
    have hbr1 : bytes_at m it1._p (rb rs) := by
      rw [f1, e1]
      have : it._p + H + 2 + 2 * vs.length = it._p + (H + 2 * (vs.length + 1)) := by omega
      rw [this]
      exact hbr
    have ih1 := ih it1 fuel f2 (fun r hr => hwf r (List.mem_cons_of_mem _ hr)) hbr1
      (by rw [f1, e1]; omega)
    have hfuel : runs_count (r :: rs) + fuel = (vs.length + (runs_count rs + fuel)) + 1 := by
      simp only [runs_count, hvals, List.length_cons]; omega
    rw [hfuel, iterate_of_ne _ _ _ _ (by rw [e1]; omega)]
    simp only [Option.map_map]
    have hcomp : ((fun x : List glyph_attr × glat_iterator => x.1) ∘
        fun x : List glyph_attr × glat_iterator => ((incr it)._v :: x.1, x.2)) =
        (fun l => (incr it)._v :: l) ∘ (fun x => x.1) := by
      funext x; rfl
    rw [hcomp, ← Option.map_map, f3, Option.map_map]
    have hcomp2 : ((fun l => (incr it)._v :: l) ∘
        fun x : List glyph_attr × glat_iterator =>
          List.map wrap_id (run_pairs ((incr it)._v.id + 1) vs) ++ x.1) =
        (fun l => (incr it)._v :: (List.map wrap_id (run_pairs ((incr it)._v.id + 1) vs) ++ l))
          ∘ (fun x => x.1) := by
      funext x; rfl
    rw [hcomp2, ← Option.map_map, ih1]
    simp only [Option.map_some', Option.some.injEq, runs_pairs, hvals, run_pairs,
      List.map_append, List.map_cons, List.cons_append, List.cons.injEq]
    refine ⟨?_, ?_⟩
    · rw [e2, hval]
      simp only [wrap_id, glyph_attr.mk.injEq, and_true]
      exact (Nat.mod_eq_of_lt hid).symm
    · rw [e2]


theorem glat_increment_of_ne (m : Nat → Nat) (it : glat_iterator) (h : it._n ≠ 0) :
    (glat_iterator.increment m it)._p = it._p + 2 ∧
    (glat_iterator.increment m it)._v = { id := (it._v.id + 1) % 65536, value := be16 m it._p } ∧
    (glat_iterator.increment m it)._n = dec32 it._n := by
  simp [glat_iterator.increment, h]

theorem glat2_increment_of_ne (m : Nat → Nat) (it : glat_iterator) (h : it._n ≠ 0) :
    (glat2_iterator.increment m it)._p = it._p + 2 ∧
    (glat2_iterator.increment m it)._v =
      { id := (it._v.id + 1) % 65536, value := be16 m it._p } ∧
    (glat2_iterator.increment m it)._n = dec32 it._n := by
  simp [glat2_iterator.increment, h]

theorem runs_pairs_wrap_v1 :
    ∀ rs : List Run, runs_v1_ok rs → (runs_pairs rs).map wrap_id = runs_pairs rs := by
  intro rs
  induction rs with
  | nil => intro _; rfl
  | cons r rs ih =>
    intro h
    obtain ⟨h1, _, h3, _⟩ := h r (List.mem_cons_self _ _)
    simp only [runs_pairs, List.map_append]
    rw [ih (fun r hr => h r (List.mem_cons_of_mem _ hr)),
      run_pairs_wrap_of_lt _ _ (by omega)]

/-- Iteration of `glat_iterator` over a range of well-formed runs with 1-byte headers. -/
theorem iterate_runs_v1 (m : Nat → Nat) (rs : List Run) (hok : runs_v1_ok rs) (s : Nat)
    (hbytes : bytes_at m s (runs_v1_bytes rs)) (fuel : Nat) (hfuel : runs_count rs ≤ fuel) :
    (iterate (glat_iterator.increment m) fuel (glat_iterator.make m s)
        (glat_iterator.make m (s + (runs_v1_bytes rs).length))).map (fun x => x.1)
      = some (runs_pairs rs) := by
  have h := iterate_runs m (glat_iterator.increment m) (fun r => [r.id, r.values.length]) 2
    runs_v1_bytes
    (fun r => r.id < 256 ∧ 1 ≤ r.values.length ∧ r.values.length < 256 ∧
      ∀ v ∈ r.values, v < 65536)
    rfl (fun r rs => by simp [runs_v1_bytes, run_v1_bytes]) (fun _ => rfl)
    (fun r h => ⟨by omega, h.2.1, by omega, h.2.2.2⟩)
    (glat_increment_of_ne m)
    (fun it h => by simp [glat_iterator.increment, h])
    (fun it r hn hr hb => by
      simp only [bytes_at] at hb
      simp only [glat_iterator.increment, hn, if_true, hb.1, hb.2.1]
      rw [Nat.mod_eq_of_lt hr.1, Nat.mod_eq_of_lt hr.2.2.1]
      exact ⟨rfl, rfl⟩)
    (glat_iterator.make m (s + (runs_v1_bytes rs).length)) rs
    { _p := s, _v := { id := 0, value := 0 }, _n := 0, reads := [] } (fuel - runs_count rs)
    rfl hok hbytes (by simp [glat_iterator.make, glat_iterator.increment])
  have hf : runs_count rs + (fuel - runs_count rs) = fuel := by omega
  rw [hf, runs_pairs_wrap_v1 rs hok] at h
  exact h

/-- Iteration of `glat2_iterator` over a range of well-formed runs with 2-byte headers. -/
theorem iterate_runs_v2 (m : Nat → Nat) (rs : List Run) (hok : runs_v2_ok rs) (s : Nat)
    (hbytes : bytes_at m s (runs_v2_bytes rs)) (fuel : Nat) (hfuel : runs_count rs ≤ fuel) :
    (iterate (glat2_iterator.increment m) fuel (glat2_iterator.make m s)
        (glat2_iterator.make m (s + (runs_v2_bytes rs).length))).map (fun x => x.1)
      = some ((runs_pairs rs).map wrap_id) := by
  have h := iterate_runs m (glat2_iterator.increment m)
    (fun r => enc16 r.id ++ enc16 r.values.length) 4 runs_v2_bytes
    (fun r => r.id < 65536 ∧ 1 ≤ r.values.length ∧ r.values.length < 65536 ∧
      ∀ v ∈ r.values, v < 65536)
    rfl (fun r rs => by simp [runs_v2_bytes, run_v2_bytes]) (fun _ => rfl)
    (fun r h => h)
    (glat2_increment_of_ne m)
    (fun it h => by simp [glat2_iterator.increment, h])
    (fun it r hn hr hb => by
      rw [bytes_at_append] at hb
      have h1 := be16_of_bytes m _ _ hr.1 hb.1
      have h2 := be16_of_bytes m _ _ hr.2.2.1 hb.2
      simp only [enc16, List.length_cons, List.length_nil] at h2
      simp [glat2_iterator.increment, hn, h1, h2])
    (glat2_iterator.make m (s + (runs_v2_bytes rs).length)) rs
    { _p := s, _v := { id := 0, value := 0 }, _n := 0, reads := [] } (fuel - runs_count rs)
    rfl hok hbytes (by simp [glat2_iterator.make, glat2_iterator.increment])
  have hf : runs_count rs + (fuel - runs_count rs) = fuel := by omega
  rw [hf] at h
  exact h


theorem GlyphFace_attrs_v1 (fuel : Nat) (hdr : GlyphFaceCacheHeader) (glyphid : Nat)
    (hg : glyphid < hdr.m_nGlyphsWithAttributes)
    (hs : (gloc_entries hdr glyphid).1 < hdr.m_lGlat)
    (he : (gloc_entries hdr glyphid).2.1 ≤ hdr.m_lGlat) (hv : hdr.m_fGlat < 0x00020000) :
    (GlyphFace_attrs fuel hdr glyphid).map (fun a => a.attrs) =
      (iterate (glat_iterator.increment hdr.m_pGlat) fuel
        (glat_iterator.make hdr.m_pGlat (gloc_entries hdr glyphid).1)
        (glat_iterator.make hdr.m_pGlat (gloc_entries hdr glyphid).2.1)).map
        (fun x => some x.1) := by
  simp only [GlyphFace_attrs, hg, hs, he, hv, if_true, and_self, Option.map_map]
  rfl

theorem GlyphFace_attrs_v2 (fuel : Nat) (hdr : GlyphFaceCacheHeader) (glyphid : Nat)
    (hg : glyphid < hdr.m_nGlyphsWithAttributes)
    (hs : (gloc_entries hdr glyphid).1 < hdr.m_lGlat)
    (he : (gloc_entries hdr glyphid).2.1 ≤ hdr.m_lGlat) (hv : ¬ hdr.m_fGlat < 0x00020000) :
    (GlyphFace_attrs fuel hdr glyphid).map (fun a => a.attrs) =
      (iterate (glat2_iterator.increment hdr.m_pGlat) fuel
        (glat2_iterator.make hdr.m_pGlat (gloc_entries hdr glyphid).1)
        (glat2_iterator.make hdr.m_pGlat (gloc_entries hdr glyphid).2.1)).map
        (fun x => some x.1) := by
  simp only [GlyphFace_attrs, hg, hs, he, hv, if_true, if_false, and_self, Option.map_map]
  rfl

/-- C7: for every byte range of a Glat table that is a concatenation of runs
`[id: 1 byte][count: 1 byte, count >= 1][count values, 16-bit big-endian]`, whatever bytes
follow it, iterating `glat_iterator` from the start of the range until it is equal to the
iterator built at the end of the range yields exactly the pairs `(id + k, value_k)` of the
runs, in order; and when `m_fGlat < 0x00020000` this is the sequence the `GlyphFace`
constructor builds the attributes of a glyph from, if the glyph's Gloc entries bound that
range. -/
theorem glat_iterator_yields_runs (m : Nat → Nat) (s : Nat) (rs : List Run) (fuel : Nat)
    (hok : runs_v1_ok rs) (hbytes : bytes_at m s (runs_v1_bytes rs))
    (hfuel : runs_count rs ≤ fuel) :
    (iterate (glat_iterator.increment m) fuel (glat_iterator.make m s)
        (glat_iterator.make m (s + (runs_v1_bytes rs).length))).map (fun x => x.1)
      = some (runs_pairs rs) ∧
    ∀ (hdr : GlyphFaceCacheHeader) (glyphid : Nat), hdr.m_pGlat = m →
      hdr.m_fGlat < 0x00020000 → glyphid < hdr.m_nGlyphsWithAttributes →
      (gloc_entries hdr glyphid).1 = s →
      (gloc_entries hdr glyphid).2.1 = s + (runs_v1_bytes rs).length →
      s < hdr.m_lGlat → s + (runs_v1_bytes rs).length ≤ hdr.m_lGlat →
      (GlyphFace_attrs fuel hdr glyphid).map (fun a => a.attrs) = some (some (runs_pairs rs)) := by
  have h := iterate_runs_v1 m rs hok s hbytes fuel hfuel
  refine ⟨h, ?_⟩
  intro hdr glyphid hm hv hg hs he h1 h2
  rw [GlyphFace_attrs_v1 fuel hdr glyphid hg (by rw [hs]; exact h1) (by rw [he]; exact h2) hv,
    hs, he, hm]
  cases hi : iterate (glat_iterator.increment m) fuel (glat_iterator.make m s)
      (glat_iterator.make m (s + (runs_v1_bytes rs).length)) with
  | none => rw [hi] at h; simp at h
  | some x =>
    rw [hi] at h
    simp only [Option.map_some', Option.some.injEq] at h ⊢
    rw [h]

/-- Witness of C7's theorem: the ten bytes at the offsets 4 to 13 of `glat_v1_two_runs`, the
runs (5; 7, 9) and (8; 256), decode to the pairs (5, 7), (6, 9), (8, 256). -/
theorem glat_iterator_yields_runs_witness :
    (runs_v1_ok [⟨5, [7, 9]⟩, ⟨8, [256]⟩] ∧
      bytes_at (table_of glat_v1_two_runs) 4 (runs_v1_bytes [⟨5, [7, 9]⟩, ⟨8, [256]⟩]) ∧
      runs_count [⟨5, [7, 9]⟩, ⟨8, [256]⟩] ≤ 3) ∧
    (iterate (glat_iterator.increment (table_of glat_v1_two_runs)) 3
        (glat_iterator.make (table_of glat_v1_two_runs) 4)
        (glat_iterator.make (table_of glat_v1_two_runs)
          (4 + (runs_v1_bytes [⟨5, [7, 9]⟩, ⟨8, [256]⟩]).length))).map (fun x => x.1)
      = some [⟨5, 7⟩, ⟨6, 9⟩, ⟨8, 256⟩] :=
  ⟨⟨by decide, by decide, by decide⟩,
    (glat_iterator_yields_runs (table_of glat_v1_two_runs) 4
      [⟨5, [7, 9]⟩, ⟨8, [256]⟩] 3 (by decide)
      (by decide)
      (by decide)).1⟩

/-- C8 (amended): for every byte range of a Glat table that is a concatenation of runs
`[id: 16-bit][count: 16-bit, count >= 1][count values, 16-bit]`, all big-endian, whatever bytes
follow it, iterating `glat2_iterator` from the start of the range until it is equal to the
iterator built at the end of the range yields exactly the pairs `((id + k) mod 2^16, value_k)`
of the runs, in order; and when `m_fGlat >= 0x00020000` this is the sequence the `GlyphFace`
constructor builds the attributes of a glyph from, if the glyph's Gloc entries bound that
range. -/
theorem glat2_iterator_yields_runs (m : Nat → Nat) (s : Nat) (rs : List Run) (fuel : Nat)
    (hok : runs_v2_ok rs) (hbytes : bytes_at m s (runs_v2_bytes rs))
    (hfuel : runs_count rs ≤ fuel) :
    (iterate (glat2_iterator.increment m) fuel (glat2_iterator.make m s)
        (glat2_iterator.make m (s + (runs_v2_bytes rs).length))).map (fun x => x.1)
      = some ((runs_pairs rs).map wrap_id) ∧
    ∀ (hdr : GlyphFaceCacheHeader) (glyphid : Nat), hdr.m_pGlat = m →
      0x00020000 ≤ hdr.m_fGlat → glyphid < hdr.m_nGlyphsWithAttributes →
      (gloc_entries hdr glyphid).1 = s →
      (gloc_entries hdr glyphid).2.1 = s + (runs_v2_bytes rs).length →
      s < hdr.m_lGlat → s + (runs_v2_bytes rs).length ≤ hdr.m_lGlat →
      (GlyphFace_attrs fuel hdr glyphid).map (fun a => a.attrs)
        = some (some ((runs_pairs rs).map wrap_id)) := by
  have h := iterate_runs_v2 m rs hok s hbytes fuel hfuel
  refine ⟨h, ?_⟩
  intro hdr glyphid hm hv hg hs he h1 h2
  rw [GlyphFace_attrs_v2 fuel hdr glyphid hg (by rw [hs]; exact h1) (by rw [he]; exact h2)
    (by omega), hs, he, hm]
  cases hi : iterate (glat2_iterator.increment m) fuel (glat2_iterator.make m s)
      (glat2_iterator.make m (s + (runs_v2_bytes rs).length)) with
  | none => rw [hi] at h; simp at h
  | some x =>
    rw [hi] at h
    simp only [Option.map_some', Option.some.injEq] at h ⊢
    rw [h]

/-- Witness of C8's theorem: the eight bytes at the offsets 4 to 11 of `glat_v2_one_run`, the
run (65535; 7, 9), decode to the pairs (65535, 7), (0, 9). -/
theorem glat2_iterator_yields_runs_witness :
    (runs_v2_ok [⟨65535, [7, 9]⟩] ∧
      bytes_at (table_of glat_v2_one_run) 4 (runs_v2_bytes [⟨65535, [7, 9]⟩]) ∧
      runs_count [⟨65535, [7, 9]⟩] ≤ 2) ∧
    (iterate (glat2_iterator.increment (table_of glat_v2_one_run)) 2
        (glat2_iterator.make (table_of glat_v2_one_run) 4)
        (glat2_iterator.make (table_of glat_v2_one_run)
          (4 + (runs_v2_bytes [⟨65535, [7, 9]⟩]).length))).map (fun x => x.1)
      = some [⟨65535, 7⟩, ⟨0, 9⟩] :=
  ⟨⟨by decide, by decide, by decide⟩,
    (glat2_iterator_yields_runs (table_of glat_v2_one_run) 4
      [⟨65535, [7, 9]⟩] 2 (by decide)
      (by decide)
      (by decide)).1⟩

/-- C8 fails as stated: the run with id 65535 and the two values 7, 9 is well formed, its
eight bytes are the range `[4, 12)` of glyph 0 in the version 2 table `glat_v2_one_run`, and
the constructor gets the pairs (65535, 7), (0, 9), not (65535, 7), (65536, 9). -/
theorem glat2_iterator_wraps_id :
    runs_v2_ok [⟨65535, [7, 9]⟩] ∧
    bytes_at (table_of glat_v2_one_run) 4 (runs_v2_bytes [⟨65535, [7, 9]⟩]) ∧
    (GlyphFace_attrs 2 (header_of (gloc16_table [4, 12]) glat_v2_one_run 0x00020000 1)
        0).map (fun a => a.attrs) = some (some [⟨65535, 7⟩, ⟨0, 9⟩]) ∧
    runs_pairs [⟨65535, [7, 9]⟩] = [⟨65535, 7⟩, ⟨65536, 9⟩] ∧
    (GlyphFace_attrs 2 (header_of (gloc16_table [4, 12]) glat_v2_one_run 0x00020000 1)
        0).map (fun a => a.attrs) ≠ some (some (runs_pairs [⟨65535, [7, 9]⟩])) := by
  refine ⟨by decide, by decide, by decide, by decide, by decide⟩

theorem glat_make_reads (m : Nat → Nat) (p : Nat) :
    (glat_iterator.make m p).reads = [p, p + 1, p + 2, p + 3] := by
  simp [glat_iterator.make, glat_iterator.increment]

theorem glat2_make_reads (m : Nat → Nat) (p : Nat) :
    (glat2_iterator.make m p).reads = [p, p + 1, p + 2, p + 3, p + 4, p + 5] := by
  simp [glat2_iterator.make, glat2_iterator.increment]

/-- C9 (as the code behaves): for a glyph whose Gloc offsets pass the check of the constructor
(`glocs < lGlat` and `gloce <= lGlat`), building the attributes reads the four Glat bytes at the
offsets `gloce .. gloce + 3` (the end iterator is constructed by an increment at `gloce`); when
the range of the glyph ends where the table ends, `gloce = lGlat`, these offsets are not below
`lGlat`. -/
theorem GlyphFace_attrs_reads_past_gloce (fuel : Nat) (hdr : GlyphFaceCacheHeader)
    (glyphid : Nat) (a : AttrLoad) (hg : glyphid < hdr.m_nGlyphsWithAttributes)
    (hs : (gloc_entries hdr glyphid).1 < hdr.m_lGlat)
    (he : (gloc_entries hdr glyphid).2.1 ≤ hdr.m_lGlat)
    (hrun : GlyphFace_attrs fuel hdr glyphid = some a) :
    (∀ i, i < 4 → (gloc_entries hdr glyphid).2.1 + i ∈ a.glat_reads) ∧
    ((gloc_entries hdr glyphid).2.1 = hdr.m_lGlat →
      ∃ o ∈ a.glat_reads, ¬ o < hdr.m_lGlat) := by
  have key : ∀ i, i < 4 → (gloc_entries hdr glyphid).2.1 + i ∈ a.glat_reads := by
    intro i hi
    simp only [GlyphFace_attrs, hg, hs, he, if_true, and_self] at hrun
    by_cases hv : hdr.m_fGlat < 0x00020000
    · simp only [hv, if_true] at hrun
      obtain ⟨x, _, hx⟩ := Option.map_eq_some'.1 hrun
      rw [← hx]
      simp only [glat_make_reads, List.mem_append, List.mem_cons, List.mem_singleton,
        List.not_mem_nil, or_false]
      right
      omega
    · simp only [hv, if_false] at hrun
      obtain ⟨x, _, hx⟩ := Option.map_eq_some'.1 hrun
      rw [← hx]
      simp only [glat2_make_reads, List.mem_append, List.mem_cons, List.mem_singleton,
        List.not_mem_nil, or_false]
      right
      omega
  refine ⟨key, fun h => ⟨_, key 0 (by omega), ?_⟩⟩
  omega

theorem GlyphFace_attrs_last_glyph :
    GlyphFace_attrs 1 (header_of (gloc16_table [4, 8]) glat_v1_one_run 0x00010000 1) 0
      = some { attrs := some [⟨5, 7⟩], gloc_reads := [8, 9, 10, 11],
               glat_reads := [4, 5, 6, 7, 8, 9, 10, 11, 8, 9, 10, 11] } := by
  rfl

/-- Witness of C9's theorem: in the version 1 Glat table `glat_v1_one_run` of eight bytes the
run (5; 7) is the range `[4, 8)` of glyph 0; the attributes are built from the pair (5, 7),
and the offsets 8, 9, 10, 11 are read in a table of length 8. -/
theorem GlyphFace_attrs_reads_past_gloce_witness :
    (0 < (header_of (gloc16_table [4, 8]) glat_v1_one_run 0x00010000
          1).m_nGlyphsWithAttributes ∧
      (gloc_entries (header_of (gloc16_table [4, 8]) glat_v1_one_run 0x00010000 1) 0).1 = 4 ∧
      (gloc_entries (header_of (gloc16_table [4, 8]) glat_v1_one_run 0x00010000 1) 0).2.1
        = 8 ∧
      (header_of (gloc16_table [4, 8]) glat_v1_one_run 0x00010000 1).m_lGlat = 8 ∧
      bytes_at (table_of glat_v1_one_run) 4 (runs_v1_bytes [⟨5, [7]⟩]) ∧
      GlyphFace_attrs 1 (header_of (gloc16_table [4, 8]) glat_v1_one_run 0x00010000 1) 0
        = some { attrs := some [⟨5, 7⟩], gloc_reads := [8, 9, 10, 11],
                 glat_reads := [4, 5, 6, 7, 8, 9, 10, 11, 8, 9, 10, 11] }) ∧
    ∃ o ∈ [4, 5, 6, 7, 8, 9, 10, 11, 8, 9, 10, 11], ¬ o < 8 :=
  ⟨⟨by decide, by decide, by decide, by decide,
      by decide,
      GlyphFace_attrs_last_glyph⟩,
    (GlyphFace_attrs_reads_past_gloce 1
      (header_of (gloc16_table [4, 8]) glat_v1_one_run 0x00010000 1) 0
      { attrs := some [⟨5, 7⟩], gloc_reads := [8, 9, 10, 11],
        glat_reads := [4, 5, 6, 7, 8, 9, 10, 11, 8, 9, 10, 11] }
      (by decide) (by decide) (by decide) GlyphFace_attrs_last_glyph).2 (by decide)⟩

/-- C10 (as the code behaves): `GlyphFaceCacheHeader::initialize` succeeds on a Gloc table of
six bytes, reads the attribute count at the offsets 6 and 7, and sets
`m_nGlyphsWithAttributes` to 65535; and on the well-formed Gloc table of twelve bytes with the
two 16-bit entries of one glyph it sets `m_nGlyphsWithAttributes` to 2, so that the `GlyphFace`
constructor reads for glyph 1 the entries 5 and 6, the bytes at the offsets 10 to 13 of a table
of length 12. -/
theorem Gloc_reads_past_table :
    ( GlyphFaceCacheHeader_initialize (face_of [0, 1, 0, 0, 0, 0]) (fun _ => 0)
        (header_of [] [] 0 0)).map (fun x => (x.1.m_nGlyphsWithAttributes, x.2))
      = some (65535, [0, 1, 2, 3, 6, 7, 4, 5]) ∧
    (gloc16_table [4, 8]).length = 12 ∧
    ( GlyphFaceCacheHeader_initialize (face_of (gloc16_table [4, 8])) (fun _ => 0)
        (header_of [] [] 0 0)).map
        (fun x => (x.1.m_nGlyphsWithAttributes, x.1.m_locFlagsUse32Bit,
          (GlyphFace_attrs 1 x.1 1).map (fun a => a.gloc_reads)))
      = some (2, false, some [10, 11, 12, 13]) := by
  refine ⟨by decide, by decide, by decide⟩

theorem glat_increment_p_lt (m : Nat → Nat) (it : glat_iterator) :
    it._p < (glat_iterator.increment m it)._p := by
  unfold glat_iterator.increment
  split <;> simp

theorem glat2_increment_p_lt (m : Nat → Nat) (it : glat_iterator) :
    it._p < (glat2_iterator.increment m it)._p := by
  unfold glat2_iterator.increment
  split <;> simp

/-- An iterator that is past the end iterator never becomes equal to it. -/
theorem iterate_none_of_gt (incr : glat_iterator → glat_iterator)
    (hinc : ∀ it : glat_iterator, it._p < (incr it)._p) (last : glat_iterator) :
    ∀ (fuel : Nat) (first : glat_iterator), last._p < first._p →
      iterate incr fuel first last = none := by
  intro fuel
  induction fuel with
  | zero =>
    intro first h
    have hne : first.eq last = false := by
      simp only [glat_iterator.eq, beq_eq_false_iff_ne, ne_eq]; omega
    simp [iterate, hne]
  | succ fuel ih =>
    intro first h
    have hne : first.eq last = false := by
      simp only [glat_iterator.eq, beq_eq_false_iff_ne, ne_eq]; omega
    have := hinc first
    rw [iterate, hne, ih (incr first) (by omega)]
    simp

theorem glat_make_p (m : Nat → Nat) (p : Nat) : (glat_iterator.make m p)._p = p + 4 := by
  simp [glat_iterator.make, glat_iterator.increment]

theorem glat2_make_p (m : Nat → Nat) (p : Nat) : (glat2_iterator.make m p)._p = p + 6 := by
  simp [glat2_iterator.make, glat2_iterator.increment]

/-- C20 (as the code behaves): for a glyph whose Gloc offsets pass the check of the constructor
and have `gloce < glocs`, the iteration over the attribute runs never reaches the end
iterator: the begin iterator starts past it and every increment moves it further, so no number
of increments gives a result, whatever the Glat table holds and whichever the format. -/
theorem GlyphFace_attrs_never_ends (fuel : Nat) (hdr : GlyphFaceCacheHeader) (glyphid : Nat)
    (hg : glyphid < hdr.m_nGlyphsWithAttributes)
    (hs : (gloc_entries hdr glyphid).1 < hdr.m_lGlat)
    (he : (gloc_entries hdr glyphid).2.1 ≤ hdr.m_lGlat)
    (hlt : (gloc_entries hdr glyphid).2.1 < (gloc_entries hdr glyphid).1) :
    GlyphFace_attrs fuel hdr glyphid = none := by
  by_cases hv : hdr.m_fGlat < 0x00020000
  · have h := GlyphFace_attrs_v1 fuel hdr glyphid hg hs he hv
    rw [iterate_none_of_gt _ (glat_increment_p_lt hdr.m_pGlat) _ fuel _
      (by rw [glat_make_p, glat_make_p]; omega)] at h
    cases hr : GlyphFace_attrs fuel hdr glyphid with
    | none => rfl
    | some a => rw [hr] at h; simp at h
  · have h := GlyphFace_attrs_v2 fuel hdr glyphid hg hs he hv
    rw [iterate_none_of_gt _ (glat2_increment_p_lt hdr.m_pGlat) _ fuel _
      (by rw [glat2_make_p, glat2_make_p]; omega)] at h
    cases hr : GlyphFace_attrs fuel hdr glyphid with
    | none => rfl
    | some a => rw [hr] at h; simp at h

/-- Witness of C20's theorem: in the 12-byte Glat table `glat_v1_two_glyphs` a glyph with the
Gloc entries `glocs = 8`, `gloce = 4` passes the check (8 < 12, 4 <= 12), and a million
increments do not end the iteration. -/
theorem GlyphFace_attrs_never_ends_witness :
    (0 < (header_of (gloc16_table [8, 4]) glat_v1_two_glyphs 0x00010000
          1).m_nGlyphsWithAttributes ∧
      (gloc_entries (header_of (gloc16_table [8, 4]) glat_v1_two_glyphs 0x00010000 1) 0).1
        = 8 ∧
      (gloc_entries (header_of (gloc16_table [8, 4]) glat_v1_two_glyphs 0x00010000 1) 0).2.1
        = 4 ∧
      (header_of (gloc16_table [8, 4]) glat_v1_two_glyphs 0x00010000 1).m_lGlat = 12) ∧
    GlyphFace_attrs 1000000 (header_of (gloc16_table [8, 4]) glat_v1_two_glyphs 0x00010000 1) 0
      = none :=
  ⟨by decide,
    GlyphFace_attrs_never_ends 1000000
      (header_of (gloc16_table [8, 4]) glat_v1_two_glyphs 0x00010000 1) 0
      (by decide) (by decide) (by decide) (by decide)⟩

/-- C12: `GlyphFaceCacheHeader::initialize` returns false exactly when the face does not
provide one of the tables loca, head, glyf, hmtx, hhea, Glat, maxp, Gloc, or the Gloc table has
fewer than 6 bytes, or the big-endian 32-bit version at its start is not 0x00010000; in every
other case it returns true. -/
theorem GlyphFaceCacheHeader_initialize_false_iff (getTable : Tag → Option Table)
    (GlyphCount : (Nat → Nat) → Nat) (hdr : GlyphFaceCacheHeader) :
    ( GlyphFaceCacheHeader_initialize getTable GlyphCount hdr = none ↔
      ((∃ tag, getTable tag = none) ∨
        ∃ pGloc, getTable Tag.Gloc = some pGloc ∧
          (pGloc.len < 6 ∨ be32 pGloc.bytes 0 ≠ 0x00010000))) ∧
    (( GlyphFaceCacheHeader_initialize getTable GlyphCount hdr).isSome = true ↔
      ¬ ((∃ tag, getTable tag = none) ∨
        ∃ pGloc, getTable Tag.Gloc = some pGloc ∧
          (pGloc.len < 6 ∨ be32 pGloc.bytes 0 ≠ 0x00010000))) := by
  have key : GlyphFaceCacheHeader_initialize getTable GlyphCount hdr = none ↔
      ((∃ tag, getTable tag = none) ∨
        ∃ pGloc, getTable Tag.Gloc = some pGloc ∧
          (pGloc.len < 6 ∨ be32 pGloc.bytes 0 ≠ 0x00010000)) := by
    unfold GlyphFaceCacheHeader_initialize
    split
    · rename_i t1 t2 t3 t4 t5 pGlat pMaxp pGloc h1 h2 h3 h4 h5 h6 h7 h8
      have hall : ¬ ∃ tag, getTable tag = none := by
        rintro ⟨tag, ht⟩
        cases tag <;> simp_all
      by_cases hl : pGloc.len < 6
      · simp [hl, h8]
      · by_cases hv : be32 pGloc.bytes 0 = 0x00010000
        · simp [hl, hv, hall, h8]
        · simp [hl, hv, h8]
    · rename_i hno
      simp only [true_iff]
      left
      by_contra hcon
      push_neg at hcon
      have g1 := hcon Tag.loca
      have g2 := hcon Tag.head
      have g3 := hcon Tag.glyf
      have g4 := hcon Tag.hmtx
      have g5 := hcon Tag.hhea
      have g6 := hcon Tag.Glat
      have g7 := hcon Tag.maxp
      have g8 := hcon Tag.Gloc
      obtain ⟨t1, e1⟩ := Option.ne_none_iff_exists'.1 g1
      obtain ⟨t2, e2⟩ := Option.ne_none_iff_exists'.1 g2
      obtain ⟨t3, e3⟩ := Option.ne_none_iff_exists'.1 g3
      obtain ⟨t4, e4⟩ := Option.ne_none_iff_exists'.1 g4
      obtain ⟨t5, e5⟩ := Option.ne_none_iff_exists'.1 g5
      obtain ⟨t6, e6⟩ := Option.ne_none_iff_exists'.1 g6
      obtain ⟨t7, e7⟩ := Option.ne_none_iff_exists'.1 g7
      obtain ⟨t8, e8⟩ := Option.ne_none_iff_exists'.1 g8
      exact hno t1 t2 t3 t4 t5 t6 t7 t8 e1 e2 e3 e4 e5 e6 e7 e8
  refine ⟨key, ?_⟩
  rw [← key]
  cases GlyphFaceCacheHeader_initialize getTable GlyphCount hdr <;> simp

theorem float_of_nat_exact (n : Nat) (h : n < 2 ^ 24) : float_of_nat n = n := by
  have hl : Nat.log2 n + 1 - 24 = 0 := by
    by_cases h0 : n = 0
    · subst h0; simp [Nat.log2]
    · have := (Nat.log2_lt h0).2 h
      omega
  simp [float_of_nat, hl, Nat.mod_one]

theorem float_of_int_exact (z : Int) (h1 : -(2 ^ 24) < z) (h2 : z < 2 ^ 24) :
    float_of_int z = z := by
  unfold float_of_int
  rw [float_of_nat_exact z.natAbs (by omega)]
  split <;> omega

theorem GlyphFace_attrs_skip (fuel : Nat) (hdr : GlyphFaceCacheHeader) (g : Nat)
    (hg : g < hdr.m_nGlyphsWithAttributes)
    (hbad : hdr.m_lGlat ≤ (gloc_entries hdr g).1 ∨ hdr.m_lGlat < (gloc_entries hdr g).2.1) :
    GlyphFace_attrs fuel hdr g =
      some { attrs := none, gloc_reads := (gloc_entries hdr g).2.2, glat_reads := [] } := by
  have hc : ¬ ((gloc_entries hdr g).1 < hdr.m_lGlat ∧ (gloc_entries hdr g).2.1 ≤ hdr.m_lGlat) := by
    omega
  simp [GlyphFace_attrs, hg, hc]

theorem preloaded_false_iff {γ : Type} (fuel : Nat) (getTable : Tag → Option Table)
    (GlyphCount : (Nat → Nat) → Nat) (ttf : TtfUtil γ) (hdr0 : GlyphFaceCacheHeader)
    (malloc_ok : Bool) :
    GlyphFaceCachePreloaded_initialize fuel getTable GlyphCount ttf hdr0 malloc_ok = some none ↔
      ( GlyphFaceCacheHeader_initialize getTable GlyphCount hdr0 = none ∨ malloc_ok = false) := by
  unfold GlyphFaceCachePreloaded_initialize
  cases h : GlyphFaceCacheHeader_initialize getTable GlyphCount hdr0 with
  | none => simp
  | some x =>
    cases malloc_ok with
    | false => simp
    | true =>
      simp only [if_true, Bool.true_eq_false, or_false, reduceCtorEq, iff_false]
      intro hcon
      obtain ⟨gs, _, hgs⟩ := Option.map_eq_some'.1 hcon
      simp at hgs

/-- C11 (amended): if for a glyph id `g < m_nGlyphsWithAttributes` the offsets read from Gloc
violate the bound against the Glat table (`glocs >= lGlat` or `gloce > lGlat`), the `GlyphFace`
constructor builds no attributes for the glyph and reads no Glat byte for it; face
construction is not aborted for it: `GlyphFaceCachePreloaded::initialize` returns false only
when `GlyphFaceCache::initialize` returns false or the array of glyphs cannot be allocated. -/
theorem GlyphFaceCachePreloaded_initialize_tolerates (fuel : Nat)
    (hdr : GlyphFaceCacheHeader) (g : Nat) (hg : g < hdr.m_nGlyphsWithAttributes)
    (hbad : hdr.m_lGlat ≤ (gloc_entries hdr g).1 ∨ hdr.m_lGlat < (gloc_entries hdr g).2.1) :
    GlyphFace_attrs fuel hdr g =
      some { attrs := none, gloc_reads := (gloc_entries hdr g).2.2, glat_reads := [] } ∧
    ∀ (getTable : Tag → Option Table) (GlyphCount : (Nat → Nat) → Nat) (ttf : TtfUtil Unit)
      (hdr0 : GlyphFaceCacheHeader) (malloc_ok : Bool),
      ( GlyphFaceCachePreloaded_initialize fuel getTable GlyphCount ttf hdr0 malloc_ok
          = some none ↔
        ( GlyphFaceCacheHeader_initialize getTable GlyphCount hdr0 = none ∨
          malloc_ok = false)) :=
  ⟨GlyphFace_attrs_skip fuel hdr g hg hbad,
    fun getTable GlyphCount ttf hdr0 malloc_ok =>
      preloaded_false_iff fuel getTable GlyphCount ttf hdr0 malloc_ok⟩

/-- Witness of C11's theorem: the header over the 8-byte Glat table `glat_v1_one_run` and a
Gloc table with the entries 4 and 100 for its one glyph: `gloce = 100 > 8`, and the glyph is
left without attributes. -/
theorem GlyphFaceCachePreloaded_initialize_tolerates_witness :
    (0 < (header_of (gloc16_table [4, 100]) glat_v1_one_run 0x00010000
          1).m_nGlyphsWithAttributes ∧
      ((header_of (gloc16_table [4, 100]) glat_v1_one_run 0x00010000 1).m_lGlat ≤
          (gloc_entries (header_of (gloc16_table [4, 100]) glat_v1_one_run 0x00010000 1) 0).1 ∨
        (header_of (gloc16_table [4, 100]) glat_v1_one_run 0x00010000 1).m_lGlat <
          (gloc_entries (header_of (gloc16_table [4, 100]) glat_v1_one_run 0x00010000 1)
            0).2.1)) ∧
    GlyphFace_attrs 0 (header_of (gloc16_table [4, 100]) glat_v1_one_run 0x00010000 1) 0 =
      some { attrs := none, gloc_reads := [8, 9, 10, 11], glat_reads := [] } :=
  ⟨by decide,
    (GlyphFaceCachePreloaded_initialize_tolerates 0
      (header_of (gloc16_table [4, 100]) glat_v1_one_run 0x00010000 1) 0 (by decide)
      (by decide)).1⟩

/-- C11 fails as stated: for the face with the 8-byte Glat table `glat_v1_one_run` and the
Gloc table with the 32-bit entries 4 and 100 of one glyph, glyph 0 has
`gloce = 100 > lGlat = 8`, and `GlyphFaceCachePreloaded::initialize` returns true, with one
glyph that has no attributes. -/
theorem GlyphFaceCachePreloaded_initialize_ignores_bound :
    ( GlyphFaceCachePreloaded_initialize 0 (face_with (gloc32_table [4, 100]) glat_v1_one_run)
        (fun _ => 1) ttf_none (header_of [] glat_v1_one_run 0x00010000 0) true).map
      (fun r => r.map fun x =>
        (x.1.m_nGlyphsWithAttributes, (gloc_entries x.1 0).1, (gloc_entries x.1 0).2.1,
          x.1.m_lGlat, x.2.map fun G => G.load.attrs))
      = some (some (1, 4, 100, 8, [none])) := by
  rfl

/-- C21 (as the code behaves): for a Gloc table of its 8-byte header and exactly `n + 1`
location entries, `0 <= n <= 65535`, `GlyphFaceCacheHeader::initialize` succeeds and sets
`m_nGlyphsWithAttributes` to `n` when the entries are 32-bit, but to `n + 1` modulo 2^16
when they are 16-bit; in both cases `m_nGlyphs` is the maximum of
`m_nGlyphsWithAttributes` and `m_nGlyphsWithGraphics`. -/
theorem GlyphFaceCacheHeader_initialize_counts (getTable : Tag → Option Table)
    (GlyphCount : (Nat → Nat) → Nat) (hdr : GlyphFaceCacheHeader) (pGloc : Table) (n : Nat)
    (hn : n ≤ 65535) (hall : ∀ tag, getTable tag ≠ none)
    (hG : getTable Tag.Gloc = some pGloc) (hver : be32 pGloc.bytes 0 = 0x00010000) :
    (be16 pGloc.bytes 4 % 2 = 1 → pGloc.len = 8 + 4 * (n + 1) →
      ∃ x, GlyphFaceCacheHeader_initialize getTable GlyphCount hdr = some x ∧
        x.1.m_locFlagsUse32Bit = true ∧ x.1.m_nGlyphsWithAttributes = n ∧
        x.1.m_nGlyphs = max x.1.m_nGlyphsWithAttributes x.1.m_nGlyphsWithGraphics) ∧
    (be16 pGloc.bytes 4 % 2 = 0 → pGloc.len = 8 + 2 * (n + 1) →
      ∃ x, GlyphFaceCacheHeader_initialize getTable GlyphCount hdr = some x ∧
        x.1.m_locFlagsUse32Bit = false ∧ x.1.m_nGlyphsWithAttributes = (n + 1) % 65536 ∧
        x.1.m_nGlyphsWithAttributes ≠ n ∧
        x.1.m_nGlyphs = max x.1.m_nGlyphsWithAttributes x.1.m_nGlyphsWithGraphics) := by
  obtain ⟨t1, e1⟩ := Option.ne_none_iff_exists'.1 (hall Tag.loca)
  obtain ⟨t2, e2⟩ := Option.ne_none_iff_exists'.1 (hall Tag.head)
  obtain ⟨t3, e3⟩ := Option.ne_none_iff_exists'.1 (hall Tag.glyf)
  obtain ⟨t4, e4⟩ := Option.ne_none_iff_exists'.1 (hall Tag.hmtx)
  obtain ⟨t5, e5⟩ := Option.ne_none_iff_exists'.1 (hall Tag.hhea)
  obtain ⟨t6, e6⟩ := Option.ne_none_iff_exists'.1 (hall Tag.Glat)
  obtain ⟨t7, e7⟩ := Option.ne_none_iff_exists'.1 (hall Tag.maxp)
  constructor
  · intro hf hl
    have h6 : ¬ pGloc.len < 6 := by omega
    have hs : size_sub pGloc.len 10 / 4 % 65536 = n := by
      unfold size_sub
      omega
    simp only [ GlyphFaceCacheHeader_initialize, e1, e2, e3, e4, e5, e6, e7, hG, h6, hver,
      if_false, ne_eq, not_true_eq_false, hf, decide_True, if_true, hs]
    refine ⟨_, rfl, rfl, rfl, ?_⟩
    simp only []
    rw [max_def]
    split <;> split <;> omega
  · intro hf hl
    have h6 : ¬ pGloc.len < 6 := by omega
    have hs : size_sub pGloc.len 8 / 2 % 65536 = (n + 1) % 65536 := by
      unfold size_sub
      omega
    have hf1 : ¬ be16 pGloc.bytes 4 % 2 = 1 := by omega
    simp only [ GlyphFaceCacheHeader_initialize, e1, e2, e3, e4, e5, e6, e7, hG, h6, hver,
      if_false, ne_eq, not_true_eq_false, hf1, decide_False, Bool.false_eq_true, hs]
    refine ⟨_, rfl, rfl, rfl, ?_, ?_⟩
    · simp only []
      omega
    · simp only []
      rw [max_def]
      split <;> split <;> omega

/-- Witness of C21's theorem: the Gloc table of twelve bytes with the two 16-bit entries of
one glyph, for which `n = 1` and `m_nGlyphsWithAttributes` becomes 2. -/
theorem GlyphFaceCacheHeader_initialize_counts_witness :
    ∃ x, GlyphFaceCacheHeader_initialize (face_of (gloc16_table [4, 8])) (fun _ => 0)
        (header_of [] [] 0 0) = some x ∧
      x.1.m_locFlagsUse32Bit = false ∧ x.1.m_nGlyphsWithAttributes = (1 + 1) % 65536 ∧
      x.1.m_nGlyphsWithAttributes ≠ 1 ∧
      x.1.m_nGlyphs = max x.1.m_nGlyphsWithAttributes x.1.m_nGlyphsWithGraphics :=
  (GlyphFaceCacheHeader_initialize_counts (face_of (gloc16_table [4, 8])) (fun _ => 0)
    (header_of [] [] 0 0) { bytes := table_of (gloc16_table [4, 8]), len := 12 } 1
    (by decide) (by intro tag; cases tag <;> simp [face_of]) rfl (by decide)).2
    (by decide) rfl

theorem uint16_of_float_sub (a b : Int) (ha1 : -(2 ^ 23) < a) (ha2 : a < 2 ^ 23)
    (hb1 : -(2 ^ 23) < b) (hb2 : b < 2 ^ 23) :
    ((uint16_of_float (float_sub a b) : Nat) : Int) =
      (((uint16_of_float a : Nat) : Int) - ((uint16_of_float b : Nat) : Int)) % 65536 := by
  have he : float_sub a b = a - b := by
    unfold float_sub
    exact float_of_int_exact _ (by omega) (by omega)
  rw [he]
  unfold uint16_of_float
  have h1 : -2 ^ 31 ≤ a - b ∧ a - b < 2 ^ 31 := by constructor <;> omega
  have h2 : -2 ^ 31 ≤ a ∧ a < 2 ^ 31 := by constructor <;> omega
  have h3 : -2 ^ 31 ≤ b ∧ b < 2 ^ 31 := by constructor <;> omega
  rw [if_pos h1, if_pos h2, if_pos h3]
  omega

theorem uint16_of_float_lt (f : Int) : uint16_of_float f < 65536 := by
  unfold uint16_of_float
  split
  · have := Int.emod_lt_of_pos f (show (0 : Int) < 65536 by norm_num)
    have := Int.emod_nonneg f (show (65536 : Int) ≠ 0 by norm_num)
    omega
  · norm_num

theorem ite_lt_of (c : Prop) [Decidable c] (a b n : Nat) (ha : a < n) (hb : b < n) :
    (if c then a else b) < n := by
  split <;> assumption

theorem getMetric_lt (G : GlyphFace) (k : metrics) (metric : Nat) :
    G.getMetric k metric < 65536 :=
  ite_lt_of _ _ _ _ (uint16_of_float_lt _) <| ite_lt_of _ _ _ _ (uint16_of_float_lt _) <|
  ite_lt_of _ _ _ _ (uint16_of_float_lt _) <| ite_lt_of _ _ _ _ (uint16_of_float_lt _) <|
  ite_lt_of _ _ _ _ (uint16_of_float_lt _) <| ite_lt_of _ _ _ _ (uint16_of_float_lt _) <|
  ite_lt_of _ _ _ _ (uint16_of_float_lt _) <| ite_lt_of _ _ _ _ (uint16_of_float_lt _) <|
  ite_lt_of _ _ _ _ (uint16_of_float_lt _) <| ite_lt_of _ _ _ _ (uint16_of_float_lt _) <|
  Nat.succ_pos _

/-- C23: for a glyph whose advance and bounding-box coordinates are integers between -2^23
and 2^23, which the 16-bit values of a font are, and with the results taken modulo 2^16:
`getMetric(kgmetBbWidth) = getMetric(kgmetBbRight) - getMetric(kgmetBbLeft)`,
`getMetric(kgmetBbHeight) = getMetric(kgmetBbTop) - getMetric(kgmetBbBottom)`,
`getMetric(kgmetRsb) = getMetric(kgmetAdvWidth) - getMetric(kgmetBbRight)` and
`getMetric(kgmetLsb) = getMetric(kgmetBbLeft)`; every result is below 2^16; and `getMetric`
returns 0 for every metric code that is none of the ten case labels. -/
theorem getMetric_identities (G : GlyphFace) (k : metrics) (hk : k.labels.Nodup)
    (hax : -(2 ^ 23) < G.m_advance.x ∧ G.m_advance.x < 2 ^ 23)
    (hblx : -(2 ^ 23) < G.m_bbox.bl.x ∧ G.m_bbox.bl.x < 2 ^ 23)
    (hbly : -(2 ^ 23) < G.m_bbox.bl.y ∧ G.m_bbox.bl.y < 2 ^ 23)
    (htrx : -(2 ^ 23) < G.m_bbox.tr.x ∧ G.m_bbox.tr.x < 2 ^ 23)
    (htry : -(2 ^ 23) < G.m_bbox.tr.y ∧ G.m_bbox.tr.y < 2 ^ 23) :
    ((G.getMetric k k.kgmetBbWidth : Nat) : Int) =
      (((G.getMetric k k.kgmetBbRight : Nat) : Int) - (G.getMetric k k.kgmetBbLeft : Nat))
        % 65536 ∧
    ((G.getMetric k k.kgmetBbHeight : Nat) : Int) =
      (((G.getMetric k k.kgmetBbTop : Nat) : Int) - (G.getMetric k k.kgmetBbBottom : Nat))
        % 65536 ∧
    ((G.getMetric k k.kgmetRsb : Nat) : Int) =
      (((G.getMetric k k.kgmetAdvWidth : Nat) : Int) - (G.getMetric k k.kgmetBbRight : Nat))
        % 65536 ∧
    G.getMetric k k.kgmetLsb = G.getMetric k k.kgmetBbLeft ∧
    (∀ metric, G.getMetric k metric < 65536) ∧
    ∀ metric, metric ∉ k.labels → G.getMetric k metric = 0 := by
  simp only [metrics.labels, List.nodup_cons, List.mem_cons, List.mem_singleton, not_or,
    List.not_mem_nil, not_false_eq_true, List.nodup_nil, and_true] at hk
  obtain ⟨⟨n01, n02, n03, n04, n05, n06, n07, n08, n09⟩,
    ⟨n12, n13, n14, n15, n16, n17, n18, n19⟩,
    ⟨n23, n24, n25, n26, n27, n28, n29⟩,
    ⟨n34, n35, n36, n37, n38, n39⟩,
    ⟨n45, n46, n47, n48, n49⟩,
    ⟨n56, n57, n58, n59⟩,
    ⟨n67, n68, n69⟩,
    ⟨n78, n79⟩,
    n89⟩ := hk
  refine ⟨?_, ?_, ?_, ?_, ?_, ?_⟩
  · have := uint16_of_float_sub G.m_bbox.tr.x G.m_bbox.bl.x htrx.1 htrx.2 hblx.1 hblx.2
    simpa only [GlyphFace.getMetric, if_true, if_false,
      n01, n02, n03, n04, n05, n06, n07, n08, n09, n12, n13, n14, n15, n16, n17, n18, n19, n23,
      n24, n25, n26, n27, n28, n29, n34, n35, n36, n37, n38, n39, n45, n46, n47, n48, n49, n56,
      n57, n58, n59, n67, n68, n69, n78, n79, n89, Ne.symm n01, Ne.symm n02, Ne.symm n03,
      Ne.symm n04, Ne.symm n05, Ne.symm n06, Ne.symm n07, Ne.symm n08, Ne.symm n09, Ne.symm n12,
      Ne.symm n13, Ne.symm n14, Ne.symm n15, Ne.symm n16, Ne.symm n17, Ne.symm n18, Ne.symm n19,
      Ne.symm n23, Ne.symm n24, Ne.symm n25, Ne.symm n26, Ne.symm n27, Ne.symm n28, Ne.symm n29,
      Ne.symm n34, Ne.symm n35, Ne.symm n36, Ne.symm n37, Ne.symm n38, Ne.symm n39, Ne.symm n45,
      Ne.symm n46, Ne.symm n47, Ne.symm n48, Ne.symm n49, Ne.symm n56, Ne.symm n57, Ne.symm n58,
      Ne.symm n59, Ne.symm n67, Ne.symm n68, Ne.symm n69, Ne.symm n78, Ne.symm n79, Ne.symm n89] using this
  · have := uint16_of_float_sub G.m_bbox.tr.y G.m_bbox.bl.y htry.1 htry.2 hbly.1 hbly.2
    simpa only [GlyphFace.getMetric, if_true, if_false,
      n01, n02, n03, n04, n05, n06, n07, n08, n09, n12, n13, n14, n15, n16, n17, n18, n19, n23,
      n24, n25, n26, n27, n28, n29, n34, n35, n36, n37, n38, n39, n45, n46, n47, n48, n49, n56,
      n57, n58, n59, n67, n68, n69, n78, n79, n89, Ne.symm n01, Ne.symm n02, Ne.symm n03,
      Ne.symm n04, Ne.symm n05, Ne.symm n06, Ne.symm n07, Ne.symm n08, Ne.symm n09, Ne.symm n12,
      Ne.symm n13, Ne.symm n14, Ne.symm n15, Ne.symm n16, Ne.symm n17, Ne.symm n18, Ne.symm n19,
      Ne.symm n23, Ne.symm n24, Ne.symm n25, Ne.symm n26, Ne.symm n27, Ne.symm n28, Ne.symm n29,
      Ne.symm n34, Ne.symm n35, Ne.symm n36, Ne.symm n37, Ne.symm n38, Ne.symm n39, Ne.symm n45,
      Ne.symm n46, Ne.symm n47, Ne.symm n48, Ne.symm n49, Ne.symm n56, Ne.symm n57, Ne.symm n58,
      Ne.symm n59, Ne.symm n67, Ne.symm n68, Ne.symm n69, Ne.symm n78, Ne.symm n79, Ne.symm n89] using this
  · have := uint16_of_float_sub G.m_advance.x G.m_bbox.tr.x hax.1 hax.2 htrx.1 htrx.2
    simpa only [GlyphFace.getMetric, if_true, if_false,
      n01, n02, n03, n04, n05, n06, n07, n08, n09, n12, n13, n14, n15, n16, n17, n18, n19, n23,
      n24, n25, n26, n27, n28, n29, n34, n35, n36, n37, n38, n39, n45, n46, n47, n48, n49, n56,
      n57, n58, n59, n67, n68, n69, n78, n79, n89, Ne.symm n01, Ne.symm n02, Ne.symm n03,
      Ne.symm n04, Ne.symm n05, Ne.symm n06, Ne.symm n07, Ne.symm n08, Ne.symm n09, Ne.symm n12,
      Ne.symm n13, Ne.symm n14, Ne.symm n15, Ne.symm n16, Ne.symm n17, Ne.symm n18, Ne.symm n19,
      Ne.symm n23, Ne.symm n24, Ne.symm n25, Ne.symm n26, Ne.symm n27, Ne.symm n28, Ne.symm n29,
      Ne.symm n34, Ne.symm n35, Ne.symm n36, Ne.symm n37, Ne.symm n38, Ne.symm n39, Ne.symm n45,
      Ne.symm n46, Ne.symm n47, Ne.symm n48, Ne.symm n49, Ne.symm n56, Ne.symm n57, Ne.symm n58,
      Ne.symm n59, Ne.symm n67, Ne.symm n68, Ne.symm n69, Ne.symm n78, Ne.symm n79, Ne.symm n89] using this
  · simp only [GlyphFace.getMetric, if_true, if_false,
      n01, n02, n03, n04, n05, n06, n07, n08, n09, n12, n13, n14, n15, n16, n17, n18, n19, n23,
      n24, n25, n26, n27, n28, n29, n34, n35, n36, n37, n38, n39, n45, n46, n47, n48, n49, n56,
      n57, n58, n59, n67, n68, n69, n78, n79, n89, Ne.symm n01, Ne.symm n02, Ne.symm n03,
      Ne.symm n04, Ne.symm n05, Ne.symm n06, Ne.symm n07, Ne.symm n08, Ne.symm n09, Ne.symm n12,
      Ne.symm n13, Ne.symm n14, Ne.symm n15, Ne.symm n16, Ne.symm n17, Ne.symm n18, Ne.symm n19,
      Ne.symm n23, Ne.symm n24, Ne.symm n25, Ne.symm n26, Ne.symm n27, Ne.symm n28, Ne.symm n29,
      Ne.symm n34, Ne.symm n35, Ne.symm n36, Ne.symm n37, Ne.symm n38, Ne.symm n39, Ne.symm n45,
      Ne.symm n46, Ne.symm n47, Ne.symm n48, Ne.symm n49, Ne.symm n56, Ne.symm n57, Ne.symm n58,
      Ne.symm n59, Ne.symm n67, Ne.symm n68, Ne.symm n69, Ne.symm n78, Ne.symm n79, Ne.symm n89]
  · exact getMetric_lt G k
  · intro metric hm
    simp only [metrics.labels, List.mem_cons, List.mem_singleton, not_or,
      List.not_mem_nil, not_false_eq_true, and_true] at hm
    obtain ⟨m1, m2, m3, m4, m5, m6, m7, m8, m9, m10⟩ := hm
    simp [GlyphFace.getMetric, m1, m2, m3, m4, m5, m6, m7, m8, m9, m10]

/-- Witness of C23's theorem: the glyph with the advance 600 and the bounding box from
(-20, -10) to (500, 700), whose left side is negative: the right side reads 500 and the
left side 65516, so the width is 520 modulo 2^16. -/
theorem getMetric_identities_witness :
    (((glyph_of 600 (-20) (-10) 500 700).getMetric metrics_numbered 7 : Nat) : Int) =
      ((((glyph_of 600 (-20) (-10) 500 700).getMetric metrics_numbered 5 : Nat) : Int) -
        ((glyph_of 600 (-20) (-10) 500 700).getMetric metrics_numbered 4 : Nat)) % 65536 ∧
    (glyph_of 600 (-20) (-10) 500 700).getMetric metrics_numbered 5 = 500 ∧
    (glyph_of 600 (-20) (-10) 500 700).getMetric metrics_numbered 4 = 65516 :=
  ⟨(getMetric_identities (glyph_of 600 (-20) (-10) 500 700) metrics_numbered (by decide)
    (by simp [glyph_of]) (by simp [glyph_of]) (by simp [glyph_of]) (by simp [glyph_of])
    (by simp [glyph_of])).1, by decide, by decide⟩

theorem GlyphFace_attrs_of_ge (fuel : Nat) (hdr : GlyphFaceCacheHeader) (g : Nat)
    (hg : hdr.m_nGlyphsWithAttributes ≤ g) :
    GlyphFace_attrs fuel hdr g = some { attrs := none, gloc_reads := [], glat_reads := [] } := by
  have h : ¬ g < hdr.m_nGlyphsWithAttributes := by omega
  simp [GlyphFace_attrs, h]

/-- C13: whenever the attribute part of the constructor ends, with the result `a`, the
constructor builds a `GlyphFace` `G` for glyph `g`, and `G` holds: for
`g < m_nGlyphsWithGraphics`, the advance `(nAdvWid, 0)` when `HorMetrics` succeeds and
`(0, 0)` when it fails, and the bounding box with the corners `(xMin, yMin)`,
`(xMax, yMax)` when the glyph is found and `GlyfBox` succeeds and the zero rectangle
otherwise; for `g >= m_nGlyphsWithGraphics` both are zero. The values are stored as floats,
which hold every integer of magnitude below `2 ^ 24` exactly. For a glyph without
attributes, `g >= m_nGlyphsWithAttributes`, and for a glyph whose attribute range the
constructor skips, the constructor builds the `GlyphFace` whatever the fuel. -/
theorem GlyphFace_advance_bbox {γ : Type} (fuel : Nat) (ttf : TtfUtil γ)
    (hdr : GlyphFaceCacheHeader) (g : Nat) (a : AttrLoad)
    (ha : GlyphFace_attrs fuel hdr g = some a) :
    (∃ G, GlyphFace_make fuel ttf hdr g = some G ∧ G.load = a ∧
      (g < hdr.m_nGlyphsWithGraphics →
        (∀ nLsb nAdvWid, ttf.HorMetrics g = some (nLsb, nAdvWid) →
          G.m_advance = { x := float_of_int nAdvWid, y := 0 } ∧
          (nAdvWid < 2 ^ 24 → G.m_advance = { x := nAdvWid, y := 0 })) ∧
        (ttf.HorMetrics g = none → G.m_advance = { x := 0, y := 0 }) ∧
        (∀ p xMin yMin xMax yMax, ttf.GlyfLookup (ttf.LocaLookup g) = some p →
          ttf.GlyfBox p = some (xMin, yMin, xMax, yMax) →
          G.m_bbox =
            { bl := { x := float_of_int xMin, y := float_of_int yMin },
              tr := { x := float_of_int xMax, y := float_of_int yMax } } ∧
          (-(2 ^ 24) < xMin ∧ xMin < 2 ^ 24 ∧ -(2 ^ 24) < yMin ∧ yMin < 2 ^ 24 ∧
            -(2 ^ 24) < xMax ∧ xMax < 2 ^ 24 ∧ -(2 ^ 24) < yMax ∧ yMax < 2 ^ 24 →
            G.m_bbox = { bl := { x := xMin, y := yMin }, tr := { x := xMax, y := yMax } })) ∧
        ((ttf.GlyfLookup (ttf.LocaLookup g) = none ∨
            ∃ p, ttf.GlyfLookup (ttf.LocaLookup g) = some p ∧ ttf.GlyfBox p = none) →
          G.m_bbox = { bl := { x := 0, y := 0 }, tr := { x := 0, y := 0 } })) ∧
      (¬ g < hdr.m_nGlyphsWithGraphics →
        G.m_advance = { x := 0, y := 0 } ∧
        G.m_bbox = { bl := { x := 0, y := 0 }, tr := { x := 0, y := 0 } })) ∧
    (∀ fuel1 g1,
      (hdr.m_nGlyphsWithAttributes ≤ g1 ∨ hdr.m_lGlat ≤ (gloc_entries hdr g1).1 ∨
        hdr.m_lGlat < (gloc_entries hdr g1).2.1) →
      ∃ G1, GlyphFace_make fuel1 ttf hdr g1 = some G1 ∧
        (G1.m_advance, G1.m_bbox) = GlyphFace_metrics ttf hdr g1 ∧ G1.load.attrs = none) := by
  refine ⟨⟨{ m_advance := (GlyphFace_metrics ttf hdr g).1, m_bbox := (GlyphFace_metrics ttf hdr g).2, load := a }, ?_, rfl, ?_, ?_⟩, ?_⟩
  · simp [GlyphFace_make, ha]
  · intro hg
    refine ⟨?_, ?_, ?_, ?_⟩
    · intro nLsb nAdvWid hm
      have h1 : (GlyphFace_metrics ttf hdr g).1 = { x := float_of_int nAdvWid, y := 0 } := by
        simp [GlyphFace_metrics, hg, hm]
      refine ⟨h1, fun hlt => ?_⟩
      show (GlyphFace_metrics ttf hdr g).1 = _
      rw [h1, float_of_int_exact _ (by omega) (by omega)]
    · intro hm
      simp [GlyphFace_metrics, hg, hm, Position.zero]
    · intro p xMin yMin xMax yMax hp hb
      have h1 : (GlyphFace_metrics ttf hdr g).2 =
          { bl := { x := float_of_int xMin, y := float_of_int yMin },
            tr := { x := float_of_int xMax, y := float_of_int yMax } } := by
        simp [GlyphFace_metrics, hg, hp, hb]
      refine ⟨h1, fun hr => ?_⟩
      show (GlyphFace_metrics ttf hdr g).2 = _
      rw [h1, float_of_int_exact _ hr.1 hr.2.1, float_of_int_exact _ hr.2.2.1 hr.2.2.2.1,
        float_of_int_exact _ hr.2.2.2.2.1 hr.2.2.2.2.2.1,
        float_of_int_exact _ hr.2.2.2.2.2.2.1 hr.2.2.2.2.2.2.2]
    · rintro (hp | ⟨p, hp, hb⟩)
      · simp [GlyphFace_metrics, hg, hp, Rect.zero, Position.zero]
      · simp [GlyphFace_metrics, hg, hp, hb, Rect.zero, Position.zero]
  · intro hg
    simp [GlyphFace_metrics, hg, Rect.zero, Position.zero]
  · intro fuel1 g1 hg1
    by_cases hlt : g1 < hdr.m_nGlyphsWithAttributes
    · have hbad : hdr.m_lGlat ≤ (gloc_entries hdr g1).1 ∨
          hdr.m_lGlat < (gloc_entries hdr g1).2.1 := by omega
      refine ⟨{ m_advance := (GlyphFace_metrics ttf hdr g1).1, m_bbox := (GlyphFace_metrics ttf hdr g1).2, load := { attrs := none, gloc_reads := (gloc_entries hdr g1).2.2, glat_reads := [] } }, ?_, rfl, rfl⟩
      simp [GlyphFace_make, GlyphFace_attrs_skip fuel1 hdr g1 hlt hbad]
    · refine ⟨{ m_advance := (GlyphFace_metrics ttf hdr g1).1, m_bbox := (GlyphFace_metrics ttf hdr g1).2, load := { attrs := none, gloc_reads := [], glat_reads := [] } }, ?_, rfl, rfl⟩
      simp [GlyphFace_make, GlyphFace_attrs_of_ge fuel1 hdr g1 (by omega)]

/-- Witness of C13's theorem: glyph 0 of a font with one glyph, of advance width 600 and box
from (-20, -10) to (500, 700), whose attributes are the run (5; 7): the constructor builds
the `GlyphFace` with one increment of the iterator, and it holds the advance (600, 0) and
that box. -/
theorem GlyphFace_advance_bbox_witness :
    ∃ G, GlyphFace_make 1 ttf_one_glyph header_one_glyph 0 = some G ∧
      G.load.attrs = some [⟨5, 7⟩] ∧
      G.m_advance = { x := 600, y := 0 } ∧
      G.m_bbox = { bl := { x := -20, y := -10 }, tr := { x := 500, y := 700 } } :=
  (GlyphFace_advance_bbox 1 ttf_one_glyph header_one_glyph 0
    { attrs := some [⟨5, 7⟩], gloc_reads := [8, 9, 10, 11], glat_reads := [4, 5, 6, 7, 8, 9, 10, 11, 8, 9, 10, 11] }
    rfl).1.elim fun G h =>
      ⟨G, h.1, by rw [h.2.1],
        ((h.2.2.1 (by decide)).1 10 600 rfl).2 (by decide),
        ((h.2.2.1 (by decide)).2.2.1 () (-20) (-10) 500 700 rfl rfl).2 (by decide)⟩

end graphite2

namespace graphiteng

/-- C14 (amended): the named codes of `enum attrCode` below `kslatUserDefn` are the 27 codes
of the specification's attribute code set in the same order, and one more, `kslatUserDefnV1`
with the value 20, between `shift_y` (19) and `measure_sol` (21); every named code has the
value of its position in the declaration, so `j_width` is 27; and there are two bases of
user attributes, `kslatUserDefnV1 = 20` and `kslatUserDefn = kslatJStretch + 30 = 53`. -/
theorem attrCode_below_user :
    (codes_below_user.erase attrCode.kslatUserDefnV1).map spec_name = spec_attr_codes ∧
    codes_below_user.length = 28 ∧
    codes_below_user.map attrCode.toNat = List.range 28 ∧
    attrCode.kslatShiftY.toNat = 19 ∧ attrCode.kslatUserDefnV1.toNat = 20 ∧
    attrCode.kslatMeasureSol.toNat = 21 ∧ attrCode.kslatJWidth.toNat = 27 ∧
    attrCode.kslatUserDefn.toNat = 53 ∧ attrCode.kslatMax.toNat = 54 ∧
    attrCode.kslatNoEffect.toNat = 55 := by
  decide

/-- C14 fails as stated: below `kslatUserDefn` the enumeration has 28 named codes, not 27;
their names are not the specification's list, because `kslatUserDefnV1`, which is not in it,
is one of them. -/
theorem attrCode_has_extra_code :
    codes_below_user.length = 28 ∧ spec_attr_codes.length = 27 ∧
    codes_below_user.map spec_name ≠ spec_attr_codes ∧
    attrCode.kslatUserDefnV1 ∈ codes_below_user ∧
    spec_name attrCode.kslatUserDefnV1 ∉ spec_attr_codes := by
  decide

end graphiteng

namespace gr2fonttest

theorem to_int_of_range (x : Int) (h0 : -2 ^ 31 ≤ x) (h1 : x < 2 ^ 31) : to_int x = x := by
  unfold to_int
  omega

theorem next_in_link (p : Nat) (pre : List Nat) (h : Nat) (suf : List Nat)
    (hnd : h ∉ pre) :
    ((( link_slots p (pre ++ h :: suf)).find? fun s => decide (s.handle = h)).map
      fun s => s.next).getD 0 = suf.headD 0 := by
  induction pre generalizing p with
  | nil => simp [link_slots]
  | cons a pre ih =>
    have ha : a ≠ h := fun e => hnd (by simp [e])
    have hp : h ∉ pre := fun e => hnd (by simp [e])
    simp [link_slots, ha, List.find?_cons]
    simpa using ih a hp

theorem getLastD_append_cons (pre : List Nat) (h : Nat) (suf : List Nat) (d : Nat) :
    (pre ++ h :: suf).getLastD d = suf.getLastD h := by
  induction pre generalizing d with
  | nil => simp only [List.nil_append, List.getLastD_cons]
  | cons a pre ih =>
    simp only [List.cons_append, List.getLastD_cons]
    exact ih a

theorem dump_loop_suffix (pre suf : List Nat) (hnz : ∀ h ∈ pre ++ suf, h ≠ 0)
    (hnd : (pre ++ suf).Nodup) (hlen : (pre ++ suf).length < 2 ^ 31) :
    dump_loop (gr_make_seg (pre ++ suf)) (((pre ++ suf).length : Nat) : Int) (suf.length + 1)
      (suf.headD 0) ((pre.length : Nat) : Int)
      = some (suf, true, (((pre ++ suf).length : Nat) : Int)) := by
  induction suf generalizing pre with
  | nil => simp [dump_loop]
  | cons h suf ih =>
    have h0 : h ≠ 0 := hnz h (by simp)
    have hpre : h ∉ pre := by
      intro hm
      have := List.nodup_append.1 hnd
      exact this.2.2 hm (by simp) 
    have hnext : gr_slot_next_in_segment (gr_make_seg (pre ++ h :: suf)) h = suf.headD 0 := by
      simpa [gr_slot_next_in_segment, gr_make_seg] using next_in_link 0 pre h suf hpre
    have hrec := ih (pre ++ [h]) (by simpa using hnz) (by simpa using hnd)
      (by simpa using hlen)
    simp only [List.append_assoc, List.singleton_append, List.length_append,
      List.length_singleton, List.length_cons, List.length_nil, Nat.zero_add] at hrec hlen
    have hi : to_int (((pre.length : Nat) : Int) + 1) = ((pre.length + 1 : Nat) : Int) := by
      rw [to_int_of_range] <;> omega
    have hok : (decide (((pre.length + 1 : Nat) : Int) <
          (((pre ++ h :: suf).length : Nat) : Int)) ||
        decide (h = gr_seg_last_slot (gr_make_seg (pre ++ h :: suf)))) = true := by
      cases suf with
      | nil => simp [gr_seg_last_slot, gr_make_seg, getLastD_append_cons]
      | cons b r =>
        simp only [List.length_append, List.length_cons, Bool.or_eq_true, decide_eq_true_eq]
        left
        omega
    rw [dump_loop]
    simp only [List.headD_cons, h0, if_false, hnext, hi, hok]
    simp only [List.length_append, List.length_cons]
    rw [hrec]
    simp

/-- C15: for the segment that a shaping call returns, with slots of distinct non-null
handles, fewer than 2^31 of them, the dump loop of `testFileFont` ends; following
`gr_slot_next_in_segment` from `gr_seg_first_slot` it visits exactly the slots of the
segment in order, `gr_seg_n_slots` of them; the last slot visited is `gr_seg_last_slot`; and
both assertions of the test hold: `(i + 1 < numSlots) || (slot == gr_seg_last_slot(pSeg))`
at every slot and `i == numSlots` after the loop. -/
theorem dump_segment_asserts (handles : List Nat) (hnz : ∀ h ∈ handles, h ≠ 0)
    (hnd : handles.Nodup) (hlen : handles.length < 2 ^ 31) :
    ∃ d, dump_segment (gr_make_seg handles) (handles.length + 1) = some d ∧
      d.visited = handles ∧
      d.visited.length = gr_seg_n_slots (gr_make_seg handles) ∧
      d.visited.getLastD 0 = gr_seg_last_slot (gr_make_seg handles) ∧
      d.last_ok = true ∧ d.count_ok = true := by
  have h := dump_loop_suffix [] handles (by simpa using hnz) (by simpa using hnd)
    (by simpa using hlen)
  simp only [List.nil_append, List.length_nil] at h
  have hn : to_int ((handles.length : Nat) : Int) = ((handles.length : Nat) : Int) := by
    rw [to_int_of_range] <;> omega
  refine ⟨{ visited := handles, last_ok := true, count_ok := true }, ?_, rfl, ?_, ?_, rfl, rfl⟩
  · have hf : gr_seg_first_slot (gr_make_seg handles) = handles.headD 0 := rfl
    have hc : gr_seg_n_slots (gr_make_seg handles) = handles.length := rfl
    rw [dump_segment, hf, hc, hn]
    simp only [Nat.cast_zero] at h
    rw [h]
    simp
  · simp [gr_seg_n_slots, gr_make_seg]
  · simp [gr_seg_last_slot, gr_make_seg]

/-- Witness of C15's theorem: a segment of three slots. -/
theorem dump_segment_asserts_witness :
    ∃ d, dump_segment (gr_make_seg [16, 48, 32]) 4 = some d ∧
      d.visited = [16, 48, 32] ∧
      d.visited.length = gr_seg_n_slots (gr_make_seg [16, 48, 32]) ∧
      d.visited.getLastD 0 = gr_seg_last_slot (gr_make_seg [16, 48, 32]) ∧
      d.last_ok = true ∧ d.count_ok = true :=
  dump_segment_asserts [16, 48, 32] (by decide) (by decide) (by decide)

theorem digits_stop (base : Nat) (l : List Nat) (c : Nat) (rest : List Nat) (acc : Nat)
    (hc : ¬ digit_value c < base) :
    digits base (l ++ c :: rest) acc = digits base l acc := by
  induction l generalizing acc with
  | nil => simp [digits, hc]
  | cons a l ih =>
    simp only [List.cons_append, digits]
    split
    · exact ih _
    · rfl

theorem strtol_nospace_stop (l : List Nat) (c : Nat) (rest : List Nat)
    (h1 : c ≠ 45) (h2 : c ≠ 43) (h3 : ¬ digit_value c < 10) :
    strtol_nospace (l ++ c :: rest) 10 = strtol_nospace l 10 := by
  cases l with
  | nil => simp [strtol_nospace, h1, h2, digits, h3, LONG_MAX, LONG_MIN]
  | cons a l =>
    by_cases ha : a = 45 ∨ a = 43
    · simp [strtol_nospace, ha, digits_stop 10 l c rest 0 h3]
    · have hd := digits_stop 10 (a :: l) c rest 0 h3
      simp only [List.cons_append] at hd
      simp [strtol_nospace, ha, hd]

theorem strtol_stop (l : List Nat) (c : Nat) (rest : List Nat)
    (h0 : isspace c = false) (h1 : c ≠ 45) (h2 : c ≠ 43) (h3 : ¬ digit_value c < 10) :
    strtol (l ++ c :: rest) 10 = strtol l 10 := by
  induction l with
  | nil =>
    have := strtol_nospace_stop [] c rest h1 h2 h3
    simp only [List.nil_append] at this
    simp only [List.nil_append, strtol, h0, this]
    simp [strtol_nospace, digits, LONG_MAX]
  | cons a l ih =>
    simp only [List.cons_append, strtol]
    split
    · exact ih
    · have := strtol_nospace_stop (a :: l) c rest h1 h2 h3
      simpa using this

theorem atoi_stop_eq (l rest : List Nat) : atoi (l ++ 61 :: rest) = atoi l := by
  unfold atoi
  rw [strtol_stop l 61 rest (by decide) (by decide) (by decide) (by decide)]

theorem atoi_stop_comma (l rest : List Nat) : atoi (l ++ 44 :: rest) = atoi l := by
  unfold atoi
  rw [strtol_stop l 44 rest (by decide) (by decide) (by decide) (by decide)]

theorem to_unsigned_char_value (c : Nat) (h : c < 128) : to_unsigned (char_value c) = c := by
  have h1 : c % 256 = c := Nat.mod_eq_of_lt (by omega)
  unfold to_unsigned char_value
  rw [h1]
  simp only [h, if_true]
  omega

theorem shift_or_char (t c : Nat) (h : c < 128) :
    ((t <<< 8) % 2 ^ 32) ||| to_unsigned (char_value c) = (t * 256 + c) % 2 ^ 32 := by
  rw [to_unsigned_char_value c h, Nat.shiftLeft_eq]
  have hd : t * 2 ^ 8 % 2 ^ 32 = 2 ^ 8 * (t % 2 ^ 24) := by omega
  rw [hd, ← Nat.mul_add_lt_is_or (by omega)]
  omega

theorem parse_loop_name {ρ Φ : Type} (find : Nat → Option ρ) (set : ρ → Int → Φ → Φ)
    (n tail : List Nat) (hn : ∀ c ∈ n, plain_char c) (fl : Φ) (nm : Option (List Nat))
    (v : Int) (fid : Nat) :
    parse_loop find set (n ++ tail) { featureList := fl, name := nm, valueText := none, nameLength := 0, value := v, ref := none, feat_id := fid }
      = parse_loop find set tail { featureList := fl, name := nm, valueText := none, nameLength := 0, value := v, ref := none, feat_id := n.foldl (fun t c => (t * 256 + c) % 2 ^ 32) fid } := by
  induction n generalizing fid with
  | nil => rfl
  | cons c n ih =>
    obtain ⟨_, h128, h44, h38, h61⟩ := hn c (by simp)
    have hrest : ∀ c ∈ n, plain_char c := fun d hd => hn d (by simp [hd])
    simp only [List.cons_append, parse_loop, parse_switch, h44, h38, h61, or_self, if_false,
      Option.isNone_none, Nat.lt_irrefl, true_and, shift_or_char fid c h128, Option.some_bind,
      parse_set, List.foldl_cons]
    simpa using ih hrest _

theorem parse_loop_value {ρ Φ : Type} (find : Nat → Option ρ) (set : ρ → Int → Φ → Φ)
    (w tail : List Nat) (hw : ∀ c ∈ w, plain_char c) (st : ParseState ρ Φ)
    (hv : st.valueText.isNone = false) (hr : st.ref = none) :
    parse_loop find set (w ++ tail) st = parse_loop find set tail st := by
  induction w with
  | nil => rfl
  | cons c w ih =>
    obtain ⟨_, _, h44, h38, h61⟩ := hw c (by simp)
    have hrest : ∀ c ∈ w, plain_char c := fun d hd => hw d (by simp [hd])
    simp only [List.cons_append, parse_loop, parse_switch, h44, h38, h61, or_self, if_false,
      hv, Bool.false_eq_true, false_and, Option.some_bind, parse_set, hr]
    exact ih hrest

theorem parse_loop_pair {ρ Φ : Type} (find : Nat → Option ρ) (set : ρ → Int → Φ → Φ)
    (n w tail : List Nat) (hn : ∀ c ∈ n, plain_char c) (hw : ∀ c ∈ w, plain_char c)
    (htail : tail = [] ∨ ∃ more, tail = 44 :: more) (fl : Φ) (v : Int) :
    ∃ st : ParseState ρ Φ,
      parse_loop find set (n ++ 61 :: (w ++ tail)) { featureList := fl, name := some (n ++ 61 :: (w ++ tail)), valueText := none, nameLength := 0, value := v, ref := none, feat_id := 0 }
        = parse_loop find set tail st ∧
      st.featureList = set_pairs find set fl [(n, w)] ∧
      st.valueText = some (w ++ tail) ∧ st.ref = none := by
  have hat : atoi (w ++ tail) = atoi w := by
    rcases htail with h | ⟨more, h⟩
    · simp [h]
    · rw [h, atoi_stop_comma]
  rw [parse_loop_name find set n _ hn]
  have hp : n.foldl (fun t c => (t * 256 + c) % 2 ^ 32) 0 = pack_tag n := rfl
  rw [hp]
  cases h1 : find (pack_tag n) with
  | some r =>
    refine ⟨{ featureList := set r (atoi w) fl, name := none, valueText := some (w ++ tail), nameLength := 0, value := atoi w, ref := none, feat_id := pack_tag n }, ?_, ?_, rfl, rfl⟩
    · simp only [parse_loop, parse_switch, h1, parse_set, hat]
      simp only [Nat.reduceEqDiff, or_self, if_false, if_true, Nat.zero_le, Option.some_bind]
      rw [parse_loop_value find set w tail hw _ (by rfl) (by rfl), hat]
    · simp [set_pairs, feature_of_name, h1]
  | none =>
    cases h2 : find (to_unsigned (atoi n)) with
    | some r =>
      refine ⟨{ featureList := set r (atoi w) fl, name := none, valueText := some (w ++ tail), nameLength := 0, value := atoi w, ref := none, feat_id := to_unsigned (atoi n) }, ?_, ?_, rfl, rfl⟩
      · simp only [parse_loop, parse_switch, h1, parse_set, hat, atoi_stop_eq, h2]
        simp only [Nat.reduceEqDiff, or_self, if_false, if_true, Nat.zero_le, Option.some_bind]
        rw [parse_loop_value find set w tail hw _ (by rfl) (by rfl), hat]
      · simp [set_pairs, feature_of_name, h1, h2]
    | none =>
      refine ⟨{ featureList := fl, name := none, valueText := some (w ++ tail), nameLength := 0, value := v, ref := none, feat_id := to_unsigned (atoi n) }, ?_, ?_, rfl, rfl⟩
      · simp only [parse_loop, parse_switch, h1, parse_set, hat, atoi_stop_eq, h2]
        simp only [Nat.reduceEqDiff, or_self, if_false, if_true, Nat.zero_le, Option.some_bind]
        rw [parse_loop_value find set w tail hw _ (by rfl) (by rfl)]
      · simp [set_pairs, feature_of_name, h1, h2]

theorem parse_loop_pairs {ρ Φ : Type} (find : Nat → Option ρ) (set : ρ → Int → Φ → Φ)
    (pairs : List (List Nat × List Nat))
    (hn : ∀ p ∈ pairs, ∀ c ∈ p.1, plain_char c) (hw : ∀ p ∈ pairs, ∀ c ∈ p.2, plain_char c)
    (fl : Φ) (v : Int) :
    ∃ st : ParseState ρ Φ,
      parse_loop find set (feat_string pairs) { featureList := fl, name := some (feat_string pairs), valueText := none, nameLength := 0, value := v, ref := none, feat_id := 0 }
        = some st ∧
      st.featureList = set_pairs find set fl pairs := by
  induction pairs generalizing fl v with
  | nil => exact ⟨_, rfl, rfl⟩
  | cons p ps ih =>
    have hn1 := hn p (by simp)
    have hw1 := hw p (by simp)
    cases ps with
    | nil =>
      obtain ⟨st, h1, h2, _, _⟩ :=
        parse_loop_pair find set p.1 p.2 [] hn1 hw1 (Or.inl rfl) fl v
      simp only [List.append_nil] at h1
      exact ⟨st, by simpa [feat_string, parse_loop] using h1, h2⟩
    | cons q qs =>
      obtain ⟨st, h1, h2, h3, h4⟩ :=
        parse_loop_pair find set p.1 p.2 (44 :: feat_string (q :: qs)) hn1 hw1
          (Or.inr ⟨_, rfl⟩) fl v
      obtain ⟨st2, h5, h6⟩ := ih (fun r hr => hn r (by simp [hr]))
        (fun r hr => hw r (by simp [hr])) st.featureList (atoi (p.2 ++ 44 :: feat_string (q :: qs)))
      refine ⟨st2, ?_, ?_⟩
      · have hfs : feat_string (p :: q :: qs)
            = p.1 ++ 61 :: (p.2 ++ 44 :: feat_string (q :: qs)) := by
          simp [feat_string]
        rw [hfs, h1]
        rw [parse_loop]
        simp only [parse_switch, true_or, if_true, h3, h4, parse_set, Option.some_bind]
        exact h5
      · rw [h6, h2]
        simp only [set_pairs]
        cases feature_of_name find p.1 <;> rfl

/-- C16: for a `-feat` string `name=value[,name=value]...` whose names and values are of
ASCII characters other than `,`, `&` and `=`, `Parameters::parseFeatures` returns; it deals
with the pairs in order: it looks the feature up by the tag packed big-endian from the
characters of the name (a 32-bit tag, so of a longer name the last four), when no feature
has that tag it looks it up by the decimal value of the name, as `atoi` reads it, and it
sets the feature found to the decimal value of the pair; a pair whose name matches no
feature changes nothing. The feature values so changed are those of the language that
`parse_lang` reads from the string. -/
theorem parseFeatures_sets_pairs {ρ Φ : Type} (featureval_for_lang : Nat → Φ)
    (find : Nat → Option ρ) (set : ρ → Int → Φ → Φ) (pairs : List (List Nat × List Nat))
    (after : Nat → Nat)
    (hn : ∀ p ∈ pairs, ∀ c ∈ p.1, plain_char c) (hw : ∀ p ∈ pairs, ∀ c ∈ p.2, plain_char c) :
    parseFeatures featureval_for_lang find set (some (feat_string pairs)) after =
      some (set_pairs find set
        (featureval_for_lang (parse_lang (some (feat_string pairs)) after)) pairs) := by
  obtain ⟨st, h1, h2⟩ := parse_loop_pairs find set pairs hn hw
    (featureval_for_lang (parse_lang (some (feat_string pairs)) after)) 0
  unfold parseFeatures
  simp only []
  split
  · rename_i h0
    have : pairs = [] := by
      cases pairs with
      | nil => rfl
      | cons p ps =>
        cases ps with
        | nil => simp [feat_string] at h0
        | cons q qs => simp [feat_string] at h0
    simp [this, set_pairs]
  · rw [h1]
    simp [h2]

/-- Witness of C16's theorem: the string `liga=1,5=2,zzzz=3,12345=4` with a face that has a
feature 0 of tag `liga`, a feature 1 of id 5 and a feature 2 of id 12345; the features
values are the list of the calls of `gr_fref_set_feature_value`. -/
theorem parseFeatures_sets_pairs_witness :
    parseFeatures (fun _ => ([] : List (Nat × Int)))
      (fun id => if id = 0x6c696761 then some 0 else if id = 5 then some 1
        else if id = 12345 then some 2 else none)
      (fun r v fl => fl ++ [(r, v)])
      (some (feat_string [([108, 105, 103, 97], [49]), ([53], [50]),
        ([122, 122, 122, 122], [51]), ([49, 50, 51, 52, 53], [52])])) (fun _ => 0)
      = some [(0, 1), (1, 2), (2, 4)] :=
  parseFeatures_sets_pairs (fun _ => ([] : List (Nat × Int)))
    (fun id => if id = 0x6c696761 then some 0 else if id = 5 then some 1
      else if id = 12345 then some 2 else none)
    (fun r v fl => fl ++ [(r, v)])
    [([108, 105, 103, 97], [49]), ([53], [50]), ([122, 122, 122, 122], [51]),
      ([49, 50, 51, 52, 53], [52])] (fun _ => 0) (by decide) (by decide)

theorem indexed_append (k : Nat) (xs ys : List Nat) :
    indexed k (xs ++ ys) = indexed k xs ++ indexed (k + xs.length) ys := by
  induction xs generalizing k with
  | nil => simp [indexed]
  | cons x xs ih =>
    have h := ih (k + 1)
    have e : k + 1 + xs.length = k + (xs.length + 1) := by omega
    rw [e] at h
    show (k, x) :: indexed (k + 1) (xs ++ ys) = _
    rw [h]
    rfl

theorem indexed_fst_lt (k : Nat) (vs : List Nat) (w : Nat × Nat) (h : w ∈ indexed k vs) :
    k ≤ w.1 ∧ w.1 < k + vs.length := by
  induction vs generalizing k with
  | nil => simp [indexed] at h
  | cons v vs ih =>
    simp only [indexed, List.mem_cons] at h
    rcases h with h | h
    · subst h
      simp
    · have := ih (k + 1) h
      simp only [List.length_cons]
      omega

theorem code_values_length_le (codes : List (List Nat)) :
    (code_values codes).length ≤ codes.length := by
  unfold code_values
  exact (List.length_filter_le _ _).trans (by simp)

theorem code_values_cons (c : List Nat) (codes : List (List Nat)) :
    code_values (c :: codes) =
      if 0 < to_unsigned (strtol c 16) then to_unsigned (strtol c 16) :: code_values codes
      else code_values codes := by
  simp only [code_values, List.map_cons, List.filter_cons, decide_eq_true_eq]

theorem load_loop_codes (env : Env) (argc : Nat) (codes : List (List Nat))
    (hcodes : ∀ c ∈ codes, c.head? ≠ some 45) (a : Nat) (p : Parameters) (m : Int)
    (e : Bool) (t : Option (List Nat)) (b : TextBuffer) (hm : 1 ≤ m)
    (hlen : m + codes.length < 2 ^ 31) (hk : p.charLength + codes.length < 2 ^ 64)
    (hu : p.useCodes = true) (hb : p.pText32 = some b) :
    load_loop env argc codes a { p := p, mainArgOffset := m, argError := e, pText := t, option := .NONE }
      = some { p := { p with pText32 := some { b with writes := b.writes ++ indexed p.charLength (code_values codes) }, charLength := p.charLength + (code_values codes).length }, mainArgOffset := m + codes.length, argError := e, pText := t, option := .NONE } := by
  induction codes generalizing a p m b with
  | nil =>
    cases p
    simp only [] at hb
    simp [load_loop, code_values, indexed, hb]
  | cons c codes ih =>
    have hc : c.head? ≠ some 45 := hcodes c (by simp)
    have hrest : ∀ d ∈ codes, d.head? ≠ some 45 := fun d hd => hcodes d (by simp [hd])
    simp only [List.length_cons, Nat.cast_add, Nat.cast_one] at hlen hk
    have hm0 : m ≠ 0 := by omega
    have hm1 : to_int (m + 1) = m + 1 := by
      rw [to_int_of_range] <;> omega
    have hk1 : (p.charLength + 1) % 2 ^ 64 = p.charLength + 1 := Nat.mod_eq_of_lt (by omega)
    rw [load_loop, load_arg]
    simp only [load_default, hc, if_false, hm0, hu, if_true, hm1, hb, hk1]
    rw [code_values_cons]
    by_cases hv : 0 < to_unsigned (strtol c 16)
    · simp only [hv, if_true, Option.some_bind]
      rw [ih hrest (a + 1) _ (m + 1) (b.write p.charLength (to_unsigned (strtol c 16)))
        (by omega) (by omega) (by simp only []; omega) (by simp [hu]) rfl]
      cases p
      simp only [TextBuffer.write, indexed, List.length_cons, List.append_assoc,
        List.singleton_append, Nat.cast_add, Nat.cast_one]
      simp only [Option.some.injEq, LoadState.mk.injEq, Parameters.mk.injEq, true_and, and_true]
      constructor
      · omega
      · omega
    · simp only [hv, if_false, Option.some_bind]
      rw [ih hrest (a + 1) p (m + 1) b (by omega) (by omega) (by omega) hu hb]
      simp only [List.length_cons, Nat.cast_add, Nat.cast_one, Option.some.injEq,
        LoadState.mk.injEq, true_and, and_true]
      exact ⟨by rw [hu], by omega⟩

theorem get_last_write (cells : Nat) (ws : List (Nat × Nat)) (i v : Nat) :
    TextBuffer.get { cells := cells, writes := ws ++ [(i, v)] } i = some v := by
  simp [TextBuffer.get]

/-- C17 (amended): with `-codes` given before the code arguments, next to the font file, and
at least one code argument after them, none of these starting with `-`, and the allocation
succeeding, `Parameters::loadFromArgs` returns true; to the block of `argc` cells it
allocated for `pText32` it has written, in command-line order from index 0 on, the value of
`strtol` in base 16 of every code argument converted to `unsigned int`, that is modulo 2^32,
where that is not 0, and then a 0; `charLength` is the number of values appended,
`pText32[charLength]` is 0, and every index written is below `argc`. -/
theorem loadFromArgs_codes (env : Env) (mask0 : Int) (prog font : List Nat)
    (codes : List (List Nat)) (pre : List (List Nat))
    (hpre : pre = [font, ascii "-codes"] ∨ pre = [ascii "-codes", font])
    (hfont : font.head? ≠ some 45) (hcodes : ∀ c ∈ codes, c.head? ≠ some 45)
    (hne : codes ≠ []) (hlen : codes.length + 3 < 2 ^ 31)
    (hmalloc : env.malloc (4 * (codes.length + 3)) = true) :
    loadFromArgs env (prog :: (pre ++ codes)) (Parameters.clear mask0) =
      some (true, codes_params mask0 font
        { cells := (prog :: (pre ++ codes)).length, writes := indexed 0 (code_values codes) ++ [((code_values codes).length, 0)] }
        (code_values codes).length) ∧
    TextBuffer.get
      { cells := (prog :: (pre ++ codes)).length, writes := indexed 0 (code_values codes) ++ [((code_values codes).length, 0)] }
      (code_values codes).length = some 0 ∧
    ∀ w ∈ indexed 0 (code_values codes) ++ [((code_values codes).length, 0)],
      w.1 < (prog :: (pre ++ codes)).length := by
  have hargc : (prog :: (pre ++ codes)).length = codes.length + 3 := by
    rcases hpre with h | h <;> simp [h]
  have hmod : 4 * (codes.length + 3) % 2 ^ 64 = 4 * (codes.length + 3) :=
    Nat.mod_eq_of_lt (by omega)
  have hcl : 0 < codes.length := List.length_pos.2 hne
  have hloop := load_loop_codes env (codes.length + 3) codes hcodes 3
    (codes_params mask0 font { cells := codes.length + 3, writes := [] } 0)
    1 false none { cells := codes.length + 3, writes := [] } (by omega) (by omega)
    (by simp only [codes_params]; omega) rfl rfl
  have hmo : ¬ ((1 : Int) + (codes.length : Int) < 1) := by omega
  have hmo2 : (1 : Int) < 1 + (codes.length : Int) := by omega
  have hstart : load_loop env (codes.length + 3) (pre ++ codes) 1
      { p := { (Parameters.clear mask0) with pText32 := none, features := none, log := none }, mainArgOffset := 0, argError := false, pText := none, option := .NONE }
      = load_loop env (codes.length + 3) codes 3
        { p := codes_params mask0 font { cells := codes.length + 3, writes := [] } 0, mainArgOffset := 1, argError := false, pText := none, option := .NONE } := by
    have h45 : (ascii "-codes").head? = some 45 := by decide
    have ht : to_int 1 = 1 := by decide
    rcases hpre with h | h
    · subst h
      simp +decide only [List.cons_append, List.nil_append, load_loop, load_arg, load_default,
        hfont, h45, hmalloc, hmod, Parameters.clear, codes_params, if_true, if_false,
        Option.some_bind, Int.zero_add, ht]
      rfl
    · subst h
      simp +decide only [List.cons_append, List.nil_append, load_loop, load_arg, load_default,
        hfont, h45, hmalloc, hmod, Parameters.clear, codes_params, if_true, if_false,
        Option.some_bind, Int.zero_add, ht]
      rfl
  refine ⟨?_, ?_, ?_⟩
  · unfold loadFromArgs
    rw [hargc]
    simp only [List.tail_cons]
    rw [hstart, hloop]
    simp only [Option.some_bind, hmo, hmo2, if_false, if_true, Bool.not_false]
    simp only [codes_params, TextBuffer.write, List.nil_append, Nat.zero_add]
  · exact get_last_write _ _ _ _
  · intro w hw
    rw [hargc]
    have hle := code_values_length_le codes
    simp only [List.mem_append, List.mem_singleton] at hw
    rcases hw with hw | hw
    · have := indexed_fst_lt 0 _ w hw
      omega
    · subst hw
      simp only []
      omega

/-- Witness of C17's theorem: the arguments of the usage text, `font.ttf -codes 1000 102f`. -/
theorem loadFromArgs_codes_witness :
    loadFromArgs env_plain
        [ascii "gr2fonttest", ascii "font.ttf", ascii "-codes", ascii "1000", ascii "102f"]
        (Parameters.clear 0) =
      some (true, codes_params 0 (ascii "font.ttf")
        { cells := 5, writes := [(0, 0x1000), (1, 0x102f), (2, 0)] } 2) :=
  (loadFromArgs_codes env_plain 0 (ascii "gr2fonttest") (ascii "font.ttf")
    [ascii "1000", ascii "102f"] [ascii "font.ttf", ascii "-codes"] (Or.inl rfl)
    (by decide) (by decide) (by decide) (by decide) rfl).1

/-- C17 fails as stated: for `font.ttf -codes 100000041 100000000` both code arguments
parse as non-zero hexadecimal numbers, 0x100000041 and 0x100000000, but `loadFromArgs`
appends 0x41 for the first and nothing for the second, so `charLength` is 1: the value is
converted to `unsigned int` before it is tested and stored. -/
theorem loadFromArgs_codes_truncates :
    (( loadFromArgs env_plain
        [ascii "gr2fonttest", ascii "font.ttf", ascii "-codes", ascii "100000041",
          ascii "100000000"]
        (Parameters.clear 0)).map fun r => (r.1, r.2.charLength, r.2.pText32)) =
      some (true, 1, some { cells := 5, writes := [(0, 0x41), (1, 0)] }) ∧
    strtol (ascii "100000041") 16 = 0x100000041 ∧
    strtol (ascii "100000000") 16 = 0x100000000 := by
  decide

/-- C18: when the arguments are the font file alone, of a name that does not start with
`-`, `Parameters::loadFromArgs` returns true and leaves `charLength = 0` and no text; and
for every object with `charLength = 0` whose face loads, `testFileFont` makes the face,
calls `printFeatures`, destroys the face, stops logging and returns 0: it makes no font and
no segment. -/
theorem testFileFont_prints_features (env : Env) (lib : Lib) (mask0 : Int)
    (prog font : List Nat) (fuel : Nat) (hfont : font.head? ≠ some 45) :
    ( loadFromArgs env [prog, font] (Parameters.clear mask0) =
        some (true, { (Parameters.clear mask0) with fileName := font })) ∧
    ({ (Parameters.clear mask0) with fileName := font } : Parameters).charLength = 0 ∧
    (lib.face font = true →
      testFileFont lib fuel { (Parameters.clear mask0) with fileName := font } =
        some (0, [.make_file_face font, .printFeatures, .face_destroy, .stop_logging])) ∧
    ∀ p : Parameters, p.charLength = 0 →
      (if p.enableCache then lib.face_with_seg_cache p.fileName else lib.face p.fileName)
        = true →
      ∃ calls, testFileFont lib fuel p = some (0, calls) ∧
        Call.printFeatures ∈ calls ∧
        (∀ x, Call.make_font x ∉ calls) ∧ (∀ t l r, Call.make_seg t l r ∉ calls) := by
  refine ⟨?_, rfl, ?_, ?_⟩
  · have ht : to_int 1 = 1 := by decide
    simp only [loadFromArgs, List.tail_cons, load_loop, load_arg, load_default, hfont,
      if_false, if_true, Parameters.clear, Option.some_bind, Int.zero_add, ht]
    simp
  · intro hface
    simp [testFileFont, Parameters.clear, hface]
  · intro p h0 hface
    refine ⟨(match p.trace with
      | some t => [Call.start_logging t p.mask]
      | none => []) ++
      [if p.enableCache then Call.make_file_face_with_seg_cache p.fileName
        else Call.make_file_face p.fileName] ++
      [Call.printFeatures, Call.face_destroy, Call.stop_logging], ?_, ?_, ?_, ?_⟩
    · simp only [testFileFont, hface, h0, if_true, Bool.true_eq_false, if_false]
    · simp
    · intro x
      cases p.trace <;> cases p.enableCache <;> simp
    · intro t l r
      cases p.trace <;> cases p.enableCache <;> simp

/-- Witness of C18's theorem: the arguments `gr2fonttest font.ttf`. -/
theorem testFileFont_prints_features_witness :
    testFileFont { face_with_seg_cache := fun _ => true, face := fun _ => true, featureList := false, seg := none }
        0 { (Parameters.clear 0) with fileName := ascii "font.ttf" } =
      some (0, [.make_file_face (ascii "font.ttf"), .printFeatures, .face_destroy,
        .stop_logging]) :=
  (testFileFont_prints_features env_plain
    { face_with_seg_cache := fun _ => true, face := fun _ => true, featureList := false, seg := none }
    0 (ascii "gr2fonttest") (ascii "font.ttf") 0 (by decide)).2.2.1 rfl

theorem array_mem_of_lt (entries : List Nat) (after : Int → Nat) (i : Nat)
    (h : i < entries.length) : array_mem entries after (i : Int) = entries.getD i 0 := by
  unfold array_mem
  have : (0 : Int) ≤ (i : Int) ∧ (i : Int) < (entries.length : Int) := by omega
  rw [if_pos this]
  simp

theorem array_mem_end (entries : List Nat) (after : Int → Nat) :
    array_mem entries after (entries.length : Int) = 0 := by
  unfold array_mem
  have : ¬ ((0 : Int) ≤ (entries.length : Int) ∧ (entries.length : Int) < entries.length) := by
    omega
  rw [if_neg this]
  simp

theorem getD_append_cons (pre : List Nat) (e : Nat) (suf : List Nat) :
    (pre ++ e :: suf).getD pre.length 0 = e := by
  induction pre with
  | nil => rfl
  | cons a pre ih => simpa using ih

theorem lookup_loop_suffix (pre suf : List Nat) (after : Int → Nat) (val : Nat)
    (hnz : ∀ e ∈ pre ++ suf, e ≠ 0) (hlen : (pre ++ suf).length < 2 ^ 31) :
    lookup_loop (array_mem (pre ++ suf) after) val (suf.length + 1) (pre.length : Int)
      = some (((pre.length + suf.indexOf val : Nat) : Int)) := by
  induction suf generalizing pre with
  | nil =>
    have h := array_mem_end (pre ++ []) after
    simp only [List.append_nil] at h ⊢
    simp [lookup_loop, h]
  | cons e suf ih =>
    have he : array_mem (pre ++ e :: suf) after (pre.length : Int) = e := by
      rw [array_mem_of_lt _ _ _ (by simp)]
      exact getD_append_cons pre e suf
    have he0 : e ≠ 0 := hnz e (by simp)
    rw [lookup_loop, he]
    by_cases hv : e = val
    · simp [hv, List.indexOf_cons_self]
    · have hrec := ih (pre ++ [e]) (by simpa using hnz) (by simpa using hlen)
      simp only [List.append_assoc, List.singleton_append, List.length_append,
        List.length_singleton, List.length_cons, List.length_nil, Nat.zero_add] at hrec hlen
      have hi : to_int ((pre.length : Int) + 1) = ((pre.length + 1 : Nat) : Int) := by
        rw [to_int_of_range] <;> omega
      simp only [ne_eq, hv, not_false_eq_true, he0, and_self, if_true, hi, List.length_cons]
      rw [hrec, List.indexOf_cons_ne _ hv]
      have harith : pre.length + 1 + List.indexOf val suf
          = pre.length + (List.indexOf val suf).succ := by omega
      rw [harith]

theorem not_of_lt_indexOf (l : List Nat) (val : Nat) (j : Nat) (hj : j < l.indexOf val) :
    l.getD j 0 ≠ val := by
  induction l generalizing j with
  | nil => simp at hj
  | cons e l ih =>
    by_cases hv : e = val
    · simp [hv, List.indexOf_cons_self] at hj
    · rw [List.indexOf_cons_ne _ hv] at hj
      cases j with
      | zero => simpa using hv
      | succ j => simpa using ih j (by omega)

/-- C26: for a zero-terminated array whose entries before the terminator are non-zero, fewer
than 2^31 of them, and every value `val`, `lookup(map, val)` returns: when `val` occurs
before the terminator, the least index `i` with `map[i] = val`; otherwise -1, so -1 for
`val = 0`; and when the entries are pairwise distinct, for the entry at the position `k`
it returns `k`. -/
theorem lookup_least_index (entries : List Nat) (after : Int → Nat) (val : Nat)
    (hnz : ∀ e ∈ entries, e ≠ 0) (hlen : entries.length < 2 ^ 31) :
    (val ∈ entries →
      lookup (array_mem entries after) val (entries.length + 1)
        = some ((entries.indexOf val : Nat) : Int) ∧
      entries.indexOf val < entries.length ∧
      entries.getD (entries.indexOf val) 0 = val ∧
      ∀ j, j < entries.indexOf val → entries.getD j 0 ≠ val) ∧
    (val ∉ entries → lookup (array_mem entries after) val (entries.length + 1) = some (-1)) ∧
    lookup (array_mem entries after) 0 (entries.length + 1) = some (-1) ∧
    (entries.Nodup → ∀ k (hk : k < entries.length),
      lookup (array_mem entries after) (entries.get ⟨k, hk⟩) (entries.length + 1)
        = some (k : Int)) := by
  have hloop : ∀ v, lookup_loop (array_mem entries after) v (entries.length + 1) 0
      = some ((entries.indexOf v : Nat) : Int) := by
    intro v
    have := lookup_loop_suffix [] entries after v (by simpa using hnz) (by simpa using hlen)
    simpa using this
  have hin : ∀ v, v ∈ entries →
      lookup (array_mem entries after) v (entries.length + 1)
        = some ((entries.indexOf v : Nat) : Int) := by
    intro v hv
    have hlt : entries.indexOf v < entries.length := List.indexOf_lt_length.2 hv
    have hget : entries.getD (entries.indexOf v) 0 = v := by
      rw [List.getD_eq_getElem _ _ hlt]
      exact List.indexOf_get hlt
    have hv0 : v ≠ 0 := hnz v hv
    unfold lookup
    rw [hloop v, Option.map_some', array_mem_of_lt _ _ _ hlt, hget]
    simp [hv0]
  have hout : ∀ v, v ∉ entries →
      lookup (array_mem entries after) v (entries.length + 1) = some (-1) := by
    intro v hv
    have hidx : entries.indexOf v = entries.length := List.indexOf_eq_length.2 hv
    unfold lookup
    rw [hloop v, Option.map_some', hidx, array_mem_end]
    simp
  refine ⟨?_, hout val, ?_, ?_⟩
  · intro hv
    have hlt : entries.indexOf val < entries.length := List.indexOf_lt_length.2 hv
    refine ⟨hin val hv, hlt, ?_, fun j hj => not_of_lt_indexOf entries val j hj⟩
    rw [List.getD_eq_getElem _ _ hlt]
    exact List.indexOf_get hlt
  · exact hout 0 (fun h => hnz 0 h rfl)
  · intro hnd k hk
    have hmem : entries.get ⟨k, hk⟩ ∈ entries := List.get_mem _ _ _
    rw [hin _ hmem]
    have := List.get_indexOf hnd ⟨k, hk⟩
    simp only [List.get_eq_getElem] at this ⊢
    rw [this]

/-- Witness of C26's theorem: the array of the three slot handles 16, 48, 32. -/
theorem lookup_least_index_witness :
    lookup (array_mem [16, 48, 32] (fun _ => 7)) 48 4 = some 1 ∧
    lookup (array_mem [16, 48, 32] (fun _ => 7)) 5 4 = some (-1) ∧
    lookup (array_mem [16, 48, 32] (fun _ => 7)) 0 4 = some (-1) :=
  ⟨((lookup_least_index [16, 48, 32] (fun _ => 7) 48 (by decide) (by decide)).1
      (by decide)).1,
    (lookup_least_index [16, 48, 32] (fun _ => 7) 5 (by decide) (by decide)).2.1 (by decide),
    (lookup_least_index [16, 48, 32] (fun _ => 7) 5 (by decide) (by decide)).2.2.1⟩

theorem convert_loop_valid (cps : List Nat) (more : List (Nat × Bool))
    (hnz : ∀ v ∈ cps, v ≠ 0) (k : Nat) (ws : List (Nat × Nat)) :
    convert_loop (cps.map (fun v => (v, false)) ++ (0, false) :: more) k ws =
      some (k + cps.length, false, ws ++ indexed k cps ++ [(k + cps.length, 0)]) := by
  induction cps generalizing k ws with
  | nil => simp [convert_loop, indexed]
  | cons v cps ih =>
    have hv : v ≠ 0 := hnz v (by simp)
    have hrest : ∀ u ∈ cps, u ≠ 0 := fun u hu => hnz u (by simp [hu])
    have step : convert_loop ((v :: cps).map (fun v => (v, false)) ++ (0, false) :: more) k ws
        = convert_loop (cps.map (fun v => (v, false)) ++ (0, false) :: more) (k + 1)
          (ws ++ [(k, v)]) := by
      show convert_loop ((v, false) :: (cps.map (fun v => (v, false)) ++ (0, false) :: more))
        k ws = _
      rw [convert_loop]
      simp [hv]
    rw [step, ih hrest]
    have harith : k + 1 + cps.length = k + (cps.length + 1) := by omega
    simp only [indexed, List.length_cons, List.append_assoc, List.singleton_append,
      List.cons_append, List.nil_append, harith]

/-- C24 (as the code behaves): for a string `s` that is not empty, whose decoding yields the
`n` code points `cps` and then the terminating 0 without an error, `convertUtf` returns `n`
and leaves in `dest` a block of `strlen(s + 1)` cells, one less than `s` has bytes; it
writes the `n` code points to the cells 0 to `n - 1` and the 0 to the cell `n`. So the block
holds every cell written only when `s` has at least `n + 2` bytes; when it has fewer, as a
string of ASCII characters has, the cell `n` of the terminating 0 lies outside the
block. -/
theorem convertUtf_block (env : Env) (c : Nat) (rest : List Nat) (cps : List Nat)
    (more : List (Nat × Bool))
    (hm : env.malloc (4 * rest.length % 2 ^ 64) = true)
    (hutf : env.utf8 (c :: rest) = cps.map (fun v => (v, false)) ++ (0, false) :: more)
    (hnz : ∀ v ∈ cps, v ≠ 0) :
    convertUtf env (c :: rest) =
      some (some { cells := rest.length, writes := indexed 0 cps ++ [(cps.length, 0)] },
        cps.length,
        some { cells := rest.length, writes := indexed 0 cps ++ [(cps.length, 0)] }) ∧
    ((∀ w ∈ indexed 0 cps ++ [(cps.length, 0)], w.1 < rest.length) ↔
      cps.length + 2 ≤ (c :: rest).length) ∧
    ((c :: rest).length < cps.length + 2 →
      (cps.length, 0) ∈ indexed 0 cps ++ [(cps.length, 0)] ∧ rest.length ≤ cps.length) := by
  refine ⟨?_, ?_, ?_⟩
  · unfold convertUtf
    simp only [hm, Bool.true_eq_false, if_false, hutf]
    rw [convert_loop_valid cps more hnz 0 []]
    simp
  · simp only [List.length_cons]
    constructor
    · intro h
      have := h (cps.length, 0) (by simp)
      simp only [] at this
      omega
    · intro h w hw
      simp only [List.mem_append, List.mem_singleton] at hw
      rcases hw with hw | hw
      · have := indexed_fst_lt 0 cps w hw
        omega
      · subst hw
        simp only []
        omega
  · intro h
    simp only [List.length_cons] at h
    exact ⟨by simp, by omega⟩

/-- Witness of C24's theorem: the string `abc`, for which the block has 2 cells and the
cells 0 to 3 are written. -/
theorem convertUtf_block_witness :
    convertUtf env_plain (ascii "abc") =
      some (some { cells := 2, writes := [(0, 97), (1, 98), (2, 99), (3, 0)] }, 3,
        some { cells := 2, writes := [(0, 97), (1, 98), (2, 99), (3, 0)] }) ∧
    ((3, 0) ∈ [(0, 97), (1, 98), (2, 99), (3, 0)] ∧ 2 ≤ 3) :=
  ⟨(convertUtf_block env_plain 97 [98, 99] [97, 98, 99] [] rfl rfl (by decide)).1,
    (convertUtf_block env_plain 97 [98, 99] [97, 98, 99] [] rfl rfl (by decide)).2.2
      (by decide)⟩

theorem shl_or_char (a c : Nat) (hc : c < 128) :
    (a * 256) ||| to_unsigned (char_value c) = a * 256 + c := by
  rw [to_unsigned_char_value c hc]
  have h := Nat.mul_add_lt_is_or (show c < 2 ^ 8 by omega) a
  have e : 2 ^ 8 * a = a * 256 := by omega
  rw [e] at h
  exact h.symm

theorem lang_loop_four (mem : Nat → Nat) (c0 c1 c2 c3 : Nat)
    (h0 : mem 0 = c0) (h1 : mem 1 = c1) (h2 : mem 2 = c2) (h3 : mem 3 = c3)
    (a0 : c0 < 128 ∧ c0 ≠ 48 ∧ c0 ≠ 38) (a1 : c1 < 128 ∧ c1 ≠ 48 ∧ c1 ≠ 38)
    (a2 : c2 < 128 ∧ c2 ≠ 48 ∧ c2 ≠ 38) (a3 : c3 < 128 ∧ c3 ≠ 48 ∧ c3 ≠ 38) :
    lang_loop mem 4 0 0 [] = (c1 * 2 ^ 24 + c2 * 2 ^ 16 + c3 * 2 ^ 8, [0, 1, 2, 3]) := by
  have e0 : 0 ||| to_unsigned (char_value c0) = c0 := by
    rw [to_unsigned_char_value c0 a0.1, Nat.zero_or]
  have s1 : (c0 <<< 8) % 2 ^ 32 = c0 * 256 := by
    rw [Nat.shiftLeft_eq]
    omega
  have e1 : (c0 * 256) ||| to_unsigned (char_value c1) = c0 * 256 + c1 :=
    shl_or_char c0 c1 a1.1
  have s2 : ((c0 * 256 + c1) <<< 8) % 2 ^ 32 = (c0 * 256 + c1) * 256 := by
    rw [Nat.shiftLeft_eq]
    omega
  have e2 : ((c0 * 256 + c1) * 256) ||| to_unsigned (char_value c2)
      = (c0 * 256 + c1) * 256 + c2 := shl_or_char _ c2 a2.1
  have s3 : (((c0 * 256 + c1) * 256 + c2) <<< 8) % 2 ^ 32
      = ((c0 * 256 + c1) * 256 + c2) * 256 := by
    rw [Nat.shiftLeft_eq]
    omega
  have e3 : (((c0 * 256 + c1) * 256 + c2) * 256) ||| to_unsigned (char_value c3)
      = ((c0 * 256 + c1) * 256 + c2) * 256 + c3 := shl_or_char _ c3 a3.1
  have s4 : ((((c0 * 256 + c1) * 256 + c2) * 256 + c3) <<< 8) % 2 ^ 32
      = c1 * 2 ^ 24 + c2 * 2 ^ 16 + c3 * 2 ^ 8 := by
    rw [Nat.shiftLeft_eq]
    omega
  simp only [lang_loop, h0, h1, h2, h3, a0.2.1, a0.2.2, a1.2.1, a1.2.2, a2.2.1, a2.2.2,
    a3.2.1, a3.2.2, or_self, if_false, Nat.zero_add, e0, s1, e1, s2, e2, s3, e3, s4,
    List.nil_append, List.cons_append, Nat.reduceAdd]

/-- C25 (as the code behaves): for a `-feat` string in which the first `lang=` is followed
by four ASCII characters `c0 c1 c2 c3`, none of them `'0'` or `'&'`,
`Parameters::parseFeatures` requests the feature values of the language with the tag
`c1<<24 | c2<<16 | c3<<8`: the loop shifts `lang_id` once more after the fourth character,
so `c0` is lost and the low byte is 0. That is never the tag `c0<<24 | c1<<16 | c2<<8 | c3`
in which `printFeatures` prints language tags. -/
theorem parseFeatures_lang_shifted {ρ Φ : Type} (featureval_for_lang : Nat → Φ)
    (find : Nat → Option ρ) (set : ρ → Int → Φ → Φ) (features rest : List Nat)
    (after : Nat → Nat) (c0 c1 c2 c3 : Nat)
    (hstr : strstr features (ascii "lang=") = some (ascii "lang=" ++ c0 :: c1 :: c2 :: c3 :: rest))
    (a0 : 0 < c0 ∧ c0 < 128 ∧ c0 ≠ 48 ∧ c0 ≠ 38) (a1 : 0 < c1 ∧ c1 < 128 ∧ c1 ≠ 48 ∧ c1 ≠ 38)
    (a2 : 0 < c2 ∧ c2 < 128 ∧ c2 ≠ 48 ∧ c2 ≠ 38)
    (a3 : 0 < c3 ∧ c3 < 128 ∧ c3 ≠ 48 ∧ c3 ≠ 38) :
    parse_lang (some features) after = c1 * 2 ^ 24 + c2 * 2 ^ 16 + c3 * 2 ^ 8 ∧
    parse_lang (some features) after ≠ c0 * 2 ^ 24 + c1 * 2 ^ 16 + c2 * 2 ^ 8 + c3 ∧
    parseFeatures featureval_for_lang find set (some features) after =
      parseFeatures
        (fun _ => featureval_for_lang (c1 * 2 ^ 24 + c2 * 2 ^ 16 + c3 * 2 ^ 8))
        find set (some features) after := by
  have hd : (ascii "lang=" ++ c0 :: c1 :: c2 :: c3 :: rest).drop 5
      = c0 :: c1 :: c2 :: c3 :: rest := by
    have h5 : ascii "lang=" = [108, 97, 110, 103, 61] := by decide
    rw [h5]
    rfl
  have hl : parse_lang (some features) after = c1 * 2 ^ 24 + c2 * 2 ^ 16 + c3 * 2 ^ 8 := by
    simp only [parse_lang, hstr, hd]
    rw [lang_loop_four _ c0 c1 c2 c3 (by simp [c_string_mem]) (by simp [c_string_mem])
      (by simp [c_string_mem]) (by simp [c_string_mem]) a0.2 a1.2 a2.2 a3.2]
  refine ⟨hl, ?_, ?_⟩
  · rw [hl]
    omega
  · simp only [parseFeatures, hl]

/-- Witness of C25's theorem: the string `lang=ENG `, for which the feature values of the
language 0x4e472000 are requested, not those of 0x454e4720. -/
theorem parseFeatures_lang_shifted_witness :
    parse_lang (some (ascii "lang=ENG ")) (fun _ => 0) = 0x4e472000 ∧
    parse_lang (some (ascii "lang=ENG ")) (fun _ => 0) ≠ 0x454e4720 :=
  ⟨(parseFeatures_lang_shifted (fun l => l) (fun _ => (none : Option Unit))
      (fun _ _ fl => fl) (ascii "lang=ENG ") [] (fun _ => 0) 69 78 71 32 (by decide)
      (by decide) (by decide) (by decide) (by decide)).1,
    (parseFeatures_lang_shifted (fun l => l) (fun _ => (none : Option Unit))
      (fun _ _ fl => fl) (ascii "lang=ENG ") [] (fun _ => 0) 69 78 71 32 (by decide)
      (by decide) (by decide) (by decide) (by decide)).2.1⟩

end gr2fonttest
